import Mathlib

/-!
# Verification of the Boolector expression core (`src/btorexp.c`)

Shallow embedding of the node arena, unique table (hash-cons index), node
constructors, parent-list wiring, proxy rewriting and the reference-counting
release engine of `btorexp.c`, together with theorems settling the frozen
claims about this code.

Modelling conventions:
* A C node pointer with its low inversion tag bit becomes a `Handle`
  (node id + inversion flag); `BTOR_REAL_ADDR_NODE` strips the flag.
* The node arena `btor->nodes_id_table` becomes `List (Option BtorNode)`
  indexed by id (slot 0 reserved, freed slots become `none`).
* The open-chained unique table maps every structurally equal candidate to the
  same bucket (the hash only reads fields the match predicates read), so the
  chains are modelled as one list of node ids searched in order; insertion on a
  miss appends at the end of the chain, exactly as the C code appends at the
  end of the bucket chain.  Enlarging the table rehashes nodes between buckets
  without changing membership, hence is modelled as doubling `size` only.
* Machine integers become `Nat` (hash arithmetic is taken mod 2^32 where it
  matters); reference counters become `Nat` (the C code aborts on overflow).
* Code of this repository that is not under `src/` (the sort registry of
  `btorsort.c`, the bit-vector library of `btorbv.c`, `btor_simplify_exp` of
  `btorcore.c`) is modelled from the spec, marked by doc comments.
-/

/-- Node kinds, in the order of the `g_btor_op2str` table of `btorexp.c`. -/
inductive BtorNodeKind where
  | invalid
  | bvConst
  | bvVar
  | param
  | slice
  | and
  | bvEq
  | funEq
  | add
  | mul
  | ult
  | sll
  | srl
  | udiv
  | urem
  | concat
  | apply
  | lambda
  | cond
  | args
  | uf
  | update
  | proxy
deriving DecidableEq, Repr

/-- Numeric value of a kind in the C enum (the order of `g_btor_op2str`). -/
def BtorNodeKind.code : BtorNodeKind → Nat
  | .invalid => 0
  | .bvConst => 1
  | .bvVar => 2
  | .param => 3
  | .slice => 4
  | .and => 5
  | .bvEq => 6
  | .funEq => 7
  | .add => 8
  | .mul => 9
  | .ult => 10
  | .sll => 11
  | .srl => 12
  | .udiv => 13
  | .urem => 14
  | .concat => 15
  | .apply => 16
  | .lambda => 17
  | .cond => 18
  | .args => 19
  | .uf => 20
  | .update => 21
  | .proxy => 22

/-- `BTOR_IS_BINARY_COMMUTATIVE_NODE_KIND`: kinds between `BTOR_AND_NODE` and
`BTOR_MUL_NODE` in the enum. -/
def btor_is_binary_commutative_node_kind (k : BtorNodeKind) : Bool :=
  BtorNodeKind.and.code ≤ k.code && k.code ≤ BtorNodeKind.mul.code

/-- Modelled from the spec (§4.1, `btorsort.c` is not under `src/`): the sort
registry interns type descriptors Bool, BV(w), Tuple(s…), Fun(dom, cod) and
hands out reference-counted sort ids; interning makes two sort ids equal
exactly when the sort shapes are equal, so a sort id is modelled as the sort
shape itself. -/
inductive BtorSort where
  | bool
  | bitvec (width : Nat)
  | tuple (elements : List BtorSort)
  | func (domain : BtorSort) (codomain : BtorSort)

namespace BtorSort

mutual

def beqSort : BtorSort → BtorSort → Bool
  | .bool, .bool => true
  | .bitvec w, .bitvec w' => w == w'
  | .tuple es, .tuple es' => beqSortList es es'
  | .func d c, .func d' c' => beqSort d d' && beqSort c c'
  | _, _ => false

def beqSortList : List BtorSort → List BtorSort → Bool
  | [], [] => true
  | s :: ss, t :: ts => beqSort s t && beqSortList ss ts
  | _, _ => false

end

mutual

theorem beqSort_iff : ∀ s t : BtorSort, beqSort s t = true ↔ s = t
  | .bool, .bool => by simp [beqSort]
  | .bool, .bitvec _ | .bool, .tuple _ | .bool, .func _ _ => by simp [beqSort]
  | .bitvec _, .bool | .bitvec _, .tuple _ | .bitvec _, .func _ _ => by
      simp [beqSort]
  | .bitvec w, .bitvec w' => by simp [beqSort]
  | .tuple _, .bool | .tuple _, .bitvec _ | .tuple _, .func _ _ => by
      simp [beqSort]
  | .tuple es, .tuple es' => by
      simp only [beqSort, BtorSort.tuple.injEq]
      exact beqSortList_iff es es'
  | .func _ _, .bool | .func _ _, .bitvec _ | .func _ _, .tuple _ => by
      simp [beqSort]
  | .func d c, .func d' c' => by
      simp only [beqSort, Bool.and_eq_true, BtorSort.func.injEq]
      exact and_congr (beqSort_iff d d') (beqSort_iff c c')

theorem beqSortList_iff : ∀ ss ts : List BtorSort, beqSortList ss ts = true ↔ ss = ts
  | [], [] => by simp [beqSortList]
  | [], _ :: _ => by simp [beqSortList]
  | _ :: _, [] => by simp [beqSortList]
  | s :: ss, t :: ts => by
      simp only [beqSortList, Bool.and_eq_true, List.cons.injEq]
      exact and_congr (beqSort_iff s t) (beqSortList_iff ss ts)

end

instance : DecidableEq BtorSort := fun s t =>
  decidable_of_iff (beqSort s t = true) (beqSort_iff s t)

end BtorSort

/-- Modelled from the spec (§4.2, `btorbv.c` is not under `src/`): fixed-width
unsigned bit-vector values; `val` is interpreted mod `2 ^ width`. -/
structure BtorBitVector where
  width : Nat
  val : Nat
deriving DecidableEq, Repr

/-- Modelled from the spec: `btor_copy_bv` duplicates a bit-vector value. -/
def btor_copy_bv (b : BtorBitVector) : BtorBitVector := b

/-- Modelled from the spec: `btor_not_bv`, bitwise complement at the given
width. -/
def btor_not_bv (b : BtorBitVector) : BtorBitVector :=
  ⟨b.width, 2 ^ b.width - 1 - b.val % 2 ^ b.width⟩

/-- Modelled from the spec: `btor_get_bit_bv`, bit `i` of the value. -/
def btor_get_bit_bv (b : BtorBitVector) (i : Nat) : Nat :=
  b.val / 2 ^ i % 2

/-- Modelled from the spec: `btor_compare_bv`, a total order used by the unique
table only through its zero test, which holds exactly on equal width/value
pairs. -/
def btor_compare_bv (a b : BtorBitVector) : Int :=
  if a.width < b.width then -1
  else if b.width < a.width then 1
  else if a.val < b.val then -1
  else if b.val < a.val then 1
  else 0

theorem btor_compare_bv_eq_zero (a b : BtorBitVector) :
    btor_compare_bv a b = 0 ↔ a = b := by
  rcases a with ⟨aw, av⟩
  rcases b with ⟨bw, bv⟩
  simp only [btor_compare_bv, BtorBitVector.mk.injEq]
  split
  · constructor
    · intro h; cases h
    · rintro ⟨h1, h2⟩; omega
  · split
    · constructor
      · intro h; cases h
      · rintro ⟨h1, h2⟩; omega
    · split
      · constructor
        · intro h; cases h
        · rintro ⟨h1, h2⟩; omega
      · split
        · constructor
          · intro h; cases h
          · rintro ⟨h1, h2⟩; omega
        · simp only [true_iff]
          omega

/-- A tagged node pointer: the low bit of a C `BtorNode *` is the inversion
flag, the untagged bits are the node (its id in this model). -/
structure Handle where
  inv : Bool
  id : Nat
deriving DecidableEq, Repr

/-- `BTOR_INVERT_NODE`: toggle the inversion bit. -/
def BTOR_INVERT_NODE (h : Handle) : Handle := ⟨!h.inv, h.id⟩

/-- `BTOR_IS_INVERTED_NODE`. -/
def BTOR_IS_INVERTED_NODE (h : Handle) : Bool := h.inv

/-- `BTOR_COND_INVERT_NODE (cond, exp)`: invert `exp` iff `cond` is an
inverted pointer. -/
def BTOR_COND_INVERT_NODE (c h : Handle) : Handle :=
  if c.inv then BTOR_INVERT_NODE h else h

/-- A parent-list entry: a parent pointer tagged with the child position
(`BTOR_TAG_NODE (parent, pos)`). -/
structure TaggedParent where
  id : Nat
  tag : Nat
deriving DecidableEq, Repr

/-- A node of the expression DAG (`struct BtorNode` with the kind-specific
extensions flattened in; absent kind-specific data is `none`/`[]`/`false`). -/
structure BtorNode where
  id : Nat
  kind : BtorNodeKind
  sort_id : Option BtorSort
  arity : Nat
  /-- child edges `e[0..2]`; `none` in unused or disconnected slots -/
  e : List (Option Handle)
  refs : Nat
  ext_refs : Nat
  parents : Nat
  first_parent : Option TaggedParent
  last_parent : Option TaggedParent
  /-- `next_parent[0..2]` -/
  next_parent : List (Option TaggedParent)
  /-- `prev_parent[0..2]` -/
  prev_parent : List (Option TaggedParent)
  unique : Bool
  parameterized : Bool
  lambda_below : Bool
  apply_below : Bool
  is_array : Bool
  erased : Bool
  disconnected : Bool
  simplified : Option Handle
  /-- BvConst: owned bits -/
  bits : Option BtorBitVector
  /-- BvConst: precomputed inverse -/
  invbits : Option BtorBitVector
  /-- Slice bounds -/
  upper : Nat
  lower : Nat
  /-- cached bit-blasted aig-vector present (`av != 0`) -/
  av : Bool
  /-- lazily built apply cache present (`rho != 0`) -/
  rho : Bool
  /-- Lambda: static rho entries (args-tuple handle, result handle) -/
  static_rho : List (Handle × Handle)
  /-- Lambda: `body` pointer (`btor_lambda_get_body`) -/
  body : Option Handle
  /-- Param: back-reference to the binding lambda (`lambda_exp`) -/
  lambda_exp : Option Nat
deriving DecidableEq

/-- A fresh node skeleton, as produced by `BTOR_CNEW` (all fields zeroed). -/
def newBtorNode : BtorNode where
  id := 0
  kind := .invalid
  sort_id := none
  arity := 0
  e := [none, none, none]
  refs := 0
  ext_refs := 0
  parents := 0
  first_parent := none
  last_parent := none
  next_parent := [none, none, none]
  prev_parent := [none, none, none]
  unique := false
  parameterized := false
  lambda_below := false
  apply_below := false
  is_array := false
  erased := false
  disconnected := false
  simplified := none
  bits := none
  invbits := none
  upper := 0
  lower := 0
  av := false
  rho := false
  static_rho := []
  body := none
  lambda_exp := none

/-- The solver context (`struct Btor`), restricted to the state the expression
core reads and writes. -/
structure Btor where
  /-- `nodes_id_table`: arena indexed by id, slot 0 reserved -/
  nodes_id_table : List (Option BtorNode)
  /-- all chains of `nodes_unique_table`, searched in order -/
  unique_chain : List Nat
  unique_num_elements : Nat
  unique_size : Nat
  /-- side table `bv_vars` (node ids) -/
  bv_vars : List Nat
  /-- side table `ufs` (node ids) -/
  ufs : List Nat
  /-- side table `feqs` (node ids) -/
  feqs : List Nat
  /-- side table `lambdas`: node id ↦ stored lambda hash -/
  lambdas : List (Nat × Nat)
  /-- side table `node2symbol`: node id ↦ symbol -/
  node2symbol : List (Nat × String)
  /-- side table `symbols`: symbol ↦ node id -/
  symbols : List (String × Nat)
  /-- side table `parameterized`: node id ↦ ids of the free params below it -/
  parameterized_tbl : List (Nat × List Nat)
  /-- reference counts of the interned sorts (sort registry state) -/
  sort_refs : List (BtorSort × Nat)
  /-- option `BTOR_OPT_SORT_EXP` -/
  opt_sort_exp : Nat
  /-- option `BTOR_OPT_REWRITE_LEVEL` -/
  opt_rewrite_level : Nat
  external_refs : Nat
deriving DecidableEq

/-- A fresh context: empty arena (slot 0 reserved), empty unique table of size
1, sort normalisation on, rewriting off (the rewriter is out of scope). -/
def emptyBtor : Btor where
  nodes_id_table := [none]
  unique_chain := []
  unique_num_elements := 0
  unique_size := 1
  bv_vars := []
  ufs := []
  feqs := []
  lambdas := []
  node2symbol := []
  symbols := []
  parameterized_tbl := []
  sort_refs := []
  opt_sort_exp := 1
  opt_rewrite_level := 0
  external_refs := 0

/-- `BTOR_PEEK_STACK (btor->nodes_id_table, id)`: the node in slot `id`, or
`none` for a freed or out-of-range slot (a NULL pointer in C). -/
def getNode (S : Btor) (id : Nat) : Option BtorNode :=
  (S.nodes_id_table.getD id none)

/-- Update the node in slot `id` in place (a C field assignment through a
node pointer). Slots out of range or freed are left unchanged. -/
def updateNode (S : Btor) (id : Nat) (f : BtorNode → BtorNode) : Btor :=
  { S with nodes_id_table :=
      S.nodes_id_table.set id ((S.nodes_id_table.getD id none).map f) }

/-- Number of ids handed out so far (`BTOR_COUNT_STACK (nodes_id_table)`). -/
def nodesCount (S : Btor) : Nat := S.nodes_id_table.length

theorem getNode_updateNode_ne (S : Btor) (id j : Nat) (f : BtorNode → BtorNode)
    (h : j ≠ id) : getNode (updateNode S id f) j = getNode S j := by
  simp only [getNode, updateNode]
  rcases Nat.lt_or_ge id S.nodes_id_table.length with hid | hid
  · rcases Nat.lt_or_ge j S.nodes_id_table.length with hj | hj
    · rw [List.getD_eq_getElem?_getD, List.getElem?_set_ne (Ne.symm h),
        ← List.getD_eq_getElem?_getD]
    · rw [List.getD_eq_getElem?_getD, List.getElem?_eq_none (by simpa using hj),
        List.getD_eq_getElem?_getD,
        List.getElem?_eq_none (by simpa using hj)]
  · rw [List.set_eq_of_length_le hid]

theorem getNode_updateNode_self (S : Btor) (id : Nat) (f : BtorNode → BtorNode)
    (hid : id < S.nodes_id_table.length) :
    getNode (updateNode S id f) id = (getNode S id).map f := by
  simp only [getNode, updateNode]
  rw [List.getD_eq_getElem?_getD, List.getElem?_set_self hid]
  simp [List.getD_eq_getElem?_getD]

/-- `inc_exp_ref_counter`: bump the strong reference count of the real node
(the C code aborts on overflow; counters are unbounded here). -/
def inc_exp_ref_counter (S : Btor) (h : Handle) : Btor :=
  updateNode S h.id (fun n => { n with refs := n.refs + 1 })

/-- `btor_copy_exp`: increment the reference count and hand back the same
(possibly tagged) pointer. -/
def btor_copy_exp (S : Btor) (h : Handle) : Btor × Handle :=
  (inc_exp_ref_counter S h, h)

/-- Kind of the real node behind a handle (`invalid` for a freed slot). -/
def nodeKind (S : Btor) (h : Handle) : BtorNodeKind :=
  ((getNode S h.id).map (fun n => n.kind)).getD .invalid

/-- `btor_exp_get_sort_id`: the sort of the real node. -/
def btor_exp_get_sort_id (S : Btor) (h : Handle) : Option BtorSort :=
  (getNode S h.id).bind (fun n => n.sort_id)

/-- `btor_is_fun_cond_node`: a cond node of function sort. -/
def btor_is_fun_cond_node (n : BtorNode) : Bool :=
  n.kind == .cond &&
    (match n.sort_id with
     | some (.func _ _) => true
     | _ => false)

/-- Modelled from the spec (§4.5.4, the `btor_is_fun_node` macro lives in the
header `btorexp.h`, not under `src/`): function-typed nodes are lambdas,
uninterpreted functions, updates and function-sorted conditionals. -/
def btor_is_fun_node (n : BtorNode) : Bool :=
  n.kind == .lambda || n.kind == .uf || n.kind == .update ||
    btor_is_fun_cond_node n

/-- `btor_get_exp_width`: width of the node's bit-vector sort (`bool` counts
as width 1 for the Boolean sort the eq/ult constructors produce). -/
def btor_get_exp_width (S : Btor) (h : Handle) : Nat :=
  match btor_exp_get_sort_id S h with
  | some (.bitvec w) => w
  | some .bool => 1
  | _ => 0

/-- Look up the reference count of an interned sort. -/
def sortRefGet (l : List (BtorSort × Nat)) (s : BtorSort) : Nat :=
  match l with
  | [] => 0
  | (t, c) :: rest => if t = s then c else sortRefGet rest s

/-- Store the reference count of an interned sort. -/
def sortRefSet (l : List (BtorSort × Nat)) (s : BtorSort) (v : Nat) :
    List (BtorSort × Nat) :=
  match l with
  | [] => [(s, v)]
  | (t, c) :: rest =>
      if t = s then (t, v) :: rest else (t, c) :: sortRefSet rest s v

/-- Modelled from the spec (§4.1): `btor_copy_sort` bumps the registry
reference count of an interned sort. -/
def btor_copy_sort (S : Btor) (s : BtorSort) : Btor :=
  { S with sort_refs := sortRefSet S.sort_refs s (sortRefGet S.sort_refs s + 1) }

/-- Modelled from the spec (§4.1): `btor_release_sort` drops one registry
reference of an interned sort. -/
def btor_release_sort (S : Btor) (s : BtorSort) : Btor :=
  { S with sort_refs := sortRefSet S.sort_refs s (sortRefGet S.sort_refs s - 1) }

/-- Modelled from the spec (§4.1): `btor_bitvec_sort` interns BV(w) and
returns an owned sort id. -/
def btor_bitvec_sort (S : Btor) (w : Nat) : Btor × BtorSort :=
  (btor_copy_sort S (.bitvec w), .bitvec w)

/-- Modelled from the spec (§4.1): `btor_bool_sort` interns Bool. -/
def btor_bool_sort (S : Btor) : Btor × BtorSort :=
  (btor_copy_sort S .bool, .bool)

/-- Modelled from the spec (§4.1): `btor_tuple_sort` interns Tuple(s…). -/
def btor_tuple_sort (S : Btor) (elems : List BtorSort) : Btor × BtorSort :=
  (btor_copy_sort S (.tuple elems), .tuple elems)

/-- Modelled from the spec (§4.1): `btor_fun_sort` interns Fun(dom, cod). -/
def btor_fun_sort (S : Btor) (dom cod : BtorSort) : Btor × BtorSort :=
  (btor_copy_sort S (.func dom cod), .func dom cod)

/-- Modelled from the spec (§4.5 step 1, `btor_simplify_exp` lives in
`btorcore.c`, not under `src/`): forward a handle through its `simplified`
chain until terminal, composing inversion flags; fuel bounds the chase. -/
def btor_pointer_chase (S : Btor) : Nat → Handle → Handle
  | 0, h => h
  | fuel + 1, h =>
      match getNode S h.id with
      | none => h
      | some n =>
          match n.simplified with
          | none => h
          | some s => btor_pointer_chase S fuel (BTOR_COND_INVERT_NODE h s)

/-- Modelled from the spec: `btor_simplify_exp` with enough fuel for any
acyclic forwarding chain in the arena. -/
def btor_simplify_exp (S : Btor) (h : Handle) : Handle :=
  btor_pointer_chase S (nodesCount S + 1) h

theorem btor_simplify_exp_terminal (S : Btor) (h : Handle)
    (hter : ((getNode S h.id).bind (fun n => n.simplified)) = none) :
    btor_simplify_exp S h = h := by
  simp only [btor_simplify_exp, btor_pointer_chase]
  split
  · rfl
  · rename_i n hn
    rw [hn] at hter
    simp only [Option.some_bind] at hter
    rw [hter]

/-- `next_parent[pos]` of a node, read live. -/
def getNextParent (S : Btor) (id pos : Nat) : Option TaggedParent :=
  ((getNode S id).map (fun n => n.next_parent.getD pos none)).getD none

/-- `prev_parent[pos]` of a node, read live. -/
def getPrevParent (S : Btor) (id pos : Nat) : Option TaggedParent :=
  ((getNode S id).map (fun n => n.prev_parent.getD pos none)).getD none

/-- The flag-inheritance block of `connect_child_exp`: each
`if (cond) parent->flag = 1;` statement is one guarded field assignment. -/
def connect_set_flags (S : Btor) (parentId : Nat) (parent0 rchild0 : BtorNode) :
    Btor :=
  let S := updateNode S parentId (fun n =>
    if !(parent0.kind == .lambda) && rchild0.parameterized then
      { n with parameterized := true } else n)
  let S := updateNode S parentId (fun n =>
    if btor_is_fun_cond_node parent0 && rchild0.is_array then
      { n with is_array := true } else n)
  let S := updateNode S parentId (fun n =>
    if rchild0.lambda_below then { n with lambda_below := true } else n)
  updateNode S parentId (fun n =>
    if rchild0.apply_below then { n with apply_below := true } else n)

/-- The parent-list block of `connect_child_exp`: splice the tagged parent
record into the child's parent list — as the only entry, at the head, or
(for Apply parents, `insert_beginning = false`) at the tail. -/
def connect_splice (S : Btor) (parentId : Nat) (child : Handle) (pos : Nat)
    (insert_beginning : Bool) : Btor :=
  let tagged_parent : TaggedParent := ⟨parentId, pos⟩
  match (getNode S child.id).map (fun n => (n.first_parent, n.last_parent)) with
  | some (none, _) =>
      -- no parent so far
      updateNode S child.id (fun n =>
        { n with first_parent := some tagged_parent,
                 last_parent := some tagged_parent })
  | some (some fp, lpOpt) =>
      if insert_beginning then
        -- add parent at the beginning of the list
        let S := updateNode S parentId (fun n =>
          { n with next_parent := n.next_parent.set pos (some fp) })
        let S := updateNode S fp.id (fun n =>
          { n with prev_parent := n.prev_parent.set fp.tag (some tagged_parent) })
        updateNode S child.id (fun n => { n with first_parent := some tagged_parent })
      else
        -- add parent at the end of the list
        match lpOpt with
        | some lp =>
            let S := updateNode S parentId (fun n =>
              { n with prev_parent := n.prev_parent.set pos (some lp) })
            let S := updateNode S lp.id (fun n =>
              { n with next_parent := n.next_parent.set lp.tag (some tagged_parent) })
            updateNode S child.id (fun n => { n with last_parent := some tagged_parent })
        | none => S
  | none => S

/-- `connect_child_exp (btor, parent, child, pos)`: wire child edge `pos` of
`parent`, inherit flags, bump the child's parent and reference counts, and
splice the tagged parent record at the head of the child's parent list — at
the tail for Apply parents. -/
def connect_child_exp (S : Btor) (parentId : Nat) (child : Handle) (pos : Nat) :
    Btor :=
  match getNode S parentId, getNode S child.id with
  | some parent0, some rchild0 =>
      let S := connect_set_flags S parentId parent0 rchild0
      let S := updateNode S child.id (fun n => { n with parents := n.parents + 1 })
      let S := inc_exp_ref_counter S child
      let insert_beginning := !(parent0.kind == .apply)
      let S := updateNode S parentId (fun n => { n with e := n.e.set pos (some child) })
      connect_splice S parentId child pos insert_beginning
  | _, _ => S

/-- The parent-list block of `disconnect_child_exp`: remove the tagged parent
record from the child's parent list (only entry, head, tail, or middle). -/
def disconnect_splice (S : Btor) (parentId pos childId : Nat)
    (first_parent last_parent : Option TaggedParent) : Btor :=
  let tagged : TaggedParent := ⟨parentId, pos⟩
  if first_parent == some tagged && last_parent == some tagged then
    -- only one parent
    updateNode S childId (fun n =>
      { n with first_parent := none, last_parent := none })
  else if first_parent == some tagged then
    -- parent is first in the list
    let np := getNextParent S parentId pos
    let S := updateNode S childId (fun n => { n with first_parent := np })
    match np with
    | some x => updateNode S x.id (fun n =>
        { n with prev_parent := n.prev_parent.set x.tag none })
    | none => S
  else if last_parent == some tagged then
    -- parent is last in the list
    let pp := getPrevParent S parentId pos
    let S := updateNode S childId (fun n => { n with last_parent := pp })
    match pp with
    | some x => updateNode S x.id (fun n =>
        { n with next_parent := n.next_parent.set x.tag none })
    | none => S
  else
    -- detach parent from the middle of the list
    let np := getNextParent S parentId pos
    let pp := getPrevParent S parentId pos
    let S := match np with
      | some x => updateNode S x.id (fun n =>
          { n with prev_parent := n.prev_parent.set x.tag pp })
      | none => S
    match pp with
    | some x => updateNode S x.id (fun n =>
        { n with next_parent := n.next_parent.set x.tag np })
    | none => S

/-- `disconnect_child_exp (btor, parent, pos)`: undo the splice for child edge
`pos` of `parent`, decrement the child's parent count and clear the edge; a
param disconnected from its binding lambda loses its back-reference. -/
def disconnect_child_exp (S : Btor) (parentId : Nat) (pos : Nat) : Btor :=
  match getNode S parentId with
  | none => S
  | some parent =>
      match parent.e.getD pos none with
      | none => S
      | some childH =>
          let childId := childH.id
          let tagged : TaggedParent := ⟨parentId, pos⟩
          let S := updateNode S childId (fun n => { n with parents := n.parents - 1 })
          let first_parent := ((getNode S childId).map (fun n => n.first_parent)).getD none
          let last_parent := ((getNode S childId).map (fun n => n.last_parent)).getD none
          -- a param disconnected from its lambda resets `lambda_exp`
          let S := updateNode S childId (fun n =>
            if parent.kind == .lambda && pos == 0 && n.lambda_exp == some parentId then
              { n with lambda_exp := none }
            else n)
          let _ := tagged
          let S := disconnect_splice S parentId pos childId first_parent last_parent
          updateNode S parentId (fun n =>
            { n with next_parent := n.next_parent.set pos none,
                     prev_parent := n.prev_parent.set pos none,
                     e := n.e.set pos none })

/-- `disconnect_children_exp`: disconnect every child edge and mark the node
disconnected. -/
def disconnect_children_exp (S : Btor) (id : Nat) : Btor :=
  match getNode S id with
  | none => S
  | some n =>
      let S := (List.range n.arity).foldl (fun acc i => disconnect_child_exp acc id i) S
      updateNode S id (fun m => { m with disconnected := true })

/-- `remove_from_nodes_unique_table_exp`: unlink a node from its unique-table
chain (a no-op unless `unique` is set). -/
def remove_from_nodes_unique_table_exp (S : Btor) (id : Nat) : Btor :=
  match getNode S id with
  | none => S
  | some n =>
      if !n.unique then S
      else
        let S := { S with unique_chain := S.unique_chain.erase id,
                          unique_num_elements := S.unique_num_elements - 1 }
        updateNode S id (fun m => { m with unique := false })

/-- `erase_local_data_exp`: free the kind-specific local data (constant bits,
static rho, rho, aig-vector cache) and optionally the sort; `rel` is the
release engine used for the handles a lambda's static rho owns. -/
def erase_local_data_exp (rel : Btor → Handle → Btor) (S : Btor) (id : Nat)
    (free_sort : Bool) : Btor :=
  match getNode S id with
  | none => S
  | some n =>
      let S :=
        match n.kind with
        | .bvConst =>
            updateNode S id (fun m => { m with bits := none, invbits := none })
        | .lambda =>
            -- release each static_rho entry (value, then key), delete the table,
            -- then fall through to the rho deletion shared with update/uf
            let S := n.static_rho.foldl (fun acc kv => rel (rel acc kv.2) kv.1) S
            updateNode S id (fun m => { m with static_rho := [], rho := false })
        | .update => updateNode S id (fun m => { m with rho := false })
        | .uf => updateNode S id (fun m => { m with rho := false })
        | .cond =>
            if btor_is_fun_cond_node n && n.rho then
              updateNode S id (fun m => { m with rho := false })
            else S
        | _ => S
      let S :=
        if free_sort then
          let S := match n.sort_id with
            | some s => btor_release_sort S s
            | none => S
          updateNode S id (fun m => { m with sort_id := none })
        else S
      let S := updateNode S id (fun m => { m with av := false })
      updateNode S id (fun m => { m with erased := true })

/-- Remove an id from a plain id side table. -/
def removeId (l : List Nat) (id : Nat) : List Nat := l.erase id

/-- Remove a key from an association side table. -/
def removeKey {α : Type} (l : List (Nat × α)) (id : Nat) : List (Nat × α) :=
  l.filter (fun kv => kv.1 ≠ id)

/-- `remove_from_hash_tables`: drop the node from the kind-specific side
tables (`bv_vars`, `lambdas`, `ufs`, `feqs`), from `node2symbol`/`symbols`
unless `keep_symbol`, and from `parameterized`. -/
def remove_from_hash_tables (S : Btor) (id : Nat) (keep_symbol : Bool) : Btor :=
  match getNode S id with
  | none => S
  | some n =>
      let S :=
        match n.kind with
        | .bvVar => { S with bv_vars := removeId S.bv_vars id }
        | .lambda => { S with lambdas := removeKey S.lambdas id }
        | .uf => { S with ufs := removeId S.ufs id }
        | .funEq => { S with feqs := removeId S.feqs id }
        | _ => S
      let S :=
        if !keep_symbol then
          match S.node2symbol.lookup id with
          | some sym =>
              let S := { S with node2symbol := removeKey S.node2symbol id }
              if sym ≠ "" then
                { S with symbols := S.symbols.filter (fun kv => kv.1 ≠ sym) }
              else S
          | none => S
        else S
      { S with parameterized_tbl := removeKey S.parameterized_tbl id }

/-- The child edges `e[0..arity-1]` of a node, in position order. -/
def childList (n : BtorNode) : List Handle :=
  (List.range n.arity).filterMap (fun i => n.e.getD i none)

/-- `really_deallocate_exp`: free the node's storage — its arena slot becomes
NULL and the id is never reused (the C code also downgrades the op statistics
and frees the constant bits, which `erase_local_data_exp` already cleared). -/
def really_deallocate_exp (S : Btor) (id : Nat) : Btor :=
  { S with nodes_id_table := S.nodes_id_table.set id none }

/-- The loop of `recursively_release_exp`: pop a node; with `refs > 1` just
decrement; otherwise push the children and the `simplified` target (clearing
`simplified`), remove the node from the unique table, erase its local data,
drop its side-table entries, disconnect its edges and free it.  The explicit
work stack replaces C-stack recursion; `fuel` only bounds the loop for Lean's
termination checker (`none` = fuel ran out). -/
def release_sweep : Nat → Btor → List Handle → Option Btor
  | 0, _, _ => none
  | _ + 1, S, [] => some S
  | fuel + 1, S, h :: stack =>
      match getNode S h.id with
      | none => release_sweep fuel S stack
      | some cur =>
          if cur.refs > 1 then
            release_sweep fuel
              (updateNode S h.id (fun n => { n with refs := n.refs - 1 })) stack
          else
            let stack' :=
              match cur.simplified with
              | some s => s :: (childList cur ++ stack)
              | none => childList cur ++ stack
            let S := updateNode S h.id (fun n => { n with simplified := none })
            let S := remove_from_nodes_unique_table_exp S h.id
            let S := erase_local_data_exp
              (fun st hh => (release_sweep fuel st [hh]).getD st) S h.id true
            let S := remove_from_hash_tables S h.id false
            let S := disconnect_children_exp S h.id
            let S := really_deallocate_exp S h.id
            release_sweep fuel S stack'

/-- Fuel bound for the release sweep: every iteration either pops an entry and
decrements a reference, or frees a node (worth `refs + 4`) while pushing at
most `arity + 1 ≤ 4` entries. -/
def btorMeasure (S : Btor) : Nat :=
  (S.nodes_id_table.map (fun o =>
    match o with
    | some n => n.refs + 4
    | none => 0)).sum

/-- `recursively_release_exp`: run the iterative sweep seeded with the root. -/
def recursively_release_exp (S : Btor) (rootId : Nat) : Btor :=
  (release_sweep (btorMeasure S + 2) S [⟨false, rootId⟩]).getD S

/-- `btor_release_exp`: drop one strong reference of the real node; on the
last reference switch to the iterative sweep. -/
def btor_release_exp (S : Btor) (root : Handle) : Btor :=
  match getNode S root.id with
  | none => S
  | some n =>
      if n.refs > 1 then
        updateNode S root.id (fun m => { m with refs := m.refs - 1 })
      else recursively_release_exp S root.id

/-- `btor_set_to_proxy_exp`: turn a rewritten node into a Proxy in place —
drop it from the unique table, erase local data but keep the sort, remember
and disconnect the children, release them, and rewrite the kind to `proxy`
with the `disconnected`/`erased` flags cleared; the id and the `simplified`
forwarding pointer survive. -/
def btor_set_to_proxy_exp (S : Btor) (id : Nat) : Btor :=
  match getNode S id with
  | none => S
  | some exp =>
      let S := remove_from_nodes_unique_table_exp S id
      let S := erase_local_data_exp (fun st hh => btor_release_exp st hh) S id false
      let e := (List.range exp.arity).filterMap (fun i => exp.e.getD i none)
      let S := remove_from_hash_tables S id true
      let S := disconnect_children_exp S id
      let S := e.foldl (fun acc h => btor_release_exp acc h) S
      updateNode S id (fun n =>
        { n with kind := .proxy, disconnected := false, erased := false,
                 arity := 0, parameterized := false })

/-- `setup_node_and_add_to_id_table`: assign the next dense id, set `refs` to
1, push the node into the arena; fresh Apply nodes get `apply_below`. -/
def setup_node_and_add_to_id_table (S : Btor) (n : BtorNode) : Btor × Nat :=
  let id := nodesCount S
  let n := { n with refs := 1, id := id,
                    apply_below := n.apply_below || n.kind == .apply }
  ({ S with nodes_id_table := S.nodes_id_table ++ [some n] }, id)

/-- `new_const_exp_node`: allocate a BvConst node owning the bits and their
precomputed bitwise inverse. -/
def new_const_exp_node (S : Btor) (bits : BtorBitVector) : Btor × Nat :=
  let (S, srt) := btor_bitvec_sort S bits.width
  let exp := { newBtorNode with kind := .bvConst, sort_id := some srt }
  let (S, id) := setup_node_and_add_to_id_table S exp
  let S := updateNode S id (fun n =>
    { n with bits := some (btor_copy_bv bits),
             invbits := some (btor_not_bv bits) })
  (S, id)

/-- `new_slice_exp_node`: allocate a Slice node of width `upper - lower + 1`. -/
def new_slice_exp_node (S : Btor) (e0 : Handle) (upper lower : Nat) :
    Btor × Nat :=
  let (S, srt) := btor_bitvec_sort S (upper - lower + 1)
  let exp := { newBtorNode with kind := .slice, arity := 1,
                                upper := upper, lower := lower,
                                sort_id := some srt }
  let (S, id) := setup_node_and_add_to_id_table S exp
  let S := connect_child_exp S id e0 0
  (S, id)

/-- `new_args_exp_node`: allocate an Args node, connect the children and give
it the tuple sort of its (flattened) children. -/
def new_args_exp_node (S : Btor) (arity : Nat) (e : List Handle) : Btor × Nat :=
  let exp := { newBtorNode with kind := .args, arity := arity }
  let (S, id) := setup_node_and_add_to_id_table S exp
  let S := ((e.take arity).enum).foldl
    (fun acc ih => connect_child_exp acc id ih.2 ih.1) S
  -- create tuple sort for the argument node; a nested args child (only legal
  -- in the last slot) contributes its flattened element sorts
  let sorts := (e.take arity).foldl (fun acc h =>
    if nodeKind S h == .args then
      match btor_exp_get_sort_id S h with
      | some (.tuple es) => acc ++ es
      | _ => acc
    else
      match btor_exp_get_sort_id S h with
      | some s => acc ++ [s]
      | none => acc) []
  let (S, srt) := btor_tuple_sort S sorts
  let S := updateNode S id (fun n => { n with sort_id := some srt })
  (S, id)

/-- `new_node`: allocate a binary/ternary operator node, give it the sort the
kind dictates, connect the children; fresh FunEq nodes enter `feqs`. -/
def new_node (S : Btor) (kind : BtorNodeKind) (arity : Nat) (e : List Handle) :
    Btor × Nat :=
  let exp := { newBtorNode with kind := kind, arity := arity }
  let (S, id) := setup_node_and_add_to_id_table S exp
  let e0 := e.getD 0 ⟨false, 0⟩
  let e1 := e.getD 1 ⟨false, 0⟩
  let (S, srt) :=
    match kind with
    | .cond =>
        let s := (btor_exp_get_sort_id S e1).getD .bool
        (btor_copy_sort S s, s)
    | .update =>
        let s := (btor_exp_get_sort_id S e0).getD .bool
        (btor_copy_sort S s, s)
    | .concat =>
        btor_bitvec_sort S (btor_get_exp_width S e0 + btor_get_exp_width S e1)
    | .funEq => btor_bool_sort S
    | .bvEq => btor_bool_sort S
    | .ult => btor_bool_sort S
    | .apply =>
        let s := match btor_exp_get_sort_id S e0 with
          | some (.func _ cod) => cod
          | _ => .bool
        (btor_copy_sort S s, s)
    | _ =>
        let s := (btor_exp_get_sort_id S e0).getD .bool
        (btor_copy_sort S s, s)
  let S := updateNode S id (fun n => { n with sort_id := some srt })
  let S := ((e.take arity).enum).foldl
    (fun acc ih => connect_child_exp acc id ih.2 ih.1) S
  let S := if kind == .funEq then { S with feqs := S.feqs ++ [id] } else S
  (S, id)

/-- `find_const_exp`'s match: a BvConst node of the same width whose bits
compare equal. -/
def matchConstNode (S : Btor) (bits : BtorBitVector) (cand : Nat) : Bool :=
  match getNode S cand with
  | none => false
  | some n =>
      n.kind == .bvConst && btor_get_exp_width S ⟨false, cand⟩ == bits.width &&
        decide (btor_compare_bv (n.bits.getD ⟨0, 0⟩) bits = 0)

/-- `find_const_exp`: first chain entry holding the constant (the hash maps
equal constants to one bucket, so one ordered chain is searched). -/
def find_const_exp (S : Btor) (bits : BtorBitVector) : Option Nat :=
  S.unique_chain.find? (matchConstNode S bits)

/-- `find_slice_exp`'s match: same child edge and slice bounds. -/
def matchSliceNode (S : Btor) (e0 : Handle) (upper lower : Nat) (cand : Nat) :
    Bool :=
  match getNode S cand with
  | none => false
  | some n =>
      n.kind == .slice && n.e.getD 0 none == some e0 &&
        n.upper == upper && n.lower == lower

/-- `find_slice_exp`. -/
def find_slice_exp (S : Btor) (e0 : Handle) (upper lower : Nat) : Option Nat :=
  S.unique_chain.find? (matchSliceNode S e0 upper lower)

/-- `is_sorted_bv_exp`: with sort normalisation on, commutative children must
be in ascending real-id order (modulo the two special cases). -/
def is_sorted_bv_exp (S : Btor) (kind : BtorNodeKind) (e : List Handle) : Bool :=
  if S.opt_sort_exp == 0 then true
  else if !btor_is_binary_commutative_node_kind kind then true
  else
    let e0 := e.getD 0 ⟨false, 0⟩
    let e1 := e.getD 1 ⟨false, 0⟩
    if e0 == e1 then true
    else if BTOR_INVERT_NODE e0 == e1 && BTOR_IS_INVERTED_NODE e1 then true
    else decide (e0.id ≤ e1.id)

/-- `sort_bv_exp`: swap the two children when unsorted. -/
def sort_bv_exp (S : Btor) (kind : BtorNodeKind) (e : List Handle) :
    List Handle :=
  if !is_sorted_bv_exp S kind e then
    match e with
    | a :: b :: rest => b :: a :: rest
    | _ => e
  else e

/-- `find_bv_exp`'s match: same kind and arity with identical child edges —
or, for bit-vector equality, both child edges inverted
(`(= (bvnot a) b) == (= a (bvnot b))`). -/
def matchBvNode (S : Btor) (kind : BtorNodeKind) (e : List Handle)
    (arity : Nat) (cand : Nat) : Bool :=
  match getNode S cand with
  | none => false
  | some n =>
      n.kind == kind && n.arity == arity &&
        ((kind == .bvEq &&
            n.e.getD 0 none == some (BTOR_INVERT_NODE (e.getD 0 ⟨false, 0⟩)) &&
            n.e.getD 1 none == some (BTOR_INVERT_NODE (e.getD 1 ⟨false, 0⟩))) ||
          decide (∀ i < arity, n.e.getD i none = some (e.getD i ⟨false, 0⟩)))

/-- `find_bv_exp`: canonicalise commutative children, then search the chain;
returns the possibly swapped child array together with the hit. -/
def find_bv_exp (S : Btor) (kind : BtorNodeKind) (e : List Handle)
    (arity : Nat) : List Handle × Option Nat :=
  let e := sort_bv_exp S kind e
  (e, S.unique_chain.find? (matchBvNode S kind e arity))

/-- 2^32: the lambda hash is computed in a C `unsigned int`. -/
def U32 : Nat := 4294967296

/-- The traversal of `hash_lambda_exp`: non-parameterized subterms contribute
their (sign-carrying) id, nested hashed lambdas their stored hash plus their
kind and their parameter's kind, every other subterm its kind (negated on an
inverted edge); along the way the free params other than `param` are
collected. -/
def hash_lambda_loop (S : Btor) (param : Nat) (collect : Bool) :
    Nat → List Handle → List Nat → Nat → List Nat → Nat × List Nat
  | 0, _, _, hash, params => (hash, params)
  | _ + 1, [], _, hash, params => (hash, params)
  | fuel + 1, cur :: visit, marked, hash, params =>
      match getNode S cur.id with
      | none => hash_lambda_loop S param collect fuel visit marked hash params
      | some real_cur =>
          if marked.contains real_cur.id then
            hash_lambda_loop S param collect fuel visit marked hash params
          else if !real_cur.parameterized then
            -- btor_exp_get_id is negative on an inverted pointer
            let contrib :=
              if cur.inv then (U32 - real_cur.id % U32) % U32 else real_cur.id
            hash_lambda_loop S param collect fuel visit marked
              ((hash + contrib) % U32) params
          else if real_cur.kind == .lambda then
            let stored := ((S.lambdas.lookup real_cur.id).getD 0)
            let pkind :=
              (((real_cur.e.getD 0 none).map (fun h => nodeKind S h)).getD
                .invalid)
            hash_lambda_loop S param collect fuel visit marked
              ((hash + stored + real_cur.kind.code + pkind.code) % U32) params
          else
            let params :=
              if real_cur.kind == .param && real_cur.id ≠ param && collect then
                params ++ [real_cur.id]
              else params
            let marked := marked ++ [real_cur.id]
            let contrib :=
              if cur.inv then (U32 - real_cur.kind.code) % U32
              else real_cur.kind.code
            let visit := (childList real_cur).reverse ++ visit
            hash_lambda_loop S param collect fuel visit marked
              ((hash + contrib) % U32) params

/-- `hash_lambda_exp` with fuel covering the bounded traversal. -/
def hash_lambda_exp (S : Btor) (param : Nat) (body : Handle) (collect : Bool) :
    Nat × List Nat :=
  hash_lambda_loop S param collect (4 * nodesCount S + 4) [body] [] 0 []

/-- `find_lambda_exp` with `compare_lambdas = 0` (as called from inside
`compare_lambda_exp`): only an exact param/body match counts. -/
def find_lambda_exp_nocmp (S : Btor) (param body : Handle) : Option Nat :=
  S.unique_chain.find? (fun cand =>
    match getNode S cand with
    | some n =>
        n.kind == .lambda && n.e.getD 0 none == some param &&
          n.e.getD 1 none == some body
    | none => false)

/-- Cache lookup of `compare_lambda_exp` (`btor_get_ptr_hash_table`): `none` =
no bucket, `some none` = bucket with null data, `some (some r)` = computed. -/
def lookupCache (cache : List (Nat × Option Handle)) (id : Nat) :
    Option (Option Handle) :=
  match cache with
  | [] => none
  | (k, v) :: rest => if k = id then some v else lookupCache rest id

/-- Store a computed result in the cache. -/
def setCache (cache : List (Nat × Option Handle)) (id : Nat) (r : Handle) :
    List (Nat × Option Handle) :=
  cache.map (fun kv => if kv.1 = id then (id, some r) else kv)

/-- The unique-table lookup `compare_lambda_exp` performs at an inner node:
slice/lambda/param/other dispatch on the node being rebuilt, with params sent
through the parameter map (an unmapped param stands for itself). -/
def cmp_find (S : Btor) (param_map : List (Nat × Handle)) (real_cur : BtorNode)
    (e : List Handle) : Option Handle :=
  if real_cur.kind == .slice then
    (find_slice_exp S (e.getD 0 ⟨false, 0⟩) real_cur.upper real_cur.lower).map
      (fun k => (⟨false, k⟩ : Handle))
  else if real_cur.kind == .lambda then
    (find_lambda_exp_nocmp S (e.getD 0 ⟨false, 0⟩) (e.getD 1 ⟨false, 0⟩)).map
      (fun k => (⟨false, k⟩ : Handle))
  else if real_cur.kind == .param then
    match param_map.lookup real_cur.id with
    | some mapped => some mapped
    | none => some ⟨false, real_cur.id⟩
  else
    ((find_bv_exp S real_cur.kind e real_cur.arity).2).map
      (fun k => (⟨false, k⟩ : Handle))

/-- The DFS stack machine of `compare_lambda_exp`: rebuild the query body in
the unique table under the parameter map; `some args` is the value stack when
the walk finishes (empty after a failed lookup), `none` = out of fuel. -/
def cmp_loop (S : Btor) (param_map : List (Nat × Handle)) :
    Nat → List Handle → List (Nat × Option Handle) → List Handle →
      Option (List Handle)
  | 0, _, _, _ => none
  | _ + 1, [], _, args => some args
  | fuel + 1, cur :: stack, cache, args =>
      match getNode S cur.id with
      | none => cmp_loop S param_map fuel stack cache args
      | some real_cur =>
          if !real_cur.parameterized then
            cmp_loop S param_map fuel stack cache (cur :: args)
          else
            match lookupCache cache real_cur.id with
            | none =>
                cmp_loop S param_map fuel
                  (childList real_cur ++ cur :: stack)
                  (cache ++ [(real_cur.id, none)]) args
            | some none =>
                let e := (args.take real_cur.arity).reverse
                let args := args.drop real_cur.arity
                match cmp_find S param_map real_cur e with
                | none => some []
                | some r =>
                    cmp_loop S param_map fuel stack
                      (setCache cache real_cur.id r)
                      (BTOR_COND_INVERT_NODE cur r :: args)
            | some (some r) =>
                cmp_loop S param_map fuel stack cache
                  (BTOR_COND_INVERT_NODE cur r :: args)

/-- Fuel covering any run of `cmp_loop` on the arena. -/
def cmpFuel (S : Btor) : Nat := 4 * nodesCount S + 4

/-- Modelled from the spec (§4.5.3; the lambda iterator lives in
`utils/btorexpiter.c`, not under `src/`): walk the curried lambda chains of
the query body and the candidate body in lockstep, extending the parameter
map by one (param → param) pair per level; sort mismatch or a shorter
candidate chain fails. -/
def cmp_prefix_walk (S : Btor) :
    Nat → Handle → Handle → List (Nat × Handle) →
      Option (List (Nat × Handle))
  | 0, _, _, _ => none
  | fuel + 1, b, l, pm =>
      if nodeKind S b == .lambda then
        if nodeKind S l == .lambda then
          match getNode S b.id, getNode S l.id with
          | some nb, some nl =>
              if btor_exp_get_sort_id S b ≠ btor_exp_get_sort_id S l then none
              else
                let p0 := (nb.e.getD 0 none).getD ⟨false, 0⟩
                let p1 := (nl.e.getD 0 none).getD ⟨false, 0⟩
                if btor_exp_get_sort_id S p0 ≠ btor_exp_get_sort_id S p1 then
                  none
                else
                  cmp_prefix_walk S fuel ((nb.e.getD 1 none).getD ⟨false, 0⟩)
                    ((nl.e.getD 1 none).getD ⟨false, 0⟩) (pm ++ [(p0.id, p1)])
          | _, _ => none
        else none
      else some pm

/-- The curried-lambda prefix handling of `compare_lambda_exp` (lines
1947–1975): both bodies lambdas → lockstep walk; exactly one a lambda →
not equal. -/
def cmp_prefix (S : Btor) (b l : Handle) (pm : List (Nat × Handle)) :
    Option (List (Nat × Handle)) :=
  if nodeKind S b == .lambda && nodeKind S l == .lambda then
    cmp_prefix_walk S (nodesCount S + 1) b l pm
  else if nodeKind S b == .lambda || nodeKind S l == .lambda then none
  else some pm

/-- `compare_lambda_exp (btor, param, body, lambda)`: does binding `param`
over `body` yield an alpha-variant of the stored lambda?  Fails fast on sort
mismatch, maps `param` to the stored lambda's param (plus one pair per curried
level), rebuilds `body` bottom-up in the unique table under that map and
demands the rebuilt top be exactly the stored body. -/
def compare_lambda_exp (S : Btor) (param body : Handle) (lambdaId : Nat) :
    Bool :=
  match getNode S lambdaId with
  | none => false
  | some lam =>
      let subst_param := (lam.e.getD 0 none).getD ⟨false, 0⟩
      let lam_e1 := (lam.e.getD 1 none).getD ⟨false, 0⟩
      if btor_exp_get_sort_id S subst_param ≠ btor_exp_get_sort_id S param ∨
          btor_exp_get_sort_id S body ≠ btor_exp_get_sort_id S lam_e1 then
        false
      else
        match cmp_prefix S body lam_e1 [(param.id, subst_param)] with
        | none => false
        | some param_map =>
            match cmp_loop S param_map (cmpFuel S) [body] [] [] with
            | none => false
            | some args =>
                match args with
                | top :: _ => top == lam_e1
                | [] => false

/-- `find_lambda_exp` (with `compare_lambdas = 1`, as called from `find_exp`):
compute the alpha-invariant hash (collecting the free params on the way) and
search the chain, accepting an exact match or — for a stored
non-parameterized lambda — a successful structural comparison. -/
def find_lambda_exp (S : Btor) (param body : Handle) (collect : Bool) :
    Nat × List Nat × Option Nat :=
  let hp := hash_lambda_exp S param.id body collect
  (hp.1, hp.2,
    S.unique_chain.find? (fun cand =>
      match getNode S cand with
      | some n =>
          n.kind == .lambda &&
            ((n.e.getD 0 none == some param && n.e.getD 1 none == some body) ||
              (!n.parameterized && compare_lambda_exp S param body cand))
      | none => false))

/-- `find_exp`: dispatch between the lambda lookup and the generic lookup;
returns (possibly canonicalised children, lambda hash, collected params,
hit). -/
def find_exp (S : Btor) (kind : BtorNodeKind) (e : List Handle) (arity : Nat)
    (collect : Bool) : List Handle × Nat × List Nat × Option Nat :=
  if kind == .lambda then
    let r := find_lambda_exp S (e.getD 0 ⟨false, 0⟩) (e.getD 1 ⟨false, 0⟩)
      collect
    (e, r.1, r.2.1, r.2.2)
  else
    let r := find_bv_exp S kind e arity
    (r.1, 0, [], r.2)

/-- `BTOR_FULL_UNIQUE_TABLE`. -/
def BTOR_FULL_UNIQUE_TABLE (S : Btor) : Bool :=
  S.unique_num_elements ≥ S.unique_size && Nat.log2 S.unique_size < 30

/-- `enlarge_nodes_unique_table`: double the bucket count and rehash.
Rehashing moves nodes between buckets but keeps membership; in the
one-chain model only the size changes. -/
def enlarge_nodes_unique_table (S : Btor) : Btor :=
  { S with unique_size := if S.unique_size = 0 then 1 else 2 * S.unique_size }

/-- Store the lambda hash computed by `find_exp` in the `lambdas` table. -/
def setLambdaHash (l : List (Nat × Nat)) (k v : Nat) : List (Nat × Nat) :=
  l.map (fun kv => if kv.1 = k then (k, v) else kv)

/-- `new_lambda_exp_node`: allocate a Lambda node, connect param and body,
flatten a curried body into the domain tuple (migrating its `parameterized`
entry), set the function sort, register the lambda and bind the param. -/
def new_lambda_exp_node (S : Btor) (e_param e_exp : Handle) : Btor × Nat :=
  let exp := { newBtorNode with kind := .lambda, arity := 2,
                                lambda_below := true }
  let (S, id) := setup_node_and_add_to_id_table S exp
  let S := connect_child_exp S id e_param 0
  let S := connect_child_exp S id e_exp 1
  let param_sorts := (btor_exp_get_sort_id S e_param).toList
  let (S, param_sorts) :=
    if nodeKind S e_exp == .lambda then
      -- curried lambdas (functions): body is the nested lambda's simplified
      -- body; the nested domain sorts extend the domain tuple
      let nestedBody :=
        ((getNode S e_exp.id).bind (fun m => m.body)).getD e_exp
      let S := updateNode S id (fun n =>
        { n with body := some (btor_simplify_exp S nestedBody) })
      let extra :=
        match btor_exp_get_sort_id S e_exp with
        | some (.func (.tuple ds) _) => ds
        | _ => []
      let S :=
        match S.parameterized_tbl.lookup e_exp.id with
        | some params =>
            let params := params.erase e_param.id
            let S :=
              { S with
                parameterized_tbl := removeKey S.parameterized_tbl e_exp.id }
            if params.length > 0 then
              let S := { S with parameterized_tbl :=
                  S.parameterized_tbl ++ [(id, params)] }
              updateNode S id (fun n => { n with parameterized := true })
            else S
        | none => S
      (S, param_sorts ++ extra)
    else
      (updateNode S id (fun n => { n with body := some e_exp }), param_sorts)
  let (S, domain) := btor_tuple_sort S param_sorts
  -- the body always has a sort in C; `.bool` is a never-taken fallback
  let codomain :=
    ((((getNode S id).bind (fun n => n.body)).bind
      (fun b => btor_exp_get_sort_id S b)).getD .bool)
  let (S, srt) := btor_fun_sort S domain codomain
  let S := updateNode S id (fun n => { n with sort_id := some srt })
  let S := btor_release_sort S domain
  let S := { S with lambdas := S.lambdas ++ [(id, 0)] }
  -- set the binding lambda of the parameter
  let S := updateNode S e_param.id (fun n => { n with lambda_exp := some id })
  (S, id)

/-- `create_exp`: forward the children, look the shape up in the unique
table; on a hit bump the reference count, on a miss (growing the table when
full) allocate by kind, append to the chain and mark unique. -/
def create_exp (S : Btor) (kind : BtorNodeKind) (arity : Nat)
    (e : List Handle) : Btor × Handle :=
  let simp_e := e.map (btor_simplify_exp S)
  -- collect params only for function bodies
  let collect := kind == .lambda &&
    !(nodeKind S (e.getD 1 ⟨false, 0⟩) == .lambda)
  let fr := find_exp S kind simp_e arity collect
  let e1 := fr.1
  let lambda_hash := fr.2.1
  let params := fr.2.2.1
  match fr.2.2.2 with
  | some k => (inc_exp_ref_counter S ⟨false, k⟩, ⟨false, k⟩)
  | none =>
      -- the second lookup after enlarging finds nothing new: membership of
      -- the chains is unchanged by rehashing
      let S := if BTOR_FULL_UNIQUE_TABLE S then enlarge_nodes_unique_table S
        else S
      let (S, id) :=
        match kind with
        | .lambda =>
            let (S, id) := new_lambda_exp_node S (e1.getD 0 ⟨false, 0⟩)
              (e1.getD 1 ⟨false, 0⟩)
            let S :=
              { S with lambdas := setLambdaHash S.lambdas id lambda_hash }
            let S :=
              if collect then
                if params.length > 0 then
                  let S := { S with parameterized_tbl :=
                      S.parameterized_tbl ++ [(id, params)] }
                  updateNode S id (fun n => { n with parameterized := true })
                else S
              else S
            (S, id)
        | .args => new_args_exp_node S arity e1
        | _ => new_node S kind arity e1
      let S := { S with unique_chain := S.unique_chain ++ [id],
                        unique_num_elements := S.unique_num_elements + 1 }
      let S := updateNode S id (fun n => { n with unique := true })
      (S, ⟨false, id⟩)

/-- `btor_const_exp`: normalise the constant to an even stored value (store
`not bits` and return an inverted handle when the LSB is 1), then find or
allocate the node. -/
def btor_const_exp (S : Btor) (bits : BtorBitVector) : Btor × Handle :=
  let inv := btor_get_bit_bv bits 0 = 1
  let lookupbits := if inv then btor_not_bv bits else btor_copy_bv bits
  match find_const_exp S lookupbits with
  | some k =>
      (inc_exp_ref_counter S ⟨false, k⟩,
        if inv then BTOR_INVERT_NODE ⟨false, k⟩ else ⟨false, k⟩)
  | none =>
      let S := if BTOR_FULL_UNIQUE_TABLE S then enlarge_nodes_unique_table S
        else S
      let (S, id) := new_const_exp_node S lookupbits
      let S := { S with unique_chain := S.unique_chain ++ [id],
                        unique_num_elements := S.unique_num_elements + 1 }
      let S := updateNode S id (fun n => { n with unique := true })
      (S, if inv then BTOR_INVERT_NODE ⟨false, id⟩ else ⟨false, id⟩)

/-- `btor_set_symbol_exp`: register a symbol for a node, replacing (and
unregistering) any previous symbol of that node. -/
def btor_set_symbol_exp (S : Btor) (id : Nat) (symbol : String) : Btor :=
  let S := { S with symbols := S.symbols ++ [(symbol, id)] }
  match S.node2symbol.lookup id with
  | some old =>
      { S with symbols := S.symbols.eraseP (fun kv => kv.1 == old),
               node2symbol := S.node2symbol.map (fun kv =>
                 if kv.1 = id then (id, symbol) else kv) }
  | none => { S with node2symbol := S.node2symbol ++ [(id, symbol)] }

/-- `btor_var_exp`: allocate a fresh bit-vector variable — never looked up in
nor inserted into the unique table. -/
def btor_var_exp (S : Btor) (sort : BtorSort) (symbol : Option String) :
    Btor × Handle :=
  let exp := { newBtorNode with kind := .bvVar }
  let (S, id) := setup_node_and_add_to_id_table S exp
  let S := btor_copy_sort S sort
  let S := updateNode S id (fun n => { n with sort_id := some sort })
  let S := { S with bv_vars := S.bv_vars ++ [id] }
  let S :=
    match symbol with
    | some sym => btor_set_symbol_exp S id sym
    | none => S
  (S, ⟨false, id⟩)

/-- `btor_param_exp`: allocate a fresh parameter node (parameterized from
birth). -/
def btor_param_exp (S : Btor) (sort : BtorSort) (symbol : Option String) :
    Btor × Handle :=
  let S0 := btor_copy_sort S sort
  let exp := { newBtorNode with kind := .param, parameterized := true,
                                sort_id := some sort }
  let (S1, id) := setup_node_and_add_to_id_table S0 exp
  let S2 :=
    match symbol with
    | some sym => btor_set_symbol_exp S1 id sym
    | none => S1
  (S2, ⟨false, id⟩)

/-- `btor_uf_exp`: allocate a fresh uninterpreted function — never looked up
in nor inserted into the unique table. -/
def btor_uf_exp (S : Btor) (sort : BtorSort) (symbol : Option String) :
    Btor × Handle :=
  let S0 := btor_copy_sort S sort
  let exp := { newBtorNode with kind := .uf, sort_id := some sort }
  let (S1, id) := setup_node_and_add_to_id_table S0 exp
  let S2 := { S1 with ufs := S1.ufs ++ [id] }
  let S3 :=
    match symbol with
    | some sym => btor_set_symbol_exp S2 id sym
    | none => S2
  (S3, ⟨false, id⟩)

/-- `ARGS_MAX_NUM_CHILDREN`: at most 3 children per node (2 position bits). -/
def ARGS_MAX_NUM_CHILDREN : Nat := 3

/-- The chunking loop of `btor_args_exp`, processing the arguments from the
last to the first (`rev` is the reversed argument list).  `e` is the 3-slot
child buffer, `cnt` the slot to fill next (C's `cnt_args`; the C `-1` state is
represented by creating when slot 0 is filled), `cur_argc` the width of the
args node under construction. -/
def argsLoop (S : Btor) (e : List (Option Handle)) (cnt cur_argc : Nat)
    (result last : Option Handle) :
    List Handle → Btor × Option Handle
  | [] => (S, result)
  | a :: rev =>
      let e := e.set cnt (some (btor_simplify_exp S a))
      if cnt = 0 then
        let children := (List.range cur_argc).filterMap (fun i => e.getD i none)
        let (S, r) := create_exp S .args cur_argc children
        let e := e.set 2 (some r)
        let S :=
          match last with
          | some l => btor_release_exp S l
          | none => S
        argsLoop S e 1 ARGS_MAX_NUM_CHILDREN (some r) (some r) rev
      else
        argsLoop S e (cnt - 1) cur_argc result last rev

/-- `btor_args_exp`: chunk `argc` arguments into a right-associated chain of
≤3-ary args nodes (each non-final node keeps 2 arguments plus the link in its
last slot; the node built first takes `argc mod 2 + 2` arguments when
chunking is needed). -/
def btor_args_exp (S : Btor) (args : List Handle) : Btor × Option Handle :=
  let argc := args.length
  let cur_argc :=
    if argc ≤ ARGS_MAX_NUM_CHILDREN then argc
    else
      let rem_free := argc % (ARGS_MAX_NUM_CHILDREN - 1)
      let num_args := argc / (ARGS_MAX_NUM_CHILDREN - 1) +
        (if rem_free > 1 then 1 else 0)
      argc - (num_args - 1) * (ARGS_MAX_NUM_CHILDREN - 1)
  argsLoop S [none, none, none] (cur_argc - 1) cur_argc none none args.reverse

/-- `btor_not_exp`: forward through `simplified`, bump the reference count,
flip the inversion tag — no allocation. -/
def btor_not_exp (S : Btor) (exp : Handle) : Btor × Handle :=
  let exp := btor_simplify_exp S exp
  (inc_exp_ref_counter S exp, BTOR_INVERT_NODE exp)

/-- `btor_and_exp_node`. -/
def btor_and_exp_node (S : Btor) (e0 e1 : Handle) : Btor × Handle :=
  create_exp S .and 2 [btor_simplify_exp S e0, btor_simplify_exp S e1]

/-- `btor_add_exp_node`. -/
def btor_add_exp_node (S : Btor) (e0 e1 : Handle) : Btor × Handle :=
  create_exp S .add 2 [btor_simplify_exp S e0, btor_simplify_exp S e1]

/-- `btor_ult_exp_node`. -/
def btor_ult_exp_node (S : Btor) (e0 e1 : Handle) : Btor × Handle :=
  create_exp S .ult 2 [btor_simplify_exp S e0, btor_simplify_exp S e1]

/-- `btor_concat_exp_node`. -/
def btor_concat_exp_node (S : Btor) (e0 e1 : Handle) : Btor × Handle :=
  create_exp S .concat 2 [btor_simplify_exp S e0, btor_simplify_exp S e1]

/-- `btor_eq_exp_node`: function children build a FunEq, bit-vector children
a BvEq. -/
def btor_eq_exp_node (S : Btor) (e0 e1 : Handle) : Btor × Handle :=
  let a := btor_simplify_exp S e0
  let b := btor_simplify_exp S e1
  let kind :=
    match getNode S a.id with
    | some n => if btor_is_fun_node n then BtorNodeKind.funEq
      else BtorNodeKind.bvEq
    | none => BtorNodeKind.bvEq
  create_exp S kind 2 [a, b]

/-- `btor_lambda_exp_node`. -/
def btor_lambda_exp_node (S : Btor) (e_param e_exp : Handle) : Btor × Handle :=
  create_exp S .lambda 2 [btor_simplify_exp S e_param, btor_simplify_exp S e_exp]

/-- `btor_match_node_by_id`: ids at or beyond the arena size yield NULL; an
in-range id is handed to `btor_copy_exp` *without* a null check, so a freed
slot dereferences a NULL pointer — modelled as the outer `none` (undefined
behaviour / failed assertion); `some (S', r)` is a defined return of `r`. -/
def btor_match_node_by_id (S : Btor) (id : Nat) :
    Option (Btor × Option Handle) :=
  if id ≥ nodesCount S then some (S, none)
  else
    match getNode S id with
    | none => none
    | some _ => some (inc_exp_ref_counter S ⟨false, id⟩, some ⟨false, id⟩)

/-- `btor_get_node_by_symbol`: the `symbols` table entry, or NULL. -/
def btor_get_node_by_symbol (S : Btor) (sym : String) : Option Nat :=
  S.symbols.lookup sym

/-- `btor_match_node_by_symbol`: hands the result of
`btor_get_node_by_symbol` to `btor_copy_exp` *without* a null check, so an
unknown symbol dereferences a NULL pointer — modelled as the outer `none`. -/
def btor_match_node_by_symbol (S : Btor) (sym : String) :
    Option (Btor × Option Handle) :=
  match btor_get_node_by_symbol S sym with
  | none => none
  | some id => some (inc_exp_ref_counter S ⟨false, id⟩, some ⟨false, id⟩)

/-! ## Basic state lemmas -/

theorem getNode_updateNode (S : Btor) (id : Nat) (f : BtorNode → BtorNode)
    (j : Nat) :
    getNode (updateNode S id f) j =
      if j = id then (getNode S j).map f else getNode S j := by
  by_cases hj : j = id
  · subst hj
    rcases Nat.lt_or_ge j S.nodes_id_table.length with hlt | hge
    · rw [getNode_updateNode_self S j f hlt]
      simp
    · have hnone : getNode S j = none := by
        unfold getNode
        rw [List.getD_eq_getElem?_getD, List.getElem?_eq_none (by simpa using hge)]
        rfl
      have : updateNode S j f = { S with nodes_id_table := S.nodes_id_table } := by
        unfold updateNode
        rw [List.set_eq_of_length_le hge]
      rw [this]
      simp only [if_pos rfl, hnone]
      simp
  · rw [if_neg hj]
    exact getNode_updateNode_ne S id j f hj

theorem nodesCount_updateNode (S : Btor) (id : Nat) (f : BtorNode → BtorNode) :
    nodesCount (updateNode S id f) = nodesCount S := by
  simp [nodesCount, updateNode]

theorem nodesCount_inc_ref (S : Btor) (h : Handle) :
    nodesCount (inc_exp_ref_counter S h) = nodesCount S :=
  nodesCount_updateNode S h.id _

theorem getNode_inc_ref (S : Btor) (h : Handle) (j : Nat) :
    getNode (inc_exp_ref_counter S h) j =
      if j = h.id then (getNode S j).map (fun n => { n with refs := n.refs + 1 })
      else getNode S j :=
  getNode_updateNode S h.id _ j

theorem simplified_inc_ref (S : Btor) (h : Handle) (j : Nat) :
    ((getNode (inc_exp_ref_counter S h) j).bind (fun n => n.simplified)) =
      ((getNode S j).bind (fun n => n.simplified)) := by
  rw [getNode_inc_ref]
  by_cases hj : j = h.id
  · rw [if_pos hj]
    cases getNode S j <;> rfl
  · rw [if_neg hj]

theorem invert_invert (h : Handle) : BTOR_INVERT_NODE (BTOR_INVERT_NODE h) = h := by
  simp [BTOR_INVERT_NODE]

/-- C3: for every bit-vector-sorted handle `h` (already terminal w.r.t.
`simplified` forwarding), `btor_not_exp` performs only an inversion-tag flip
and a reference-count increment — the result state is exactly
`inc_exp_ref_counter S h` and the result handle exactly `BTOR_INVERT_NODE h`
— allocating zero new nodes, and `not (not h)` comes back as `h` itself
(hence `resolve (not (not h)) = resolve h`), again without allocation. -/
theorem claim_C3_not_exp (S : Btor) (h : Handle)
    (hter : ((getNode S h.id).bind (fun n => n.simplified)) = none) :
    btor_not_exp S h = (inc_exp_ref_counter S h, BTOR_INVERT_NODE h) ∧
    nodesCount (btor_not_exp S h).1 = nodesCount S ∧
    (btor_not_exp (btor_not_exp S h).1 (btor_not_exp S h).2).2 = h ∧
    nodesCount (btor_not_exp (btor_not_exp S h).1 (btor_not_exp S h).2).1 =
      nodesCount S := by
  have hsim : btor_simplify_exp S h = h := btor_simplify_exp_terminal S h hter
  have h1 : btor_not_exp S h = (inc_exp_ref_counter S h, BTOR_INVERT_NODE h) := by
    unfold btor_not_exp
    rw [hsim]
  have hter2 : ((getNode (inc_exp_ref_counter S h) (BTOR_INVERT_NODE h).id).bind
      (fun n => n.simplified)) = none := by
    show ((getNode (inc_exp_ref_counter S h) h.id).bind (fun n => n.simplified)) = none
    rw [simplified_inc_ref]
    exact hter
  have hsim2 : btor_simplify_exp (inc_exp_ref_counter S h) (BTOR_INVERT_NODE h) =
      BTOR_INVERT_NODE h :=
    btor_simplify_exp_terminal _ _ hter2
  refine ⟨h1, ?_, ?_, ?_⟩
  · rw [h1]
    exact nodesCount_inc_ref S h
  · rw [h1]
    show (btor_not_exp (inc_exp_ref_counter S h) (BTOR_INVERT_NODE h)).2 = h
    unfold btor_not_exp
    rw [hsim2]
    exact invert_invert h
  · rw [h1]
    show nodesCount (btor_not_exp (inc_exp_ref_counter S h) (BTOR_INVERT_NODE h)).1 =
      nodesCount S
    unfold btor_not_exp
    rw [hsim2]
    show nodesCount (inc_exp_ref_counter (inc_exp_ref_counter S h) (BTOR_INVERT_NODE h)) =
      nodesCount S
    rw [nodesCount_inc_ref, nodesCount_inc_ref]

/-- Witness for C3 at a concrete input: an 8-bit variable in a fresh context. -/
theorem claim_C3_not_exp_witness :
    (((getNode (btor_var_exp emptyBtor (.bitvec 8) none).1
        (⟨false, 1⟩ : Handle).id).bind (fun n => n.simplified)) = none) ∧
    (btor_not_exp (btor_var_exp emptyBtor (.bitvec 8) none).1 ⟨false, 1⟩ =
      (inc_exp_ref_counter (btor_var_exp emptyBtor (.bitvec 8) none).1 ⟨false, 1⟩,
        BTOR_INVERT_NODE ⟨false, 1⟩) ∧
      nodesCount (btor_not_exp (btor_var_exp emptyBtor (.bitvec 8) none).1
        ⟨false, 1⟩).1 = nodesCount (btor_var_exp emptyBtor (.bitvec 8) none).1 ∧
      (btor_not_exp
        (btor_not_exp (btor_var_exp emptyBtor (.bitvec 8) none).1 ⟨false, 1⟩).1
        (btor_not_exp (btor_var_exp emptyBtor (.bitvec 8) none).1
          ⟨false, 1⟩).2).2 = ⟨false, 1⟩ ∧
      nodesCount (btor_not_exp
        (btor_not_exp (btor_var_exp emptyBtor (.bitvec 8) none).1 ⟨false, 1⟩).1
        (btor_not_exp (btor_var_exp emptyBtor (.bitvec 8) none).1
          ⟨false, 1⟩).2).1 = nodesCount (btor_var_exp emptyBtor (.bitvec 8) none).1) :=
  ⟨by decide, claim_C3_not_exp (btor_var_exp emptyBtor (.bitvec 8) none).1
    ⟨false, 1⟩ (by decide)⟩

theorem btor_set_symbol_exp_tables (S : Btor) (id : Nat) (sym : String) :
    (btor_set_symbol_exp S id sym).nodes_id_table = S.nodes_id_table ∧
    (btor_set_symbol_exp S id sym).unique_chain = S.unique_chain ∧
    (btor_set_symbol_exp S id sym).unique_num_elements = S.unique_num_elements := by
  dsimp only [btor_set_symbol_exp]
  cases List.lookup id S.node2symbol <;> exact ⟨rfl, rfl, rfl⟩

theorem btor_var_exp_shape (S : Btor) (sort : BtorSort) (symbol : Option String) :
    (btor_var_exp S sort symbol).2 = ⟨false, nodesCount S⟩ ∧
    nodesCount (btor_var_exp S sort symbol).1 = nodesCount S + 1 ∧
    (btor_var_exp S sort symbol).1.unique_chain = S.unique_chain ∧
    (btor_var_exp S sort symbol).1.unique_num_elements = S.unique_num_elements := by
  cases symbol with
  | none =>
      refine ⟨rfl, ?_, rfl, rfl⟩
      simp [btor_var_exp, setup_node_and_add_to_id_table, btor_copy_sort,
        updateNode, nodesCount]
  | some sym =>
      dsimp only [btor_var_exp, setup_node_and_add_to_id_table, btor_copy_sort,
        updateNode, btor_set_symbol_exp, nodesCount]
      cases List.lookup S.nodes_id_table.length S.node2symbol <;>
        refine ⟨rfl, ?_, rfl, rfl⟩ <;>
          simp [nodesCount]

theorem btor_uf_exp_shape (S : Btor) (sort : BtorSort) (symbol : Option String) :
    (btor_uf_exp S sort symbol).2 = ⟨false, nodesCount S⟩ ∧
    nodesCount (btor_uf_exp S sort symbol).1 = nodesCount S + 1 ∧
    (btor_uf_exp S sort symbol).1.unique_chain = S.unique_chain ∧
    (btor_uf_exp S sort symbol).1.unique_num_elements = S.unique_num_elements := by
  cases symbol with
  | none =>
      refine ⟨rfl, ?_, rfl, rfl⟩
      simp [btor_uf_exp, setup_node_and_add_to_id_table, btor_copy_sort,
        updateNode, nodesCount]
  | some sym =>
      dsimp only [btor_uf_exp, setup_node_and_add_to_id_table, btor_copy_sort,
        updateNode, btor_set_symbol_exp, nodesCount]
      cases List.lookup S.nodes_id_table.length S.node2symbol <;>
        refine ⟨rfl, ?_, rfl, rfl⟩ <;>
          simp [nodesCount]

/-- C8: `btor_var_exp` and `btor_uf_exp` never consult the unique table —
the unique-table chain and element count are untouched, each call returns the
freshly assigned dense id — so two calls, even with identical sort and symbol
arguments, return distinct nodes. -/
theorem claim_C8_var_uf_not_hashconsed (S : Btor) (sort : BtorSort)
    (symbol : Option String) :
    ((btor_var_exp S sort symbol).1.unique_chain = S.unique_chain ∧
      (btor_var_exp S sort symbol).1.unique_num_elements =
        S.unique_num_elements ∧
      (btor_var_exp (btor_var_exp S sort symbol).1 sort symbol).2.id ≠
        (btor_var_exp S sort symbol).2.id) ∧
    ((btor_uf_exp S sort symbol).1.unique_chain = S.unique_chain ∧
      (btor_uf_exp S sort symbol).1.unique_num_elements =
        S.unique_num_elements ∧
      (btor_uf_exp (btor_uf_exp S sort symbol).1 sort symbol).2.id ≠
        (btor_uf_exp S sort symbol).2.id) := by
  obtain ⟨hv2, hvc, hvu, hvn⟩ := btor_var_exp_shape S sort symbol
  obtain ⟨hu2, huc, huu, hun⟩ := btor_uf_exp_shape S sort symbol
  refine ⟨⟨hvu, hvn, ?_⟩, ⟨huu, hun, ?_⟩⟩
  · obtain ⟨hv2', _, _, _⟩ := btor_var_exp_shape (btor_var_exp S sort symbol).1
      sort symbol
    rw [hv2', hv2, hvc]
    simp
  · obtain ⟨hu2', _, _, _⟩ := btor_uf_exp_shape (btor_uf_exp S sort symbol).1
      sort symbol
    rw [hu2', hu2, huc]
    simp

/-- A context in which node id 1 (a bit-vector variable carrying symbol "x")
has been created and then released, so arena slot 1 is a freed (NULL) slot. -/
def releasedVarCtx : Btor :=
  btor_release_exp (btor_var_exp emptyBtor (.bitvec 8) (some "x")).1 ⟨false, 1⟩

/-- C9 (code bug): the claim says `btor_match_node_by_id` and
`btor_match_node_by_symbol` return an owning handle or null — null rather
than misbehaving when the id's arena slot has been freed or when no node
carries the symbol.  The code, however, feeds `BTOR_PEEK_STACK` /
`btor_get_node_by_symbol` results to `btor_copy_exp` without a null check, so
both the freed-slot lookup and the unknown-symbol lookup dereference a NULL
pointer (modelled as the outer `none`); only the id-out-of-range path
returns null as claimed. -/
theorem claim_C9_match_lookup_null_deref :
    (getNode releasedVarCtx 1 = none ∧
      btor_match_node_by_id releasedVarCtx 1 = none) ∧
    (btor_get_node_by_symbol emptyBtor "y" = none ∧
      btor_match_node_by_symbol emptyBtor "y" = none) ∧
    btor_match_node_by_id releasedVarCtx 5 = some (releasedVarCtx, none) := by
  refine ⟨⟨?_, ?_⟩, ⟨rfl, rfl⟩, ?_⟩ <;> decide

/-! ## updateNode algebra -/

theorem btor_ext (S S' : Btor)
    (h : S.nodes_id_table = S'.nodes_id_table)
    (h2 : S.unique_chain = S'.unique_chain)
    (h3 : S.unique_num_elements = S'.unique_num_elements)
    (h4 : S.unique_size = S'.unique_size)
    (h5 : S.bv_vars = S'.bv_vars) (h6 : S.ufs = S'.ufs)
    (h7 : S.feqs = S'.feqs) (h8 : S.lambdas = S'.lambdas)
    (h9 : S.node2symbol = S'.node2symbol) (h10 : S.symbols = S'.symbols)
    (h11 : S.parameterized_tbl = S'.parameterized_tbl)
    (h12 : S.sort_refs = S'.sort_refs)
    (h13 : S.opt_sort_exp = S'.opt_sort_exp)
    (h14 : S.opt_rewrite_level = S'.opt_rewrite_level)
    (h15 : S.external_refs = S'.external_refs) : S = S' := by
  cases S
  cases S'
  simp_all

theorem updateNode_id_fun (S : Btor) (p : Nat) :
    updateNode S p (fun n => n) = S := by
  refine btor_ext _ _ ?_ rfl rfl rfl rfl rfl rfl rfl rfl rfl rfl rfl rfl rfl rfl
  show S.nodes_id_table.set p ((S.nodes_id_table.getD p none).map (fun n => n)) =
    S.nodes_id_table
  rcases Nat.lt_or_ge p S.nodes_id_table.length with hlt | hge
  · apply List.ext_getElem?
    intro j
    by_cases hj : j = p
    · subst hj
      rw [List.getElem?_set_self hlt, List.getD_eq_getElem?_getD,
        List.getElem?_eq_getElem hlt]
      simp
    · rw [List.getElem?_set_ne (Ne.symm hj)]
  · rw [List.set_eq_of_length_le hge]

theorem updateNode_ite (c : Prop) [Decidable c] (S : Btor) (p : Nat)
    (f : BtorNode → BtorNode) :
    (if c then updateNode S p f else S) =
      updateNode S p (fun n => if c then f n else n) := by
  by_cases hc : c
  · simp [hc]
  · simp [hc, updateNode_id_fun]

theorem updateNode_updateNode (S : Btor) (p : Nat) (f g : BtorNode → BtorNode) :
    updateNode (updateNode S p f) p g = updateNode S p (fun n => g (f n)) := by
  refine btor_ext _ _ ?_ rfl rfl rfl rfl rfl rfl rfl rfl rfl rfl rfl rfl rfl rfl
  show (let l := S.nodes_id_table
    (l.set p ((l.getD p none).map f)).set p
      (((l.set p ((l.getD p none).map f)).getD p none).map g)) =
    S.nodes_id_table.set p ((S.nodes_id_table.getD p none).map (fun n => g (f n)))
  rcases Nat.lt_or_ge p S.nodes_id_table.length with hlt | hge
  · have hmid : ((S.nodes_id_table.set p
        ((S.nodes_id_table.getD p none).map f)).getD p none) =
        ((S.nodes_id_table.getD p none).map f) := by
      rw [List.getD_eq_getElem?_getD, List.getElem?_set_self hlt]
      simp
    simp only [hmid, List.set_set, Option.map_map]
    rfl
  · simp only [List.set_eq_of_length_le hge]

theorem getNode_bound (S : Btor) (j : Nat) (hj : nodesCount S ≤ j) :
    getNode S j = none := by
  unfold getNode
  rw [List.getD_eq_getElem?_getD, List.getElem?_eq_none (by simpa [nodesCount] using hj)]
  rfl

theorem getNode_ite_update (c : Prop) [Decidable c] (S : Btor) (p : Nat)
    (f : BtorNode → BtorNode) (j : Nat) :
    getNode (if c then updateNode S p f else S) j =
      if j = p then (getNode S j).map (fun n => if c then f n else n)
      else getNode S j := by
  by_cases hc : c
  · rw [if_pos hc, getNode_updateNode]
    by_cases hj : j = p
    · rw [if_pos hj, if_pos hj]
      simp [hc]
    · rw [if_neg hj, if_neg hj]
  · rw [if_neg hc]
    by_cases hj : j = p
    · rw [if_pos hj]
      cases getNode S j <;> simp [hc]
    · rw [if_neg hj]

theorem ite_true_flag (c b : Bool) :
    (if c = true then true else b) = (b || c) := by
  cases c <;> cases b <;> simp

/-- The flag values `connect_child_exp` leaves on the parent node. -/
def inheritFlags (P R n : BtorNode) : BtorNode :=
  { n with
    parameterized :=
      n.parameterized || (!(P.kind == BtorNodeKind.lambda) && R.parameterized),
    is_array := n.is_array || (btor_is_fun_cond_node P && R.is_array),
    lambda_below := n.lambda_below || R.lambda_below,
    apply_below := n.apply_below || R.apply_below }

theorem getNode_connect_set_flags (S : Btor) (p : Nat) (P R : BtorNode)
    (j : Nat) :
    getNode (connect_set_flags S p P R) j =
      if j = p then (getNode S j).map (inheritFlags P R) else getNode S j := by
  unfold connect_set_flags
  simp only [updateNode_updateNode, getNode_updateNode]
  by_cases hj : j = p
  · rw [if_pos hj, if_pos hj]
    cases getNode S j with
    | none => rfl
    | some n =>
        refine congrArg some ?_
        by_cases h1 : (!(P.kind == BtorNodeKind.lambda) && R.parameterized) = true <;>
          by_cases h2 : (btor_is_fun_cond_node P && R.is_array) = true <;>
            by_cases h3 : R.lambda_below = true <;>
              by_cases h4 : R.apply_below = true <;>
                simp [h1, h2, h3, h4, inheritFlags,
                  Bool.not_eq_true, Bool.and_eq_true]
  · rw [if_neg hj, if_neg hj]

theorem getNode_connect_pre (S : Btor) (parentId : Nat) (child : Handle)
    (pos : Nat) (parent rchild : BtorNode) (j : Nat)
    (hp : getNode S parentId = some parent)
    (hc : getNode S child.id = some rchild)
    (hne : child.id ≠ parentId) :
    getNode (updateNode (inc_exp_ref_counter (updateNode
        (connect_set_flags S parentId parent rchild) child.id
        (fun n => { n with parents := n.parents + 1 })) child) parentId
        (fun n => { n with e := n.e.set pos (some child) })) j =
      if j = child.id then
        some { rchild with parents := rchild.parents + 1,
                           refs := rchild.refs + 1 }
      else if j = parentId then
        some { inheritFlags parent rchild parent with
               e := parent.e.set pos (some child) }
      else getNode S j := by
  dsimp only [inc_exp_ref_counter]
  simp only [updateNode_updateNode, getNode_updateNode,
    getNode_connect_set_flags]
  by_cases hjc : j = child.id
  · subst hjc
    simp [hne, hc]
  · by_cases hjp : j = parentId
    · subst hjp
      simp [Ne.symm hne, hp, inheritFlags]
    · simp [hjc, hjp]

theorem connect_splice_no_parent (S : Btor) (p : Nat) (child : Handle)
    (pos : Nat) (ib : Bool) (rc : BtorNode)
    (hg : getNode S child.id = some rc) (hfp : rc.first_parent = none) :
    connect_splice S p child pos ib =
      updateNode S child.id (fun n =>
        { n with first_parent := some ⟨p, pos⟩,
                 last_parent := some ⟨p, pos⟩ }) := by
  unfold connect_splice
  rw [hg]
  simp [hfp]

theorem connect_splice_head (S : Btor) (p : Nat) (child : Handle) (pos : Nat)
    (rc : BtorNode) (fp : TaggedParent)
    (hg : getNode S child.id = some rc) (hfp : rc.first_parent = some fp) :
    connect_splice S p child pos true =
      updateNode (updateNode (updateNode S p (fun n =>
          { n with next_parent := n.next_parent.set pos (some fp) }))
        fp.id (fun n =>
          { n with prev_parent := n.prev_parent.set fp.tag (some ⟨p, pos⟩) }))
        child.id (fun n => { n with first_parent := some ⟨p, pos⟩ }) := by
  unfold connect_splice
  rw [hg]
  simp [hfp]

theorem connect_splice_tail (S : Btor) (p : Nat) (child : Handle) (pos : Nat)
    (rc : BtorNode) (fp lp : TaggedParent)
    (hg : getNode S child.id = some rc) (hfp : rc.first_parent = some fp)
    (hlp : rc.last_parent = some lp) :
    connect_splice S p child pos false =
      updateNode (updateNode (updateNode S p (fun n =>
          { n with prev_parent := n.prev_parent.set pos (some lp) }))
        lp.id (fun n =>
          { n with next_parent := n.next_parent.set lp.tag (some ⟨p, pos⟩) }))
        child.id (fun n => { n with last_parent := some ⟨p, pos⟩ }) := by
  unfold connect_splice
  rw [hg]
  simp [hfp, hlp]

/-- What C7 asserts `connect_child_exp` does, field by field. -/
def ConnectChildSpec (S : Btor) (parentId : Nat) (child : Handle) (pos : Nat)
    (parent rchild : BtorNode) : Prop :=
  ((getNode (connect_child_exp S parentId child pos) child.id).map
      (fun n => (n.parents, n.refs)) =
    some (rchild.parents + 1, rchild.refs + 1)) ∧
  ((getNode (connect_child_exp S parentId child pos) parentId).map
      (fun n => n.e) = some (parent.e.set pos (some child))) ∧
  ((getNode (connect_child_exp S parentId child pos) parentId).map
      (fun n => (n.parameterized, n.is_array, n.lambda_below, n.apply_below)) =
    some
      (parent.parameterized || (!(parent.kind == .lambda) && rchild.parameterized),
       parent.is_array || (btor_is_fun_cond_node parent && rchild.is_array),
       parent.lambda_below || rchild.lambda_below,
       parent.apply_below || rchild.apply_below)) ∧
  (rchild.first_parent = none →
    (getNode (connect_child_exp S parentId child pos) child.id).map
        (fun n => (n.first_parent, n.last_parent)) =
      some (some ⟨parentId, pos⟩, some ⟨parentId, pos⟩)) ∧
  (∀ fp, rchild.first_parent = some fp → ¬parent.kind = .apply →
    fp.id ≠ parentId → fp.id ≠ child.id →
    ((getNode (connect_child_exp S parentId child pos) child.id).map
        (fun n => (n.first_parent, n.last_parent)) =
      some (some ⟨parentId, pos⟩, rchild.last_parent)) ∧
    ((getNode (connect_child_exp S parentId child pos) parentId).map
        (fun n => n.next_parent) =
      some (parent.next_parent.set pos (some fp))) ∧
    (getNode (connect_child_exp S parentId child pos) fp.id =
      (getNode S fp.id).map (fun n =>
        { n with
          prev_parent := n.prev_parent.set fp.tag (some ⟨parentId, pos⟩) }))) ∧
  (∀ fp lp, rchild.first_parent = some fp → rchild.last_parent = some lp →
    parent.kind = .apply → lp.id ≠ parentId → lp.id ≠ child.id →
    ((getNode (connect_child_exp S parentId child pos) child.id).map
        (fun n => (n.first_parent, n.last_parent)) =
      some (rchild.first_parent, some ⟨parentId, pos⟩)) ∧
    ((getNode (connect_child_exp S parentId child pos) parentId).map
        (fun n => n.prev_parent) =
      some (parent.prev_parent.set pos (some lp))) ∧
    (getNode (connect_child_exp S parentId child pos) lp.id =
      (getNode S lp.id).map (fun n =>
        { n with
          next_parent := n.next_parent.set lp.tag (some ⟨parentId, pos⟩) })))

/-- C7: `connect_child_exp` increments the child's parent and reference
counts, wires `e[pos]`, inherits the `parameterized` (except into lambdas),
`is_array` (into function conds), `lambda_below` and `apply_below` flags, and
splices the tagged parent record at the head of the child's parent list —
at the tail when the parent is an Apply node; a first parent becomes both
head and tail. -/
theorem claim_C7_connect_child (S : Btor) (parentId : Nat) (child : Handle)
    (pos : Nat) (parent rchild : BtorNode)
    (hp : getNode S parentId = some parent)
    (hc : getNode S child.id = some rchild)
    (hne : child.id ≠ parentId) :
    ConnectChildSpec S parentId child pos parent rchild := by
  unfold ConnectChildSpec
  have hpc : parentId ≠ child.id := Ne.symm hne
  unfold connect_child_exp
  rw [hp, hc]
  dsimp only []
  have hread := fun j =>
    getNode_connect_pre S parentId child pos parent rchild j hp hc hne
  rcases hfp : rchild.first_parent with _ | fp
  · -- the child had no parent: the record becomes head and tail
    rw [connect_splice_no_parent _ _ _ _ _
      { rchild with parents := rchild.parents + 1, refs := rchild.refs + 1 }
      (by rw [hread]; simp) hfp]
    refine ⟨?_, ?_, ?_, ?_, ?_, ?_⟩
    · simp [getNode_updateNode, hread, hpc]
    · simp [getNode_updateNode, hread, hpc, hne]
    · simp [getNode_updateNode, hread, hpc, hne, inheritFlags]
    · intro _
      simp [getNode_updateNode, hread]
    · intro fp hfp' _ _ _
      cases hfp'
    · intro fp lp hfp' _ _ _ _
      cases hfp'
  · -- the child has parents already: head or tail splice
    by_cases hk : parent.kind = BtorNodeKind.apply
    · -- Apply parent: tail splice
      have hib : (!(parent.kind == BtorNodeKind.apply)) = false := by simp [hk]
      rw [hib]
      rcases hlp : rchild.last_parent with _ | lp
      · -- degenerate: non-null head but null tail; the C code asserts this
        -- never happens, the model leaves the parent list untouched
        have hsc : connect_splice (updateNode (inc_exp_ref_counter (updateNode
            (connect_set_flags S parentId parent rchild) child.id
            (fun n => { n with parents := n.parents + 1 })) child) parentId
            (fun n => { n with e := n.e.set pos (some child) })) parentId child
            pos false =
            (updateNode (inc_exp_ref_counter (updateNode
            (connect_set_flags S parentId parent rchild) child.id
            (fun n => { n with parents := n.parents + 1 })) child) parentId
            (fun n => { n with e := n.e.set pos (some child) })) := by
          unfold connect_splice
          rw [hread]
          simp [hfp, hlp]
        rw [hsc]
        refine ⟨?_, ?_, ?_, ?_, ?_, ?_⟩
        · simp [hread]
        · simp [hread, hpc, hne]
        · simp [hread, hpc, hne, inheritFlags]
        · intro hfp'
          cases hfp'
        · intro fp' hfp' hk' _ _
          exact absurd hk hk'
        · intro fp' lp' hfp' hlp' _ _ _
          cases hlp'
      · rw [connect_splice_tail _ _ _ _
          { rchild with parents := rchild.parents + 1, refs := rchild.refs + 1 }
          fp lp (by rw [hread]; simp) hfp hlp]
        refine ⟨?_, ?_, ?_, ?_, ?_, ?_⟩
        · simp [getNode_updateNode, hread, hpc, hne, apply_ite]
        · simp [getNode_updateNode, hread, hpc, hne, apply_ite]
        · simp [getNode_updateNode, hread, hpc, hne, apply_ite, inheritFlags]
        · intro hfp'
          cases hfp'
        · intro fp' hfp' hk' _ _
          exact absurd hk hk'
        · intro fp' lp' hfp' hlp' _ hlpp hlpc
          cases hfp'
          cases hlp'
          refine ⟨?_, ?_, ?_⟩
          · simp [getNode_updateNode, hread, hpc, hne, Ne.symm hlpc, hfp]
          · simp [getNode_updateNode, hread, hpc, hne, Ne.symm hlpp,
              inheritFlags]
          · simp [getNode_updateNode, hread, hlpc, hlpp]
    · -- non-Apply parent: head splice
      have hib : (!(parent.kind == BtorNodeKind.apply)) = true := by simp [hk]
      rw [hib]
      rw [connect_splice_head _ _ _ _
        { rchild with parents := rchild.parents + 1, refs := rchild.refs + 1 }
        fp (by rw [hread]; simp) hfp]
      refine ⟨?_, ?_, ?_, ?_, ?_, ?_⟩
      · simp [getNode_updateNode, hread, hpc, hne, apply_ite]
      · simp [getNode_updateNode, hread, hpc, hne, apply_ite]
      · simp [getNode_updateNode, hread, hpc, hne, apply_ite, inheritFlags]
      · intro hfp'
        cases hfp'
      · intro fp' hfp' _ hfpp hfpc
        cases hfp'
        refine ⟨?_, ?_, ?_⟩
        · simp [getNode_updateNode, hread, hpc, hne, Ne.symm hfpc]
        · simp [getNode_updateNode, hread, hpc, hne, Ne.symm hfpp,
            inheritFlags]
        · simp [getNode_updateNode, hread, hfpc, hfpp]
      · intro fp' lp' hfp' hlp' hk' _ _
        exact absurd hk' hk



/-- Concrete state for the C7 witness: two 8-bit variables (ids 1 and 2). -/
def connectCtx : Btor :=
  (btor_var_exp (btor_var_exp emptyBtor (.bitvec 8) none).1 (.bitvec 8) none).1

/-- The node in slot 2 of `connectCtx`. -/
def connectParentNode : BtorNode := (getNode connectCtx 2).getD newBtorNode

/-- The node in slot 1 of `connectCtx`. -/
def connectChildNode : BtorNode := (getNode connectCtx 1).getD newBtorNode

/-- Witness for C7 at a concrete input: connect node 1 as child 0 of node 2. -/
theorem claim_C7_connect_child_witness :
    (getNode connectCtx 2 = some connectParentNode ∧
      getNode connectCtx (Handle.mk false 1).id = some connectChildNode ∧
      (Handle.mk false 1).id ≠ 2) ∧
    ConnectChildSpec connectCtx 2 ⟨false, 1⟩ 0 connectParentNode
      connectChildNode :=
  ⟨⟨by decide, by decide, by decide⟩,
    claim_C7_connect_child connectCtx 2 ⟨false, 1⟩ 0 connectParentNode
      connectChildNode (by decide) (by decide) (by decide)⟩

/-! ## Frame lemmas for the release/proxy paths -/

theorem view_updateNode {α : Type} (v : BtorNode → α) (S : Btor) (p : Nat)
    (f : BtorNode → BtorNode) (j : Nat) (hf : ∀ n, v (f n) = v n) :
    ((getNode (updateNode S p f) j).map v) = ((getNode S j).map v) := by
  rw [getNode_updateNode]
  by_cases hj : j = p
  · rw [if_pos hj]
    cases getNode S j <;> simp [hf]
  · rw [if_neg hj]

theorem view_updateNode_self {α : Type} (v : BtorNode → α) (S : Btor) (p : Nat)
    (f : BtorNode → BtorNode) :
    ((getNode (updateNode S p f) p).map v) =
      ((getNode S p).map (fun n => v (f n))) := by
  rw [getNode_updateNode, if_pos rfl]
  cases getNode S p <;> simp

theorem view_ite_update {α : Type} (v : BtorNode → α) (c : Prop) [Decidable c]
    (S : Btor) (p : Nat) (f : BtorNode → BtorNode) (j : Nat)
    (hf : ∀ n, v (f n) = v n) :
    ((getNode (if c then updateNode S p f else S) j).map v) =
      ((getNode S j).map v) := by
  by_cases hc : c
  · rw [if_pos hc]
    exact view_updateNode v S p f j hf
  · rw [if_neg hc]

/-- The node fields `disconnect_child_exp` never changes. -/
def coreView (n : BtorNode) :
    Nat × BtorNodeKind × Option BtorSort × Nat × Nat × Bool × Bool × Bool ×
      Option Handle × Option BtorBitVector × Option BtorBitVector × Bool ×
      Bool × List (Handle × Handle) × Bool :=
  (n.id, n.kind, n.sort_id, n.arity, n.refs, n.unique, n.erased,
    n.disconnected, n.simplified, n.bits, n.invbits, n.av, n.rho,
    n.static_rho, n.parameterized)

theorem coreView_upd_parents (T : Btor) (q i : Nat) :
    ((getNode (updateNode T q (fun n => { n with parents := n.parents - 1 }))
      i).map coreView) = ((getNode T i).map coreView) :=
  view_updateNode _ _ _ _ _ (fun _ => rfl)

theorem coreView_upd_fl_none (T : Btor) (q i : Nat) :
    ((getNode (updateNode T q (fun n =>
      { n with first_parent := none, last_parent := none })) i).map coreView) =
      ((getNode T i).map coreView) :=
  view_updateNode _ _ _ _ _ (fun _ => rfl)

theorem coreView_upd_first (T : Btor) (q i : Nat) (v : Option TaggedParent) :
    ((getNode (updateNode T q (fun n => { n with first_parent := v })) i).map
      coreView) = ((getNode T i).map coreView) :=
  view_updateNode _ _ _ _ _ (fun _ => rfl)

theorem coreView_upd_last (T : Btor) (q i : Nat) (v : Option TaggedParent) :
    ((getNode (updateNode T q (fun n => { n with last_parent := v })) i).map
      coreView) = ((getNode T i).map coreView) :=
  view_updateNode _ _ _ _ _ (fun _ => rfl)

theorem coreView_upd_prevset (T : Btor) (q i t : Nat)
    (v : Option TaggedParent) :
    ((getNode (updateNode T q (fun n =>
      { n with prev_parent := n.prev_parent.set t v })) i).map coreView) =
      ((getNode T i).map coreView) :=
  view_updateNode _ _ _ _ _ (fun _ => rfl)

theorem coreView_upd_nextset (T : Btor) (q i t : Nat)
    (v : Option TaggedParent) :
    ((getNode (updateNode T q (fun n =>
      { n with next_parent := n.next_parent.set t v })) i).map coreView) =
      ((getNode T i).map coreView) :=
  view_updateNode _ _ _ _ _ (fun _ => rfl)

theorem coreView_upd_clear3 (T : Btor) (q i t : Nat) :
    ((getNode (updateNode T q (fun n =>
      { n with next_parent := n.next_parent.set t none,
               prev_parent := n.prev_parent.set t none,
               e := n.e.set t none })) i).map coreView) =
      ((getNode T i).map coreView) :=
  view_updateNode _ _ _ _ _ (fun _ => rfl)

theorem coreView_upd_lambda_clear (T : Btor) (q i : Nat) (k : BtorNodeKind)
    (pos pid : Nat) :
    ((getNode (updateNode T q (fun n =>
      if k == .lambda && pos == 0 && n.lambda_exp == some pid then
        { n with lambda_exp := none } else n)) i).map coreView) =
      ((getNode T i).map coreView) :=
  view_updateNode _ _ _ _ _ (fun n => by split <;> rfl)

theorem coreView_disconnect_splice (S : Btor) (parentId pos childId : Nat)
    (fp lp : Option TaggedParent) (j : Nat) :
    ((getNode (disconnect_splice S parentId pos childId fp lp) j).map coreView) =
      ((getNode S j).map coreView) := by
  unfold disconnect_splice
  dsimp only []
  repeat'
    first
      | rfl
      | rw [coreView_upd_fl_none]
      | rw [coreView_upd_first]
      | rw [coreView_upd_last]
      | rw [coreView_upd_prevset]
      | rw [coreView_upd_nextset]
      | split

theorem coreView_disconnect_child (S : Btor) (p pos : Nat) (j : Nat) :
    ((getNode (disconnect_child_exp S p pos) j).map coreView) =
      ((getNode S j).map coreView) := by
  unfold disconnect_child_exp
  split
  · rfl
  split
  · rfl
  dsimp only []
  rw [coreView_upd_clear3, coreView_disconnect_splice, coreView_upd_lambda_clear,
    coreView_upd_parents]

/-! ## Set-to-proxy (claim C6) -/

theorem getNode_upd_self (S : Btor) (id : Nat) (f : BtorNode → BtorNode) :
    getNode (updateNode S id f) id = (getNode S id).map f := by
  rw [getNode_updateNode, if_pos rfl]

theorem updateNode_congr (S : Btor) (id : Nat) (f g : BtorNode → BtorNode)
    (h : (getNode S id).map f = (getNode S id).map g) :
    updateNode S id f = updateNode S id g := by
  unfold updateNode
  unfold getNode at h
  rw [h]

/-- `List.getD` after a `set` at a different index. -/
theorem getD_set_ne {α : Type} (l : List α) (i j : Nat) (v d : α)
    (h : i ≠ j) : (l.set i v).getD j d = l.getD j d := by
  induction l generalizing i j with
  | nil => rfl
  | cons a l ih =>
      cases i with
      | zero =>
          cases j with
          | zero => exact absurd rfl h
          | succ j => rfl
      | succ i =>
          cases j with
          | zero => rfl
          | succ j => exact ih i j (fun hij => h (by rw [hij]))

/-- `List.getD` after clearing the same slot (in or out of range). -/
theorem getD_set_self_none {α : Type} (l : List (Option α)) (i : Nat) :
    (l.set i none).getD i none = none := by
  induction l generalizing i with
  | nil => rfl
  | cons a l ih =>
      cases i with
      | zero => rfl
      | succ i => exact ih i

/-- The `(parents, e)` view: the parent-list splice leaves both alone while
`disconnect_child_exp` changes them at the child and the parent only. -/
def peView (n : BtorNode) : Nat × List (Option Handle) := (n.parents, n.e)

theorem peView_upd_fl_none (T : Btor) (q i : Nat) :
    ((getNode (updateNode T q (fun n =>
      { n with first_parent := none, last_parent := none })) i).map peView) =
      ((getNode T i).map peView) :=
  view_updateNode _ _ _ _ _ (fun _ => rfl)

theorem peView_upd_first (T : Btor) (q i : Nat) (v : Option TaggedParent) :
    ((getNode (updateNode T q (fun n => { n with first_parent := v })) i).map
      peView) = ((getNode T i).map peView) :=
  view_updateNode _ _ _ _ _ (fun _ => rfl)

theorem peView_upd_last (T : Btor) (q i : Nat) (v : Option TaggedParent) :
    ((getNode (updateNode T q (fun n => { n with last_parent := v })) i).map
      peView) = ((getNode T i).map peView) :=
  view_updateNode _ _ _ _ _ (fun _ => rfl)

theorem peView_upd_prevset (T : Btor) (q i t : Nat)
    (v : Option TaggedParent) :
    ((getNode (updateNode T q (fun n =>
      { n with prev_parent := n.prev_parent.set t v })) i).map peView) =
      ((getNode T i).map peView) :=
  view_updateNode _ _ _ _ _ (fun _ => rfl)

theorem peView_upd_nextset (T : Btor) (q i t : Nat)
    (v : Option TaggedParent) :
    ((getNode (updateNode T q (fun n =>
      { n with next_parent := n.next_parent.set t v })) i).map peView) =
      ((getNode T i).map peView) :=
  view_updateNode _ _ _ _ _ (fun _ => rfl)

theorem peView_upd_lambda_clear (T : Btor) (q i : Nat) (k : BtorNodeKind)
    (pos pid : Nat) :
    ((getNode (updateNode T q (fun n =>
      if k == .lambda && pos == 0 && n.lambda_exp == some pid then
        { n with lambda_exp := none } else n)) i).map peView) =
      ((getNode T i).map peView) :=
  view_updateNode _ _ _ _ _ (fun n => by split <;> rfl)

theorem peView_disconnect_splice (S : Btor) (parentId pos childId : Nat)
    (fp lp : Option TaggedParent) (j : Nat) :
    ((getNode (disconnect_splice S parentId pos childId fp lp) j).map peView) =
      ((getNode S j).map peView) := by
  unfold disconnect_splice
  dsimp only []
  repeat'
    first
      | rfl
      | rw [peView_upd_fl_none]
      | rw [peView_upd_first]
      | rw [peView_upd_last]
      | rw [peView_upd_prevset]
      | rw [peView_upd_nextset]
      | split

/-- Pull the `peView` of the parent's final edge-clearing update through
`Option.map`. -/
theorem map_peView_clear3 (o : Option BtorNode) (pos : Nat) :
    (o.map (fun n => peView
      { n with next_parent := n.next_parent.set pos none,
               prev_parent := n.prev_parent.set pos none,
               e := n.e.set pos none })) =
      ((o.map peView).map (fun t => (t.1, t.2.set pos none))) := by
  cases o <;> rfl

/-- Pull the child's parent-count decrement through `Option.map`. -/
theorem map_peView_dec (o : Option BtorNode) :
    (o.map (fun n => ((n.parents - 1 : Nat), n.e))) =
      ((o.map peView).map (fun t => ((t.1 - 1 : Nat), t.2))) := by
  cases o <;> rfl

/-- `disconnect_child_exp` keeps the `(parents, e)` view of every node other
than the disconnected child and the parent. -/
theorem disconnect_child_peView_other (S : Btor) (p pos : Nat) (P : BtorNode)
    (hp : getNode S p = some P) (c : Handle)
    (hc : P.e.getD pos none = some c) (j : Nat) (hjc : j ≠ c.id)
    (hjp : j ≠ p) :
    ((getNode (disconnect_child_exp S p pos) j).map peView) =
      ((getNode S j).map peView) := by
  unfold disconnect_child_exp
  rw [hp]
  dsimp only []
  rw [hc]
  dsimp only []
  rw [getNode_updateNode_ne _ _ _ _ hjp, peView_disconnect_splice,
    getNode_updateNode_ne _ _ _ _ hjc, getNode_updateNode_ne _ _ _ _ hjc]

/-- `disconnect_child_exp` decrements the disconnected child's parent count
and leaves its own edges alone. -/
theorem disconnect_child_peView_child (S : Btor) (p pos : Nat) (P : BtorNode)
    (hp : getNode S p = some P) (c : Handle)
    (hc : P.e.getD pos none = some c) (hcp : c.id ≠ p) :
    ((getNode (disconnect_child_exp S p pos) c.id).map peView) =
      ((getNode S c.id).map (fun n => ((n.parents - 1 : Nat), n.e))) := by
  unfold disconnect_child_exp
  rw [hp]
  dsimp only []
  rw [hc]
  dsimp only []
  rw [getNode_updateNode_ne _ _ _ _ hcp, peView_disconnect_splice,
    peView_upd_lambda_clear, view_updateNode_self]
  cases getNode S c.id <;> rfl

/-- `disconnect_child_exp` clears edge `pos` of the parent and keeps the
parent's parent count. -/
theorem disconnect_child_peView_parent (S : Btor) (p pos : Nat) (P : BtorNode)
    (hp : getNode S p = some P) (c : Handle)
    (hc : P.e.getD pos none = some c) (hcp : c.id ≠ p) :
    ((getNode (disconnect_child_exp S p pos) p).map peView) =
      ((getNode S p).map (fun n => (n.parents, n.e.set pos none))) := by
  unfold disconnect_child_exp
  rw [hp]
  dsimp only []
  rw [hc]
  dsimp only []
  rw [view_updateNode_self, map_peView_clear3, peView_disconnect_splice,
    peView_upd_lambda_clear, getNode_updateNode_ne _ _ _ _ (Ne.symm hcp), hp]
  rfl

/-- The solver-level tables and registries `disconnect_child_exp` never
touches. -/
def tblView (S : Btor) :
    List Nat × Nat × Nat × List Nat × List Nat × List Nat ×
      List (Nat × Nat) × List (Nat × String) × List (String × Nat) ×
      List (Nat × List Nat) × List (BtorSort × Nat) :=
  (S.unique_chain, S.unique_num_elements, S.unique_size, S.bv_vars, S.ufs,
   S.feqs, S.lambdas, S.node2symbol, S.symbols, S.parameterized_tbl,
   S.sort_refs)

theorem tblView_updateNode (S : Btor) (p : Nat) (f : BtorNode → BtorNode) :
    tblView (updateNode S p f) = tblView S := rfl

theorem tblView_disconnect_splice (S : Btor) (parentId pos childId : Nat)
    (fp lp : Option TaggedParent) :
    tblView (disconnect_splice S parentId pos childId fp lp) = tblView S := by
  unfold disconnect_splice
  dsimp only []
  repeat'
    first
      | rfl
      | rw [tblView_updateNode]
      | split

theorem tblView_disconnect_child (S : Btor) (p pos : Nat) :
    tblView (disconnect_child_exp S p pos) = tblView S := by
  unfold disconnect_child_exp
  split
  · rfl
  split
  · rfl
  dsimp only []
  rw [tblView_updateNode, tblView_disconnect_splice, tblView_updateNode,
    tblView_updateNode]

theorem tblView_disconnect_fold (id : Nat) : ∀ (l : List Nat) (S : Btor),
    tblView (l.foldl (fun acc i => disconnect_child_exp acc id i) S) =
      tblView S
  | [], _ => rfl
  | i :: l, S => by
      rw [List.foldl_cons, tblView_disconnect_fold id l,
        tblView_disconnect_child]

theorem coreView_disconnect_fold (id j : Nat) : ∀ (l : List Nat) (S : Btor),
    ((getNode (l.foldl (fun acc i => disconnect_child_exp acc id i) S) j).map
      coreView) = ((getNode S j).map coreView)
  | [], _ => rfl
  | i :: l, S => by
      rw [List.foldl_cons, coreView_disconnect_fold id j l,
        coreView_disconnect_child]

/-- Clearing an already-clear `unique` flag is the identity. -/
theorem node_set_unique_self (n : BtorNode) (h : n.unique = false) :
    { n with unique := false } = n := by
  cases n
  simp_all

theorem remove_unique_getNode_ne (S : Btor) (id j : Nat) (hj : j ≠ id) :
    getNode (remove_from_nodes_unique_table_exp S id) j = getNode S j := by
  unfold remove_from_nodes_unique_table_exp
  split
  · rfl
  split
  · rfl
  exact getNode_updateNode_ne _ _ _ _ hj

theorem remove_unique_getNode_self (S : Btor) (id : Nat) (X : BtorNode)
    (hX : getNode S id = some X) :
    getNode (remove_from_nodes_unique_table_exp S id) id =
      some { X with unique := false } := by
  unfold remove_from_nodes_unique_table_exp
  rw [hX]
  dsimp only []
  cases hu : X.unique
  · rw [if_pos (show (!false) = true from rfl), hX]
    exact congrArg some (node_set_unique_self X hu).symm
  · rw [if_neg (by decide)]
    rw [getNode_upd_self]
    show (getNode S id).map _ = _
    rw [hX]
    rfl

theorem remove_unique_not_mem_chain (S : Btor) (id : Nat) (X : BtorNode)
    (hX : getNode S id = some X)
    (hcnt : S.unique_chain.count id ≤ (if X.unique then 1 else 0)) :
    id ∉ (remove_from_nodes_unique_table_exp S id).unique_chain := by
  unfold remove_from_nodes_unique_table_exp
  rw [hX]
  dsimp only []
  cases hu : X.unique
  · rw [if_pos (show (!false) = true from rfl)]
    rw [hu] at hcnt
    simp only [if_neg (by decide : ¬ (false = true))] at hcnt
    intro hmem
    have h0 : S.unique_chain.count id = 0 := Nat.le_zero.mp hcnt
    exact (List.count_eq_zero.mp h0) hmem
  · rw [if_neg (by decide)]
    rw [hu] at hcnt
    rw [if_pos rfl] at hcnt
    intro hmem
    have h1 : 0 < (S.unique_chain.erase id).count id :=
      List.count_pos_iff_mem.mpr hmem
    rw [List.count_erase_self] at h1
    omega

theorem remove_unique_sort_refs (S : Btor) (id : Nat) :
    (remove_from_nodes_unique_table_exp S id).sort_refs = S.sort_refs := by
  unfold remove_from_nodes_unique_table_exp
  split
  · rfl
  split
  · rfl
  rfl

/-- The in-place effect of `erase_local_data_exp` on a node whose
`static_rho` is already empty (`free_sort = false`). -/
def eraseLocal (n : BtorNode) : BtorNode :=
  let n1 := match n.kind with
    | .bvConst => { n with bits := none, invbits := none }
    | .lambda => { n with static_rho := ([] : List (Handle × Handle)),
                          rho := false }
    | .update => { n with rho := false }
    | .uf => { n with rho := false }
    | .cond => if btor_is_fun_cond_node n && n.rho then { n with rho := false }
               else n
    | _ => n
  { n1 with av := false, erased := true }

theorem erase_local_data_eq (rel : Btor → Handle → Btor) (S : Btor)
    (id : Nat) (n : BtorNode) (hn : getNode S id = some n)
    (hsr : n.static_rho = []) :
    erase_local_data_exp rel S id false = updateNode S id eraseLocal := by
  unfold erase_local_data_exp
  rw [hn]
  dsimp only []
  rw [if_neg (by decide : ¬ ((false : Bool) = true))]
  obtain ⟨nid, nkind, nsort, nar, ne, nrefs, next, npar, nfp, nlp, nnp, npp,
    nuniq, nparm, nlb, nab, nia, ner, ndis, nsimp, nbits, ninv, nup, nlo,
    nav, nrho, nsr, nbody, nle⟩ := n
  dsimp only [] at hsr
  subst hsr
  cases nkind
  case cond =>
    dsimp only []
    split
    · rename_i hbc
      repeat rw [updateNode_updateNode]
      refine updateNode_congr _ _ _ _ ?_
      rw [hn]
      refine congrArg some ?_
      unfold eraseLocal
      dsimp only []
      rw [if_pos hbc]
    · rename_i hbc
      repeat rw [updateNode_updateNode]
      refine updateNode_congr _ _ _ _ ?_
      rw [hn]
      refine congrArg some ?_
      unfold eraseLocal
      dsimp only []
      rw [if_neg hbc]
  all_goals dsimp only []
  all_goals try rw [List.foldl_nil]
  all_goals repeat rw [updateNode_updateNode]
  all_goals refine updateNode_congr _ _ _ _ ?_
  all_goals rw [hn]
  all_goals rfl

theorem eraseLocal_core (n : BtorNode) :
    (eraseLocal n).id = n.id ∧ (eraseLocal n).kind = n.kind ∧
    (eraseLocal n).sort_id = n.sort_id ∧ (eraseLocal n).arity = n.arity ∧
    (eraseLocal n).e = n.e ∧ (eraseLocal n).refs = n.refs ∧
    (eraseLocal n).parents = n.parents ∧
    (eraseLocal n).simplified = n.simplified ∧
    (eraseLocal n).unique = n.unique ∧ (eraseLocal n).av = false ∧
    (eraseLocal n).erased = true := by
  obtain ⟨nid, nkind, nsort, nar, ne, nrefs, next, npar, nfp, nlp, nnp, npp,
    nuniq, nparm, nlb, nab, nia, ner, ndis, nsimp, nbits, ninv, nup, nlo,
    nav, nrho, nsr, nbody, nle⟩ := n
  unfold eraseLocal
  cases nkind
  all_goals dsimp only []
  all_goals try split
  all_goals exact ⟨rfl, rfl, rfl, rfl, rfl, rfl, rfl, rfl, rfl, rfl, rfl⟩

theorem eraseLocal_static_rho (n : BtorNode) (h : n.static_rho = []) :
    (eraseLocal n).static_rho = [] := by
  obtain ⟨nid, nkind, nsort, nar, ne, nrefs, next, npar, nfp, nlp, nnp, npp,
    nuniq, nparm, nlb, nab, nia, ner, ndis, nsimp, nbits, ninv, nup, nlo,
    nav, nrho, nsr, nbody, nle⟩ := n
  dsimp only [] at h
  unfold eraseLocal
  cases nkind
  all_goals dsimp only []
  all_goals try split
  all_goals exact h

theorem eraseLocal_bits (n : BtorNode) (h : n.kind = BtorNodeKind.bvConst) :
    (eraseLocal n).bits = none ∧ (eraseLocal n).invbits = none := by
  unfold eraseLocal
  rw [h]
  exact ⟨rfl, rfl⟩

theorem eraseLocal_rho (n : BtorNode)
    (h : n.kind = BtorNodeKind.lambda ∨ n.kind = BtorNodeKind.update ∨
      n.kind = BtorNodeKind.uf) :
    (eraseLocal n).rho = false := by
  unfold eraseLocal
  rcases h with h | h | h
  all_goals rw [h]
  all_goals rfl

/-- `remove_from_hash_tables` only touches the side tables, never the node
arena, the unique table or the sort registry. -/
theorem remove_from_hash_tables_frame (S : Btor) (id : Nat) (keep : Bool) :
    (remove_from_hash_tables S id keep).nodes_id_table = S.nodes_id_table ∧
    (remove_from_hash_tables S id keep).sort_refs = S.sort_refs ∧
    (remove_from_hash_tables S id keep).unique_chain = S.unique_chain := by
  unfold remove_from_hash_tables
  split
  · exact ⟨rfl, rfl, rfl⟩
  dsimp only []
  repeat'
    first
      | exact ⟨rfl, rfl, rfl⟩
      | split

theorem remove_from_hash_tables_getNode (S : Btor) (id : Nat) (keep : Bool)
    (j : Nat) :
    getNode (remove_from_hash_tables S id keep) j = getNode S j := by
  unfold getNode
  rw [(remove_from_hash_tables_frame S id keep).1]

/-- `disconnect_children_exp` unfolded at a live node. -/
theorem disconnect_children_eq (S : Btor) (id : Nat) (n : BtorNode)
    (hn : getNode S id = some n) :
    disconnect_children_exp S id =
      updateNode ((List.range n.arity).foldl
        (fun acc i => disconnect_child_exp acc id i) S) id
        (fun m => { m with disconnected := true }) := by
  unfold disconnect_children_exp
  rw [hn]

/-- Releasing a handle whose real node still has at least two references
only decrements the count. -/
theorem btor_release_exp_dec (S : Btor) (h : Handle) (n : BtorNode)
    (hn : getNode S h.id = some n) (hr : 2 ≤ n.refs) :
    btor_release_exp S h =
      updateNode S h.id (fun m => { m with refs := m.refs - 1 }) := by
  unfold btor_release_exp
  rw [hn]
  dsimp only []
  rw [if_pos (by omega : n.refs > 1)]

/-- The child-edge array after clearing slots `0..k-1`. -/
def clearList (e : List (Option Handle)) : Nat → List (Option Handle)
  | 0 => e
  | k + 1 => (clearList e k).set k none

theorem getD_clearList_ge (e : List (Option Handle)) (k i : Nat)
    (h : k ≤ i) : (clearList e k).getD i none = e.getD i none := by
  induction k with
  | zero => rfl
  | succ k ih =>
      show ((clearList e k).set k none).getD i none = _
      rw [getD_set_ne _ _ _ _ _ (by omega), ih (by omega)]

theorem getD_clearList_lt (e : List (Option Handle)) (k i : Nat)
    (h : i < k) : (clearList e k).getD i none = none := by
  induction k with
  | zero => omega
  | succ k ih =>
      show ((clearList e k).set k none).getD i none = none
      rcases Nat.lt_or_ge i k with hik | hik
      · rw [getD_set_ne _ _ _ _ _ (by omega), ih hik]
      · have : i = k := by omega
        subst this
        exact getD_set_self_none _ _

/-- The effect of the `disconnect_children_exp` loop after `k` of the
parent's child edges have been disconnected: the parent has lost edges
`0..k-1` and keeps its parent count, every already-processed child has lost
one parent, and every other node keeps parent count and edges. -/
theorem disconnect_fold_spec (id : Nat) (N : BtorNode) (T : Btor)
    (hT : getNode T id = some N)
    (hkids : ∀ i, i < N.arity → N.e.getD i none ≠ none)
    (hkne : ∀ i c, i < N.arity → N.e.getD i none = some c → c.id ≠ id)
    (hdist : ∀ i j ci cj, i < N.arity → j < N.arity → i ≠ j →
      N.e.getD i none = some ci → N.e.getD j none = some cj →
      ci.id ≠ cj.id) :
    ∀ k, k ≤ N.arity →
      (((getNode ((List.range k).foldl
          (fun acc i => disconnect_child_exp acc id i) T) id).map peView) =
        some (N.parents, clearList N.e k)) ∧
      (∀ j, j ≠ id →
        (∀ i c, i < k → N.e.getD i none = some c → j ≠ c.id) →
        ((getNode ((List.range k).foldl
            (fun acc i => disconnect_child_exp acc id i) T) j).map peView) =
          ((getNode T j).map peView)) ∧
      (∀ i c, i < k → N.e.getD i none = some c →
        ((getNode ((List.range k).foldl
            (fun acc i => disconnect_child_exp acc id i) T) c.id).map
          peView) =
          (((getNode T c.id).map peView).map
            (fun t => ((t.1 - 1 : Nat), t.2)))) := by
  intro k
  induction k with
  | zero =>
      intro _
      refine ⟨?_, ?_, ?_⟩
      · rw [List.range_zero, List.foldl_nil, hT]
        rfl
      · intro j _ _
        rw [List.range_zero, List.foldl_nil]
      · intro i c hi _
        omega
  | succ k ih =>
      intro hk1
      have hk : k ≤ N.arity := by omega
      obtain ⟨iha, ihb, ihc⟩ := ih hk
      -- the node sitting in slot `id` after the first `k` steps
      obtain ⟨Pk, hPk, hPkpe⟩ := Option.map_eq_some'.mp iha
      have hPkp : Pk.parents = N.parents := congrArg Prod.fst hPkpe
      have hPke : Pk.e = clearList N.e k :=
        congrArg Prod.snd hPkpe
      -- the child disconnected at step k
      have hkarity : k < N.arity := by omega
      obtain ⟨c, hc⟩ : ∃ c, N.e.getD k none = some c := by
        cases hcc : N.e.getD k none with
        | none => exact absurd hcc (hkids k hkarity)
        | some c => exact ⟨c, rfl⟩
      have hck : Pk.e.getD k none = some c := by
        rw [hPke, getD_clearList_ge _ _ _ (Nat.le_refl k), hc]
      have hcid : c.id ≠ id := hkne k c hkarity hc
      have hstep : (List.range (k + 1)).foldl
          (fun acc i => disconnect_child_exp acc id i) T =
          disconnect_child_exp ((List.range k).foldl
            (fun acc i => disconnect_child_exp acc id i) T) id k := by
        rw [List.range_succ, List.foldl_append, List.foldl_cons,
          List.foldl_nil]
      refine ⟨?_, ?_, ?_⟩
      · rw [hstep,
          disconnect_child_peView_parent _ _ _ _ hPk _ hck hcid, hPk]
        show some (Pk.parents, Pk.e.set k none) = _
        rw [hPkp, hPke]
        rfl
      · intro j hj hjc
        rw [hstep,
          disconnect_child_peView_other _ _ _ _ hPk _ hck _
            (hjc k c (by omega) hc) hj]
        exact ihb j hj (fun i c2 hi hc2 => hjc i c2 (by omega) hc2)
      · intro i c2 hi hc2
        rcases Nat.lt_or_ge i k with hik | hik
        · -- already disconnected earlier: step k leaves it alone
          rw [hstep,
            disconnect_child_peView_other _ _ _ _ hPk _ hck _
              (hdist i k c2 c (by omega) hkarity (by omega) hc2 hc)
              (hkne i c2 (by omega) hc2)]
          exact ihc i c2 hik hc2
        · have hik2 : i = k := by omega
          subst hik2
          have hc2c : c2 = c := by rw [hc] at hc2; exact (Option.some.inj hc2).symm
          subst hc2c
          rw [hstep,
            disconnect_child_peView_child _ _ _ _ hPk _ hck hcid,
            map_peView_dec,
            ihb c2.id hcid
              (fun i2 c3 hi2 hc3 =>
                hdist i i2 c2 c3 hkarity (by omega) (by omega) hc hc3)]

/-- Folding `btor_release_exp` over a list of handles with pairwise-distinct
real nodes, all of which hold at least two references, decrements each listed
node's count once, keeps every other node and keeps all solver tables. -/
theorem release_fold_dec : ∀ (hs : List Handle) (T : Btor),
    hs.Pairwise (fun a b => a.id ≠ b.id) →
    (∀ h, h ∈ hs → ∃ K, getNode T h.id = some K ∧ 2 ≤ K.refs) →
    tblView (hs.foldl btor_release_exp T) = tblView T ∧
    (∀ j, (∀ h, h ∈ hs → j ≠ h.id) →
      getNode (hs.foldl btor_release_exp T) j = getNode T j) ∧
    (∀ h, h ∈ hs →
      getNode (hs.foldl btor_release_exp T) h.id =
        ((getNode T h.id).map (fun m => { m with refs := m.refs - 1 })))
  | [], T => fun _ _ =>
      ⟨rfl, fun _ _ => rfl, fun h hh => absurd hh (List.not_mem_nil h)⟩
  | h0 :: hs, T => fun hpw href => by
      obtain ⟨hsep, htl⟩ := List.pairwise_cons.mp hpw
      obtain ⟨K0, hK0, hK0r⟩ := href h0 (List.mem_cons_self h0 hs)
      rw [List.foldl_cons, btor_release_exp_dec T h0 K0 hK0 hK0r]
      have href' : ∀ h, h ∈ hs →
          ∃ K, getNode (updateNode T h0.id
            (fun m => { m with refs := m.refs - 1 })) h.id = some K ∧
            2 ≤ K.refs := by
        intro h hh
        obtain ⟨K, hK, hKr⟩ := href h (List.mem_cons_of_mem h0 hh)
        exact ⟨K, by
          rw [getNode_updateNode_ne _ _ _ _ (Ne.symm (hsep h hh))]
          exact hK, hKr⟩
      obtain ⟨ih0, ih1, ih2⟩ := release_fold_dec hs
        (updateNode T h0.id (fun m => { m with refs := m.refs - 1 })) htl href'
      refine ⟨?_, ?_, ?_⟩
      · rw [ih0, tblView_updateNode]
      · intro j hj
        rw [ih1 j (fun h hh => hj h (List.mem_cons_of_mem h0 hh)),
          getNode_updateNode_ne _ _ _ _ (hj h0 (List.mem_cons_self h0 hs))]
      · intro h hh
        rcases List.mem_cons.mp hh with hh0 | hhs
        · subst hh0
          rw [ih1 h.id (fun h2 hh2 => hsep h2 hh2),
            getNode_upd_self]
        · rw [ih2 h hhs,
            getNode_updateNode_ne _ _ _ _ (Ne.symm (hsep h hhs))]

/-- What claim C6 asserts about `btor_set_to_proxy_exp` on node `X` in slot
`id`: the node survives in place as an empty Proxy with its id, sort and
`simplified` pointer intact and its local data erased, it has left the
unique table, the sort registry is untouched, and every child has lost one
parent edge and one reference. -/
def SetToProxySpec (S : Btor) (id : Nat) (X : BtorNode) : Prop :=
  (∃ R, getNode (btor_set_to_proxy_exp S id) id = some R ∧
    R.kind = BtorNodeKind.proxy ∧ R.id = X.id ∧ R.sort_id = X.sort_id ∧
    R.simplified = X.simplified ∧ R.av = false ∧
    (X.kind = BtorNodeKind.bvConst → R.bits = none ∧ R.invbits = none) ∧
    (X.kind = BtorNodeKind.lambda ∨ X.kind = BtorNodeKind.update ∨
      X.kind = BtorNodeKind.uf → R.rho = false) ∧
    R.static_rho = [] ∧ R.erased = false ∧ R.disconnected = false ∧
    R.arity = 0 ∧ R.parameterized = false ∧ R.unique = false ∧
    (∀ i, i < X.arity → R.e.getD i none = none)) ∧
  id ∉ (btor_set_to_proxy_exp S id).unique_chain ∧
  (btor_set_to_proxy_exp S id).sort_refs = S.sort_refs ∧
  (∀ i c C, i < X.arity → X.e.getD i none = some c →
    getNode S c.id = some C →
    ∃ C2, getNode (btor_set_to_proxy_exp S id) c.id = some C2 ∧
      C2.refs = C.refs - 1 ∧ C2.parents = C.parents - 1)

/-- C6: `btor_set_to_proxy_exp` removes node X from the unique table, erases
its local data (bits, aig-vector cache, rho, static rho) without touching
its sort, disconnects and releases its children, rewrites its kind to Proxy
with the `disconnected` and `erased` flags cleared, and keeps X's id and its
`simplified` forwarding pointer, so existing handles keep working.  Stated
for a live node with empty static rho, at most one unique-table entry,
non-null pairwise-distinct children different from X itself, each child
holding at least two references. -/
theorem claim_C6_set_to_proxy (S : Btor) (id : Nat) (X : BtorNode)
    (hX : getNode S id = some X)
    (hsr : X.static_rho = [])
    (hcnt : S.unique_chain.count id ≤ (if X.unique then 1 else 0))
    (hkids : ∀ i, i < X.arity → X.e.getD i none ≠ none)
    (hkne : ∀ i c, i < X.arity → X.e.getD i none = some c → c.id ≠ id)
    (hdist : ∀ i j ci cj, i < X.arity → j < X.arity → i ≠ j →
      X.e.getD i none = some ci → X.e.getD j none = some cj →
      ci.id ≠ cj.id)
    (hrefs : ∀ i c, i < X.arity → X.e.getD i none = some c →
      ∃ C, getNode S c.id = some C ∧ 2 ≤ C.refs) :
    SetToProxySpec S id X := by
  have hXfalse := remove_unique_getNode_self S id X hX
  have hErase := erase_local_data_eq (fun st hh => btor_release_exp st hh)
    (remove_from_nodes_unique_table_exp S id) id { X with unique := false }
    hXfalse hsr
  unfold SetToProxySpec btor_set_to_proxy_exp
  rw [hX]
  dsimp only []
  rw [hErase]
  set S1 := remove_from_nodes_unique_table_exp S id with hS1def
  set S2 := updateNode S1 id eraseLocal with hS2def
  set S3 := remove_from_hash_tables S2 id true with hS3def
  have hS3id : getNode S3 id = some (eraseLocal { X with unique := false }) := by
    rw [hS3def, remove_from_hash_tables_getNode, hS2def, getNode_upd_self,
      hXfalse]
    rfl
  have hS3j : ∀ j, j ≠ id → getNode S3 j = getNode S j := by
    intro j hj
    rw [hS3def, remove_from_hash_tables_getNode, hS2def,
      getNode_updateNode_ne _ _ _ _ hj, hS1def,
      remove_unique_getNode_ne S id j hj]
  obtain ⟨hcId, hcKind, hcSort, hcArity, hcE, hcRefs, hcParents, hcSimp,
    hcUniq, hcAv, hcErased⟩ := eraseLocal_core { X with unique := false }
  have hc4' : (eraseLocal { X with unique := false }).arity = X.arity :=
    hcArity
  have hc5' : (eraseLocal { X with unique := false }).e = X.e := hcE
  have hDisc := disconnect_children_eq S3 id _ hS3id
  rw [hDisc, hc4']
  set F := (List.range X.arity).foldl
    (fun acc i => disconnect_child_exp acc id i) S3 with hFdef
  set S4 := updateNode F id (fun m => { m with disconnected := true })
    with hS4def
  set els := (List.range X.arity).filterMap (fun i => X.e.getD i none)
    with helsdef
  set S5 := els.foldl (fun acc h => btor_release_exp acc h) S4 with hS5def
  -- per-child facts
  have hmem : ∀ h, h ∈ els → ∃ i, i < X.arity ∧ X.e.getD i none = some h := by
    intro h hh
    rw [helsdef] at hh
    obtain ⟨i, hi, hsl⟩ := List.mem_filterMap.mp hh
    exact ⟨i, List.mem_range.mp hi, hsl⟩
  have hpw : els.Pairwise (fun a b => a.id ≠ b.id) := by
    rw [helsdef, List.pairwise_filterMap]
    refine (List.pairwise_lt_range X.arity).imp_of_mem ?_
    intro a b ha hb hab x hx y hy
    exact hdist a b x y (List.mem_range.mp ha) (List.mem_range.mp hb)
      (Nat.ne_of_lt hab) (Option.mem_def.mp hx) (Option.mem_def.mp hy)
  -- the disconnect loop
  obtain ⟨hFa, hFb, hFc⟩ := disconnect_fold_spec id
    (eraseLocal { X with unique := false }) S3 hS3id
    (fun i hi => by rw [hc5']; exact hkids i (hc4' ▸ hi))
    (fun i c hi hcq => hkne i c (hc4' ▸ hi) (by rw [hc5'] at hcq; exact hcq))
    (fun i j ci cj hi hj hij hci hcj =>
      hdist i j ci cj (hc4' ▸ hi) (hc4' ▸ hj) hij
        (by rw [hc5'] at hci; exact hci) (by rw [hc5'] at hcj; exact hcj))
    X.arity (by rw [hc4'])
  rw [← hFdef] at hFa hFb hFc
  obtain ⟨PF, hPF, hPFpe⟩ := Option.map_eq_some'.mp hFa
  have hpe2 : PF.e = clearList (eraseLocal { X with unique := false }).e
      X.arity := congrArg Prod.snd hPFpe
  have hPFcv : coreView PF = coreView (eraseLocal { X with unique := false }) := by
    have hcvf := coreView_disconnect_fold id id (List.range X.arity) S3
    rw [← hFdef] at hcvf
    rw [hPF, hS3id] at hcvf
    exact Option.some.inj hcvf
  have hPFcv' := hPFcv
  simp only [coreView, Prod.mk.injEq] at hPFcv'
  obtain ⟨hv1, hv2, hv3, hv4, hv5, hv6, hv7, hv8, hv9, hv10, hv11, hv12,
    hv13, hv14, hv15⟩ := hPFcv'
  -- the released children still hold two references when released
  have hS4child : ∀ h, h ∈ els → ∃ K, getNode S4 h.id = some K ∧
      2 ≤ K.refs := by
    intro h hh
    obtain ⟨i, hi, hsl⟩ := hmem h hh
    obtain ⟨C, hC, hCr⟩ := hrefs i h hi hsl
    have hne : h.id ≠ id := hkne i h hi hsl
    have hcv := coreView_disconnect_fold id h.id (List.range X.arity) S3
    rw [← hFdef] at hcv
    rw [hS3j h.id hne, hC] at hcv
    have hcv4 : ((getNode S4 h.id).map coreView) = some (coreView C) := by
      rw [hS4def, getNode_updateNode_ne _ _ _ _ hne]
      exact hcv
    obtain ⟨K, hK, hKcv⟩ := Option.map_eq_some'.mp hcv4
    refine ⟨K, hK, ?_⟩
    simp only [coreView, Prod.mk.injEq] at hKcv
    have hKr : K.refs = C.refs := hKcv.2.2.2.2.1
    omega
  obtain ⟨hR0, hR1, hR2⟩ := release_fold_dec els S4 hpw hS4child
  rw [← hS5def] at hR0 hR1 hR2
  refine ⟨?_, ?_, ?_, ?_⟩
  · -- the node itself
    rw [getNode_upd_self,
      hR1 id (fun h hh => by
        obtain ⟨i, hi, hsl⟩ := hmem h hh
        exact (hkne i h hi hsl).symm),
      hS4def, getNode_upd_self, hPF]
    refine ⟨_, rfl, rfl, hv1.trans hcId, hv3.trans hcSort,
      hv9.trans hcSimp, hv12.trans hcAv, ?_, ?_,
      hv14.trans (eraseLocal_static_rho _ hsr), rfl, rfl, rfl, rfl,
      hv6.trans hcUniq, ?_⟩
    · intro hbk
      exact ⟨hv10.trans (eraseLocal_bits { X with unique := false } hbk).1,
        hv11.trans (eraseLocal_bits { X with unique := false } hbk).2⟩
    · intro hrk
      exact hv13.trans (eraseLocal_rho { X with unique := false } hrk)
    · intro i hi
      show PF.e.getD i none = none
      rw [hpe2]
      exact getD_clearList_lt _ _ _ hi
  · -- gone from the unique table
    have hch5 : S5.unique_chain = S4.unique_chain :=
      congrArg (fun t => t.1) hR0
    have hchF : F.unique_chain = S3.unique_chain := by
      have htb := tblView_disconnect_fold id (List.range X.arity) S3
      rw [← hFdef] at htb
      exact congrArg (fun t => t.1) htb
    have hch3 : S3.unique_chain = S2.unique_chain := by
      rw [hS3def]
      exact (remove_from_hash_tables_frame S2 id true).2.2
    show id ∉ S5.unique_chain
    rw [hch5]
    show id ∉ F.unique_chain
    rw [hchF, hch3]
    show id ∉ S1.unique_chain
    rw [hS1def]
    exact remove_unique_not_mem_chain S id X hX hcnt
  · -- the sort registry is untouched
    have hch5 : S5.sort_refs = S4.sort_refs :=
      congrArg (fun t => t.2.2.2.2.2.2.2.2.2.2) hR0
    have hchF : F.sort_refs = S3.sort_refs := by
      have htb := tblView_disconnect_fold id (List.range X.arity) S3
      rw [← hFdef] at htb
      exact congrArg (fun t => t.2.2.2.2.2.2.2.2.2.2) htb
    have hch3 : S3.sort_refs = S2.sort_refs := by
      rw [hS3def]
      exact (remove_from_hash_tables_frame S2 id true).2.1
    show S5.sort_refs = S.sort_refs
    rw [hch5]
    show F.sort_refs = S.sort_refs
    rw [hchF, hch3]
    show S1.sort_refs = S.sort_refs
    rw [hS1def]
    exact remove_unique_sort_refs S id
  · -- each child lost one parent edge and one reference
    intro i c C hi hsl hC
    have hcmem : c ∈ els := by
      rw [helsdef]
      exact List.mem_filterMap.mpr ⟨i, List.mem_range.mpr hi, hsl⟩
    have hcne : c.id ≠ id := hkne i c hi hsl
    have hpeF := hFc i c hi (by rw [hc5']; exact hsl)
    rw [hS3j c.id hcne, hC] at hpeF
    have hcv := coreView_disconnect_fold id c.id (List.range X.arity) S3
    rw [← hFdef] at hcv
    rw [hS3j c.id hcne, hC] at hcv
    rw [getNode_updateNode_ne _ _ _ _ hcne, hR2 c hcmem, hS4def,
      getNode_updateNode_ne _ _ _ _ hcne]
    obtain ⟨K, hK, hKcv⟩ := Option.map_eq_some'.mp hcv
    rw [hK] at hpeF ⊢
    have hKpe := Option.some.inj hpeF
    simp only [coreView, Prod.mk.injEq] at hKcv
    refine ⟨_, rfl, ?_, ?_⟩
    · show K.refs - 1 = C.refs - 1
      rw [hKcv.2.2.2.2.1]
    · show K.parents = C.parents - 1
      exact congrArg Prod.fst hKpe

/-- A context with two 8-bit variables and the AND node over them (slot 3),
ready to be turned into a proxy. -/
def proxyCtx : Btor :=
  (btor_and_exp_node
    (btor_var_exp (btor_var_exp emptyBtor (.bitvec 8) none).1
      (.bitvec 8) none).1
    ⟨false, 1⟩ ⟨false, 2⟩).1

/-- The AND node in slot 3 of `proxyCtx`. -/
def proxyNode : BtorNode := (getNode proxyCtx 3).getD newBtorNode

/-- Witness for C6 at a concrete input: turn the AND node of `proxyCtx` into
a proxy. -/
theorem claim_C6_set_to_proxy_witness : SetToProxySpec proxyCtx 3 proxyNode :=
  claim_C6_set_to_proxy proxyCtx 3 proxyNode (by decide) (by decide)
    (by decide)
    (by decide)
    (by
      intro i c hi hc
      have ha : proxyNode.arity = 2 := by decide
      rw [ha] at hi
      interval_cases i
      · rw [show proxyNode.e.getD 0 none = some ⟨false, 1⟩ from by decide]
          at hc
        cases hc
        decide
      · rw [show proxyNode.e.getD 1 none = some ⟨false, 2⟩ from by decide]
          at hc
        cases hc
        decide)
    (by
      intro i j ci cj hi hj hij hci hcj
      have ha : proxyNode.arity = 2 := by decide
      rw [ha] at hi hj
      interval_cases i <;> interval_cases j
      all_goals first
        | exact absurd rfl hij
        | (rw [show proxyNode.e.getD 0 none = some ⟨false, 1⟩ from by decide]
             at hci hcj
           rw [show proxyNode.e.getD 1 none = some ⟨false, 2⟩ from by decide]
             at hci hcj
           cases hci
           cases hcj
           decide)
        | (rw [show proxyNode.e.getD 0 none = some ⟨false, 1⟩ from by decide]
             at hcj
           rw [show proxyNode.e.getD 1 none = some ⟨false, 2⟩ from by decide]
             at hci
           cases hci
           cases hcj
           decide)
        | (rw [show proxyNode.e.getD 0 none = some ⟨false, 1⟩ from by decide]
             at hci
           rw [show proxyNode.e.getD 1 none = some ⟨false, 2⟩ from by decide]
             at hcj
           cases hci
           cases hcj
           decide))
    (by
      intro i c hi hc
      have ha : proxyNode.arity = 2 := by decide
      rw [ha] at hi
      interval_cases i
      · rw [show proxyNode.e.getD 0 none = some ⟨false, 1⟩ from by decide]
          at hc
        cases hc
        exact ⟨_, rfl, by decide⟩
      · rw [show proxyNode.e.getD 1 none = some ⟨false, 2⟩ from by decide]
          at hc
        cases hc
        exact ⟨_, rfl, by decide⟩)

/-! ## The release engine (claim C5) -/

/-- The entries the sweep pushes when it frees a node: the `simplified`
target (popped first, if any) and the children in position order. -/
def pushTargets (n : BtorNode) (stack : List Handle) : List Handle :=
  match n.simplified with
  | some s => s :: (childList n ++ stack)
  | none => childList n ++ stack

/-- The state after the sweep frees one node: clear `simplified`, unlink
from the unique table, erase local data (now freeing the sort), drop the
side-table entries, disconnect the edges, free the arena slot. -/
def freeState (fuel : Nat) (S : Btor) (id : Nat) : Btor :=
  let S := updateNode S id (fun n => { n with simplified := none })
  let S := remove_from_nodes_unique_table_exp S id
  let S := erase_local_data_exp
    (fun st hh => (release_sweep fuel st [hh]).getD st) S id true
  let S := remove_from_hash_tables S id false
  let S := disconnect_children_exp S id
  really_deallocate_exp S id

/-- Weight of one arena slot in the sweep's termination measure. -/
def nodeWeight : Option BtorNode → Nat
  | some n => n.refs + 4
  | none => 0

theorem btorMeasure_eq_msum (S : Btor) :
    btorMeasure S = (S.nodes_id_table.map nodeWeight).sum := rfl

theorem getNode_some_lt (S : Btor) (id : Nat) (n : BtorNode)
    (h : getNode S id = some n) : id < S.nodes_id_table.length := by
  by_contra hge
  rw [getNode_bound S id (by simpa [nodesCount] using hge)] at h
  cases h

theorem msum_set (l : List (Option BtorNode)) (i : Nat)
    (o : Option BtorNode) (h : i < l.length) :
    ((l.set i o).map nodeWeight).sum + nodeWeight (l.getD i none) =
      (l.map nodeWeight).sum + nodeWeight o := by
  induction l generalizing i with
  | nil => simp at h
  | cons a l ih =>
      cases i with
      | zero =>
          simp only [List.set, List.map_cons, List.sum_cons, List.getD_cons_zero]
          omega
      | succ i =>
          simp only [List.set, List.map_cons, List.sum_cons,
            List.getD_cons_succ]
          have := ih i (by simpa using h)
          omega

theorem msum_zero (l : List (Option BtorNode))
    (h : ∀ j, nodeWeight (l.getD j none) = 0) :
    (l.map nodeWeight).sum = 0 := by
  induction l with
  | nil => rfl
  | cons a l ih =>
      simp only [List.map_cons, List.sum_cons]
      rw [ih (fun j => h (j + 1)), show nodeWeight a = 0 from h 0]

theorem msum_ext : ∀ (l l' : List (Option BtorNode)),
    (∀ j, nodeWeight (l.getD j none) = nodeWeight (l'.getD j none)) →
    (l.map nodeWeight).sum = (l'.map nodeWeight).sum
  | [], l', h => by
      rw [msum_zero l' (fun j => (h j).symm)]
      rfl
  | a :: l, [], h => by
      rw [msum_zero (a :: l) (fun j => h j)]
      rfl
  | a :: l, b :: l', h => by
      simp only [List.map_cons, List.sum_cons]
      rw [msum_ext l l' (fun j => h (j + 1)), show nodeWeight a = nodeWeight b from h 0]

theorem btorMeasure_ext (S S' : Btor)
    (h : ∀ j, ((getNode S j).map (fun n => n.refs)) =
      ((getNode S' j).map (fun n => n.refs))) :
    btorMeasure S = btorMeasure S' := by
  rw [btorMeasure_eq_msum, btorMeasure_eq_msum]
  refine msum_ext _ _ ?_
  intro j
  have hj := h j
  unfold getNode at hj
  cases h1 : S.nodes_id_table.getD j none <;>
    cases h2 : S'.nodes_id_table.getD j none <;>
      rw [h1, h2] at hj <;> simp_all [nodeWeight]

theorem btorMeasure_update (S : Btor) (id : Nat) (f : BtorNode → BtorNode)
    (n : BtorNode) (hn : getNode S id = some n) :
    btorMeasure (updateNode S id f) + (n.refs + 4) =
      btorMeasure S + ((f n).refs + 4) := by
  have hlt := getNode_some_lt S id n hn
  have hset := msum_set S.nodes_id_table id
    ((S.nodes_id_table.getD id none).map f) hlt
  unfold getNode at hn
  rw [hn] at hset
  rw [btorMeasure_eq_msum, btorMeasure_eq_msum]
  show ((S.nodes_id_table.set id
    ((S.nodes_id_table.getD id none).map f)).map nodeWeight).sum + _ = _
  rw [hn]
  simpa [nodeWeight] using hset

theorem btorMeasure_dealloc (S : Btor) (id : Nat) (n : BtorNode)
    (hn : getNode S id = some n) :
    btorMeasure (really_deallocate_exp S id) + (n.refs + 4) =
      btorMeasure S := by
  have hlt := getNode_some_lt S id n hn
  have hset := msum_set S.nodes_id_table id none hlt
  unfold getNode at hn
  rw [hn] at hset
  rw [btorMeasure_eq_msum, btorMeasure_eq_msum]
  show ((S.nodes_id_table.set id none).map nodeWeight).sum + _ = _
  simpa [nodeWeight] using hset

theorem refs_of_coreView {o o' : Option BtorNode}
    (h : o.map coreView = o'.map coreView) :
    (o.map (fun n => n.refs)) = (o'.map (fun n => n.refs)) := by
  cases o <;> cases o' <;> simp_all [coreView]

theorem arity_static_of_coreView {o o' : Option BtorNode}
    (h : o.map coreView = o'.map coreView) :
    (o.map (fun n => (n.arity, n.static_rho))) =
      (o'.map (fun n => (n.arity, n.static_rho))) := by
  cases o <;> cases o' <;> simp_all [coreView]

theorem getNode_release_sort (S : Btor) (s : BtorSort) (j : Nat) :
    getNode (btor_release_sort S s) j = getNode S j := rfl

/-- `remove_from_nodes_unique_table_exp` keeps the reference count of every
node. -/
theorem refsView_remove_unique (S : Btor) (id j : Nat) :
    ((getNode (remove_from_nodes_unique_table_exp S id) j).map
      (fun n => n.refs)) = ((getNode S j).map (fun n => n.refs)) := by
  unfold remove_from_nodes_unique_table_exp
  split
  · rfl
  split
  · rfl
  exact view_updateNode _ _ _ _ _ (fun _ => rfl)

/-- `erase_local_data_exp` keeps the reference count of every node when the
erased node's `static_rho` is empty. -/
theorem refsView_erase (rel : Btor → Handle → Btor) (S : Btor) (id : Nat)
    (free : Bool) (n : BtorNode) (hn : getNode S id = some n)
    (hsr : n.static_rho = []) (j : Nat) :
    ((getNode (erase_local_data_exp rel S id free) j).map (fun n => n.refs)) =
      ((getNode S j).map (fun n => n.refs)) := by
  have h1 : ∀ (T : Btor) (q i : Nat),
      ((getNode (updateNode T q (fun m =>
        { m with bits := none, invbits := none })) i).map (fun n => n.refs)) =
        ((getNode T i).map (fun n => n.refs)) :=
    fun T q i => view_updateNode _ T q _ i (fun _ => rfl)
  have h2 : ∀ (T : Btor) (q i : Nat),
      ((getNode (updateNode T q (fun m =>
        { m with static_rho := ([] : List (Handle × Handle)), rho := false }))
        i).map (fun n => n.refs)) = ((getNode T i).map (fun n => n.refs)) :=
    fun T q i => view_updateNode _ T q _ i (fun _ => rfl)
  have h3 : ∀ (T : Btor) (q i : Nat),
      ((getNode (updateNode T q (fun m => { m with rho := false })) i).map
        (fun n => n.refs)) = ((getNode T i).map (fun n => n.refs)) :=
    fun T q i => view_updateNode _ T q _ i (fun _ => rfl)
  have h4 : ∀ (T : Btor) (q i : Nat),
      ((getNode (updateNode T q (fun m => { m with sort_id := none })) i).map
        (fun n => n.refs)) = ((getNode T i).map (fun n => n.refs)) :=
    fun T q i => view_updateNode _ T q _ i (fun _ => rfl)
  have h5 : ∀ (T : Btor) (q i : Nat),
      ((getNode (updateNode T q (fun m => { m with av := false })) i).map
        (fun n => n.refs)) = ((getNode T i).map (fun n => n.refs)) :=
    fun T q i => view_updateNode _ T q _ i (fun _ => rfl)
  have h6 : ∀ (T : Btor) (q i : Nat),
      ((getNode (updateNode T q (fun m => { m with erased := true })) i).map
        (fun n => n.refs)) = ((getNode T i).map (fun n => n.refs)) :=
    fun T q i => view_updateNode _ T q _ i (fun _ => rfl)
  unfold erase_local_data_exp
  rw [hn]
  dsimp only []
  cases hk : n.kind
  all_goals dsimp only []
  all_goals try rw [hsr, List.foldl_nil]
  all_goals
    repeat'
      first
        | rfl
        | rw [h1]
        | rw [h2]
        | rw [h3]
        | rw [h4]
        | rw [h5]
        | rw [h6]
        | rw [getNode_release_sort]
        | split

/-- `erase_local_data_exp` leaves every other arena slot untouched when the
erased node's `static_rho` is empty. -/
theorem erase_getNode_ne (rel : Btor → Handle → Btor) (S : Btor) (id : Nat)
    (free : Bool) (n : BtorNode) (hn : getNode S id = some n)
    (hsr : n.static_rho = []) (j : Nat) (hj : j ≠ id) :
    getNode (erase_local_data_exp rel S id free) j = getNode S j := by
  unfold erase_local_data_exp
  rw [hn]
  dsimp only []
  cases hk : n.kind
  all_goals dsimp only []
  all_goals try rw [hsr, List.foldl_nil]
  all_goals
    repeat'
      first
        | rfl
        | rw [getNode_updateNode_ne _ _ _ _ hj]
        | rw [getNode_release_sort]
        | split

/-- `disconnect_children_exp` keeps the reference count of every node. -/
theorem refsView_disconnect_children (S : Btor) (id j : Nat) :
    ((getNode (disconnect_children_exp S id) j).map (fun n => n.refs)) =
      ((getNode S j).map (fun n => n.refs)) := by
  unfold disconnect_children_exp
  split
  · rfl
  rw [view_updateNode _ _ _ _ _ (fun m =>
    (rfl : ({ m with disconnected := true }).refs = m.refs))]
  exact refs_of_coreView (coreView_disconnect_fold id j _ S)

/-- `disconnect_children_exp` keeps the arity and static rho of every
node. -/
theorem asView_disconnect_children (S : Btor) (id j : Nat) :
    ((getNode (disconnect_children_exp S id) j).map
      (fun n => (n.arity, n.static_rho))) =
      ((getNode S j).map (fun n => (n.arity, n.static_rho))) := by
  unfold disconnect_children_exp
  split
  · rfl
  rw [view_updateNode _ _ _ _ _ (fun m =>
    (rfl : ((fun n => (n.arity, n.static_rho))
      { m with disconnected := true }) = (m.arity, m.static_rho)))]
  exact arity_static_of_coreView (coreView_disconnect_fold id j _ S)

theorem getNode_dealloc_self (S : Btor) (id : Nat) :
    getNode (really_deallocate_exp S id) id = none := by
  unfold really_deallocate_exp getNode
  rcases Nat.lt_or_ge id S.nodes_id_table.length with hlt | hge
  · rw [List.getD_eq_getElem?_getD, List.getElem?_set_self hlt]
    rfl
  · rw [List.set_eq_of_length_le hge, List.getD_eq_getElem?_getD,
      List.getElem?_eq_none (by simpa using hge)]
    rfl

theorem getNode_dealloc_ne (S : Btor) (id j : Nat) (hj : j ≠ id) :
    getNode (really_deallocate_exp S id) j = getNode S j := by
  unfold really_deallocate_exp getNode
  rcases Nat.lt_or_ge id S.nodes_id_table.length with hlt | hge
  · rw [List.getD_eq_getElem?_getD, List.getElem?_set_ne (Ne.symm hj),
      ← List.getD_eq_getElem?_getD]
  · rw [List.set_eq_of_length_le hge]

theorem freeState_getNode_self (fuel : Nat) (T : Btor) (id : Nat) :
    getNode (freeState fuel T id) id = none := by
  unfold freeState
  exact getNode_dealloc_self _ _

theorem btorMeasure_freeState (fuel : Nat) (T : Btor) (id : Nat)
    (m : BtorNode) (hm : getNode T id = some m) (hsr : m.static_rho = []) :
    btorMeasure (freeState fuel T id) + (m.refs + 4) = btorMeasure T := by
  unfold freeState
  dsimp only []
  set T1 := updateNode T id (fun n => { n with simplified := none }) with h1
  set T2 := remove_from_nodes_unique_table_exp T1 id with h2
  set T3 := erase_local_data_exp
    (fun st hh => (release_sweep fuel st [hh]).getD st) T2 id true with h3
  set T4 := remove_from_hash_tables T3 id false with h4
  set T5 := disconnect_children_exp T4 id with h5
  have hsimpl : ∀ (TT : Btor) (q i : Nat),
      ((getNode (updateNode TT q (fun mm => { mm with simplified := none }))
        i).map (fun nn => nn.refs)) =
        ((getNode TT i).map (fun nn => nn.refs)) :=
    fun TT q i => view_updateNode _ TT q _ i (fun _ => rfl)
  have hm1 : getNode T1 id = some { m with simplified := none } := by
    rw [h1, getNode_upd_self, hm]
    rfl
  have hm2 : getNode T2 id =
      some { { m with simplified := none } with unique := false } := by
    rw [h2]
    exact remove_unique_getNode_self T1 id _ hm1
  have hv : ∀ j, ((getNode T5 j).map (fun nn => nn.refs)) =
      ((getNode T j).map (fun nn => nn.refs)) := by
    intro j
    rw [h5, refsView_disconnect_children, h4, remove_from_hash_tables_getNode,
      h3, refsView_erase _ _ _ _ _ hm2 hsr, h2, refsView_remove_unique,
      h1, hsimpl]
  have hMT : btorMeasure T5 = btorMeasure T := btorMeasure_ext T5 T hv
  have hvid := hv id
  rw [hm] at hvid
  obtain ⟨m5, hm5, hm5r⟩ : ∃ m5, getNode T5 id = some m5 ∧
      m5.refs = m.refs := by
    cases hx : getNode T5 id with
    | none => rw [hx] at hvid; cases hvid
    | some k =>
        rw [hx] at hvid
        exact ⟨k, rfl, by simpa using hvid⟩
  have hd := btorMeasure_dealloc T5 id m5 hm5
  rw [hm5r] at hd
  omega

theorem pushTargets_length (n : BtorNode) (st : List Handle) :
    (pushTargets n st).length ≤ n.arity + 1 + st.length := by
  have hcl : (childList n).length ≤ n.arity := by
    calc (childList n).length ≤ (List.range n.arity).length :=
          List.length_filterMap_le _ _
    _ = n.arity := List.length_range _
  unfold pushTargets
  cases n.simplified <;> simp [List.length_append] <;> omega

/-- The structural invariant the sweep's fuel bound needs: every live node
has at most 3 children and no static rho entries. -/
def ReleaseInv (S : Btor) : Prop :=
  ∀ j nn, getNode S j = some nn → nn.arity ≤ 3 ∧ nn.static_rho = []

theorem ReleaseInv_update_dec (S : Btor) (id : Nat) (h : ReleaseInv S) :
    ReleaseInv (updateNode S id (fun m => { m with refs := m.refs - 1 })) := by
  intro j nn hj
  rw [getNode_updateNode] at hj
  by_cases hji : j = id
  · rw [if_pos hji] at hj
    cases hx : getNode S j with
    | none => rw [hx] at hj; cases hj
    | some k =>
        rw [hx] at hj
        cases hj
        exact h j k hx
  · rw [if_neg hji] at hj
    exact h j nn hj

theorem ReleaseInv_freeState (fuel : Nat) (T : Btor) (id : Nat)
    (m : BtorNode) (hm : getNode T id = some m) (hsr : m.static_rho = [])
    (h : ReleaseInv T) : ReleaseInv (freeState fuel T id) := by
  intro j nn hj
  by_cases hji : j = id
  · subst hji
    rw [freeState_getNode_self] at hj
    cases hj
  · unfold freeState at hj
    dsimp only [] at hj
    rw [getNode_dealloc_ne _ _ _ hji] at hj
    have hm1 : getNode (updateNode T id
        (fun n => { n with simplified := none })) id =
        some { m with simplified := none } := by
      rw [getNode_upd_self, hm]
      rfl
    have hm2 := remove_unique_getNode_self _ id _ hm1
    have has := asView_disconnect_children (remove_from_hash_tables
      (erase_local_data_exp (fun st hh => (release_sweep fuel st [hh]).getD st)
        (remove_from_nodes_unique_table_exp (updateNode T id
          (fun n => { n with simplified := none })) id) id true) id false)
      id j
    rw [hj, remove_from_hash_tables_getNode,
      erase_getNode_ne _ _ _ _ _ hm2 hsr _ hji,
      remove_unique_getNode_ne _ _ _ hji,
      getNode_updateNode_ne _ _ _ _ hji] at has
    cases hx : getNode T j with
    | none => rw [hx] at has; cases has
    | some k =>
        rw [hx] at has
        have hask := Option.some.inj has
        have ha1 : nn.arity = k.arity := congrArg Prod.fst hask
        have ha2 : nn.static_rho = k.static_rho := congrArg Prod.snd hask
        obtain ⟨hk1, hk2⟩ := h j k hx
        exact ⟨by omega, by rw [ha2, hk2]⟩

/-- Fuel sufficiency: with every live node small (arity ≤ 3, empty static
rho), the sweep finishes before `btorMeasure + |stack|` iterations — the
explicit work stack does terminate. -/
theorem release_sweep_total : ∀ (fuel : Nat) (T : Btor) (st : List Handle),
    ReleaseInv T → btorMeasure T + st.length < fuel →
    (release_sweep fuel T st).isSome = true
  | 0, _, _ => fun _ hf => absurd hf (by omega)
  | _ + 1, _, [] => fun _ _ => rfl
  | fuel + 1, T, h :: st => fun hinv hf => by
      unfold release_sweep
      cases hx : getNode T h.id with
      | none =>
          dsimp only []
          exact release_sweep_total fuel T st hinv
            (by simp only [List.length_cons] at hf; omega)
      | some cur =>
          dsimp only []
          by_cases hr : cur.refs > 1
          · rw [if_pos hr]
            have hdec := btorMeasure_update T h.id
              (fun k => { k with refs := k.refs - 1 }) cur hx
            refine release_sweep_total fuel _ st
              (ReleaseInv_update_dec T h.id hinv) ?_
            simp only [List.length_cons] at hf
            dsimp only [] at hdec
            omega
          · rw [if_neg hr]
            obtain ⟨ha3, hsr⟩ := hinv h.id cur hx
            have hms := btorMeasure_freeState fuel T h.id cur hx hsr
            have hlen := pushTargets_length cur st
            show (release_sweep fuel (freeState fuel T h.id)
              (pushTargets cur st)).isSome = true
            refine release_sweep_total fuel _ _
              (ReleaseInv_freeState fuel T h.id cur hx hsr hinv) ?_
            simp only [List.length_cons] at hf
            omega

theorem lookup_removeKey {α : Type} (l : List (Nat × α)) (id : Nat) :
    (removeKey l id).lookup id = none := by
  induction l with
  | nil => rfl
  | cons kv l ih =>
      unfold removeKey at ih ⊢
      by_cases hk : kv.1 = id
      · rw [List.filter_cons, if_neg (by simp [hk])]
        exact ih
      · rw [List.filter_cons, if_pos (by simp [hk])]
        cases kv with
        | mk k v =>
            simp only [List.lookup]
            rw [show (id == k) = false from by
              simpa using Ne.symm (by simpa using hk)]
            exact ih

theorem not_mem_erase_of_count (l : List Nat) (id : Nat)
    (h : l.count id ≤ 1) : id ∉ l.erase id := by
  intro hmem
  have h1 : 0 < (l.erase id).count id := List.count_pos_iff_mem.mpr hmem
  rw [List.count_erase_self] at h1
  omega

theorem remove_hash_parameterized (S : Btor) (id : Nat) (keep : Bool)
    (n : BtorNode) (hn : getNode S id = some n) :
    (remove_from_hash_tables S id keep).parameterized_tbl.lookup id = none := by
  unfold remove_from_hash_tables
  rw [hn]
  dsimp only []
  exact lookup_removeKey _ _

theorem remove_hash_node2symbol (S : Btor) (id : Nat) (n : BtorNode)
    (hn : getNode S id = some n) :
    (remove_from_hash_tables S id false).node2symbol.lookup id = none := by
  unfold remove_from_hash_tables
  rw [hn]
  dsimp only []
  rw [if_pos (show (!false) = true from rfl)]
  split
  · split
    · exact lookup_removeKey _ _
    · exact lookup_removeKey _ _
  · assumption

theorem remove_hash_bv_vars (S : Btor) (id : Nat) (keep : Bool)
    (n : BtorNode) (hn : getNode S id = some n)
    (hk : n.kind = BtorNodeKind.bvVar) (hcount : S.bv_vars.count id ≤ 1) :
    id ∉ (remove_from_hash_tables S id keep).bv_vars := by
  unfold remove_from_hash_tables
  rw [hn]
  dsimp only []
  rw [hk]
  dsimp only []
  repeat'
    first
      | exact not_mem_erase_of_count _ _ hcount
      | split

theorem remove_hash_ufs (S : Btor) (id : Nat) (keep : Bool)
    (n : BtorNode) (hn : getNode S id = some n)
    (hk : n.kind = BtorNodeKind.uf) (hcount : S.ufs.count id ≤ 1) :
    id ∉ (remove_from_hash_tables S id keep).ufs := by
  unfold remove_from_hash_tables
  rw [hn]
  dsimp only []
  rw [hk]
  dsimp only []
  repeat'
    first
      | exact not_mem_erase_of_count _ _ hcount
      | split

theorem remove_hash_feqs (S : Btor) (id : Nat) (keep : Bool)
    (n : BtorNode) (hn : getNode S id = some n)
    (hk : n.kind = BtorNodeKind.funEq) (hcount : S.feqs.count id ≤ 1) :
    id ∉ (remove_from_hash_tables S id keep).feqs := by
  unfold remove_from_hash_tables
  rw [hn]
  dsimp only []
  rw [hk]
  dsimp only []
  repeat'
    first
      | exact not_mem_erase_of_count _ _ hcount
      | split

theorem remove_hash_lambdas (S : Btor) (id : Nat) (keep : Bool)
    (n : BtorNode) (hn : getNode S id = some n)
    (hk : n.kind = BtorNodeKind.lambda) :
    (remove_from_hash_tables S id keep).lambdas.lookup id = none := by
  unfold remove_from_hash_tables
  rw [hn]
  dsimp only []
  rw [hk]
  dsimp only []
  repeat'
    first
      | exact lookup_removeKey _ _
      | split

theorem unique_chain_disconnect_children (S : Btor) (id : Nat) :
    (disconnect_children_exp S id).unique_chain = S.unique_chain := by
  unfold disconnect_children_exp
  split
  · rfl
  rename_i n heq
  exact congrArg (fun t => t.1)
    (tblView_disconnect_fold id (List.range n.arity) S)

/-- The side tables `erase_local_data_exp` and the unique-table removal
never touch. -/
def sideView (S : Btor) :
    List Nat × List Nat × List Nat × List Nat × List (Nat × Nat) ×
      List (Nat × String) × List (Nat × List Nat) :=
  (S.unique_chain, S.bv_vars, S.ufs, S.feqs, S.lambdas, S.node2symbol,
   S.parameterized_tbl)

theorem sideView_erase (rel : Btor → Handle → Btor) (S : Btor)
    (id : Nat) (free : Bool) (n : BtorNode) (hn : getNode S id = some n)
    (hsr : n.static_rho = []) :
    sideView (erase_local_data_exp rel S id free) = sideView S := by
  unfold erase_local_data_exp
  rw [hn]
  dsimp only []
  cases hk : n.kind
  all_goals dsimp only []
  all_goals try rw [hsr, List.foldl_nil]
  all_goals
    repeat'
      first
        | rfl
        | split

theorem remove_unique_tables (S : Btor) (id : Nat) :
    (remove_from_nodes_unique_table_exp S id).bv_vars = S.bv_vars ∧
    (remove_from_nodes_unique_table_exp S id).ufs = S.ufs ∧
    (remove_from_nodes_unique_table_exp S id).feqs = S.feqs ∧
    (remove_from_nodes_unique_table_exp S id).node2symbol = S.node2symbol := by
  unfold remove_from_nodes_unique_table_exp
  split
  · exact ⟨rfl, rfl, rfl, rfl⟩
  split
  · exact ⟨rfl, rfl, rfl, rfl⟩
  exact ⟨rfl, rfl, rfl, rfl⟩

theorem tblView_disconnect_children (S : Btor) (id : Nat) :
    tblView (disconnect_children_exp S id) = tblView S := by
  unfold disconnect_children_exp
  split
  · rfl
  rename_i n heq
  exact tblView_disconnect_fold id (List.range n.arity) S

/-- `erase_local_data_exp` keeps the kind and the `unique` flag of every
node when the erased node has no static rho entries. -/
theorem kindView_erase (rel : Btor → Handle → Btor) (S : Btor) (id : Nat)
    (free : Bool) (n : BtorNode) (hn : getNode S id = some n)
    (hsr : n.static_rho = []) (j : Nat) :
    ((getNode (erase_local_data_exp rel S id free) j).map
      (fun nn => nn.kind)) = ((getNode S j).map (fun nn => nn.kind)) := by
  have h1 : ∀ (T : Btor) (q i : Nat),
      ((getNode (updateNode T q (fun m =>
        { m with bits := none, invbits := none })) i).map
        (fun nn => nn.kind)) = ((getNode T i).map (fun nn => nn.kind)) :=
    fun T q i => view_updateNode _ T q _ i (fun _ => rfl)
  have h2 : ∀ (T : Btor) (q i : Nat),
      ((getNode (updateNode T q (fun m =>
        { m with static_rho := ([] : List (Handle × Handle)),
                 rho := false })) i).map (fun nn => nn.kind)) =
        ((getNode T i).map (fun nn => nn.kind)) :=
    fun T q i => view_updateNode _ T q _ i (fun _ => rfl)
  have h3 : ∀ (T : Btor) (q i : Nat),
      ((getNode (updateNode T q (fun m => { m with rho := false })) i).map
        (fun nn => nn.kind)) = ((getNode T i).map (fun nn => nn.kind)) :=
    fun T q i => view_updateNode _ T q _ i (fun _ => rfl)
  have h4 : ∀ (T : Btor) (q i : Nat),
      ((getNode (updateNode T q (fun m => { m with sort_id := none }))
        i).map (fun nn => nn.kind)) =
        ((getNode T i).map (fun nn => nn.kind)) :=
    fun T q i => view_updateNode _ T q _ i (fun _ => rfl)
  have h5 : ∀ (T : Btor) (q i : Nat),
      ((getNode (updateNode T q (fun m => { m with av := false })) i).map
        (fun nn => nn.kind)) = ((getNode T i).map (fun nn => nn.kind)) :=
    fun T q i => view_updateNode _ T q _ i (fun _ => rfl)
  have h6 : ∀ (T : Btor) (q i : Nat),
      ((getNode (updateNode T q (fun m => { m with erased := true })) i).map
        (fun nn => nn.kind)) = ((getNode T i).map (fun nn => nn.kind)) :=
    fun T q i => view_updateNode _ T q _ i (fun _ => rfl)
  unfold erase_local_data_exp
  rw [hn]
  dsimp only []
  cases hk : n.kind
  all_goals dsimp only []
  all_goals try rw [hsr, List.foldl_nil]
  all_goals
    repeat'
      first
        | rfl
        | rw [h1]
        | rw [h2]
        | rw [h3]
        | rw [h4]
        | rw [h5]
        | rw [h6]
        | rw [getNode_release_sort]
        | split

/-- After the sweep frees a node, its arena slot is NULL and it is gone
from the unique table and from its side-table entries. -/
theorem freeState_facts (fuel : Nat) (T : Btor) (id : Nat) (m : BtorNode)
    (hm : getNode T id = some m) (hsr : m.static_rho = [])
    (hcnt : T.unique_chain.count id ≤ (if m.unique then 1 else 0)) :
    getNode (freeState fuel T id) id = none ∧
    id ∉ (freeState fuel T id).unique_chain ∧
    (freeState fuel T id).node2symbol.lookup id = none ∧
    (freeState fuel T id).parameterized_tbl.lookup id = none ∧
    (m.kind = BtorNodeKind.bvVar → T.bv_vars.count id ≤ 1 →
      id ∉ (freeState fuel T id).bv_vars) ∧
    (m.kind = BtorNodeKind.uf → T.ufs.count id ≤ 1 →
      id ∉ (freeState fuel T id).ufs) ∧
    (m.kind = BtorNodeKind.funEq → T.feqs.count id ≤ 1 →
      id ∉ (freeState fuel T id).feqs) ∧
    (m.kind = BtorNodeKind.lambda →
      (freeState fuel T id).lambdas.lookup id = none) := by
  unfold freeState
  dsimp only []
  set T1 := updateNode T id (fun n => { n with simplified := none }) with h1
  set T2 := remove_from_nodes_unique_table_exp T1 id with h2
  set T3 := erase_local_data_exp
    (fun st hh => (release_sweep fuel st [hh]).getD st) T2 id true with h3
  set T4 := remove_from_hash_tables T3 id false with h4
  set T5 := disconnect_children_exp T4 id with h5
  have hm1 : getNode T1 id = some { m with simplified := none } := by
    rw [h1, getNode_upd_self, hm]
    rfl
  have hm2 : getNode T2 id =
      some { { m with simplified := none } with unique := false } := by
    rw [h2]
    exact remove_unique_getNode_self T1 id _ hm1
  have hside : sideView T3 = sideView T2 := by
    rw [h3]
    exact sideView_erase _ T2 id true _ hm2 hsr
  have hkv := kindView_erase
    (fun st hh => (release_sweep fuel st [hh]).getD st) T2 id true _ hm2 hsr
    id
  rw [hm2] at hkv
  obtain ⟨n3, hn3, hn3k⟩ : ∃ n3, getNode T3 id = some n3 ∧
      n3.kind = m.kind := by
    cases hx : getNode T3 id with
    | none =>
        have hx2 := hx
        rw [h3] at hx2
        rw [hx2] at hkv
        cases hkv
    | some k =>
        have hx2 := hx
        rw [h3] at hx2
        rw [hx2] at hkv
        exact ⟨k, rfl, by simpa using hkv⟩
  have htb : tblView T5 = tblView T4 := by
    rw [h5]
    exact tblView_disconnect_children T4 id
  have hru := remove_unique_tables T1 id
  have htb1 : T5.unique_chain = T4.unique_chain := congrArg (fun t => t.1) htb
  have htb2 : T5.node2symbol = T4.node2symbol :=
    congrArg (fun t => t.2.2.2.2.2.2.2.1) htb
  have htb3 : T5.parameterized_tbl = T4.parameterized_tbl :=
    congrArg (fun t => t.2.2.2.2.2.2.2.2.2.1) htb
  have htb4 : T5.bv_vars = T4.bv_vars := congrArg (fun t => t.2.2.2.1) htb
  have htb5 : T5.ufs = T4.ufs := congrArg (fun t => t.2.2.2.2.1) htb
  have htb6 : T5.feqs = T4.feqs := congrArg (fun t => t.2.2.2.2.2.1) htb
  have htb7 : T5.lambdas = T4.lambdas :=
    congrArg (fun t => t.2.2.2.2.2.2.1) htb
  have hsd1 : T3.unique_chain = T2.unique_chain := congrArg (fun t => t.1) hside
  have hsd2 : T3.bv_vars = T2.bv_vars := congrArg (fun t => t.2.1) hside
  have hsd3 : T3.ufs = T2.ufs := congrArg (fun t => t.2.2.1) hside
  have hsd4 : T3.feqs = T2.feqs := congrArg (fun t => t.2.2.2.1) hside
  refine ⟨getNode_dealloc_self _ _, ?_, ?_, ?_, ?_, ?_, ?_, ?_⟩
  · show id ∉ T5.unique_chain
    rw [htb1, h4, (remove_from_hash_tables_frame T3 id false).2.2, hsd1, h2]
    exact remove_unique_not_mem_chain T1 id { m with simplified := none }
      hm1 hcnt
  · show T5.node2symbol.lookup id = none
    rw [htb2, h4]
    exact remove_hash_node2symbol T3 id n3 hn3
  · show T5.parameterized_tbl.lookup id = none
    rw [htb3, h4]
    exact remove_hash_parameterized T3 id false n3 hn3
  · intro hk hcount
    show id ∉ T5.bv_vars
    rw [htb4, h4]
    refine remove_hash_bv_vars T3 id false n3 hn3 (by rw [hn3k, hk]) ?_
    rw [hsd2, h2, hru.1]
    exact hcount
  · intro hk hcount
    show id ∉ T5.ufs
    rw [htb5, h4]
    refine remove_hash_ufs T3 id false n3 hn3 (by rw [hn3k, hk]) ?_
    rw [hsd3, h2, hru.2.1]
    exact hcount
  · intro hk hcount
    show id ∉ T5.feqs
    rw [htb6, h4]
    refine remove_hash_feqs T3 id false n3 hn3 (by rw [hn3k, hk]) ?_
    rw [hsd4, h2, hru.2.2.1]
    exact hcount
  · intro hk
    show T5.lambdas.lookup id = none
    rw [htb7, h4]
    exact remove_hash_lambdas T3 id false n3 hn3 (by rw [hn3k, hk])

/-- C5: the release engine.  Releasing a handle whose real node has more
than one reference only decrements the count; on the last reference the
iterative sweep takes over.  Each sweep iteration pops one entry: a node
with spare references is just decremented, and a last-reference node has
its children and `simplified` target pushed (the `simplified` pointer being
cleared), is removed from the unique table, has its local data erased, is
dropped from the side tables, disconnected, and its arena slot freed.  The
explicit work stack terminates within `btorMeasure + |stack|` iterations
whenever every live node has at most 3 children and an empty static rho, so
the sweep needs no unbounded recursion. -/
theorem claim_C5_release_engine (S : Btor) (root : Handle) (n : BtorNode)
    (hn : getNode S root.id = some n) :
    (2 ≤ n.refs → btor_release_exp S root =
      updateNode S root.id (fun m => { m with refs := m.refs - 1 })) ∧
    (n.refs = 1 →
      btor_release_exp S root = recursively_release_exp S root.id) ∧
    (∀ (fuel : Nat) (T : Btor) (h : Handle) (st : List Handle)
        (m2 : BtorNode), getNode T h.id = some m2 → 2 ≤ m2.refs →
      release_sweep (fuel + 1) T (h :: st) =
        release_sweep fuel
          (updateNode T h.id (fun k => { k with refs := k.refs - 1 })) st) ∧
    (∀ (fuel : Nat) (T : Btor) (h : Handle) (st : List Handle)
        (m2 : BtorNode), getNode T h.id = some m2 → m2.refs = 1 →
      release_sweep (fuel + 1) T (h :: st) =
        release_sweep fuel (freeState fuel T h.id) (pushTargets m2 st)) ∧
    (∀ (fuel : Nat) (T : Btor) (h : Handle) (m2 : BtorNode),
        getNode T h.id = some m2 → m2.static_rho = [] →
        T.unique_chain.count h.id ≤ (if m2.unique then 1 else 0) →
      getNode (freeState fuel T h.id) h.id = none ∧
      h.id ∉ (freeState fuel T h.id).unique_chain ∧
      (freeState fuel T h.id).node2symbol.lookup h.id = none ∧
      (freeState fuel T h.id).parameterized_tbl.lookup h.id = none ∧
      (m2.kind = BtorNodeKind.bvVar → T.bv_vars.count h.id ≤ 1 →
        h.id ∉ (freeState fuel T h.id).bv_vars) ∧
      (m2.kind = BtorNodeKind.uf → T.ufs.count h.id ≤ 1 →
        h.id ∉ (freeState fuel T h.id).ufs) ∧
      (m2.kind = BtorNodeKind.funEq → T.feqs.count h.id ≤ 1 →
        h.id ∉ (freeState fuel T h.id).feqs) ∧
      (m2.kind = BtorNodeKind.lambda →
        (freeState fuel T h.id).lambdas.lookup h.id = none)) ∧
    (∀ (fuel : Nat) (T : Btor) (st : List Handle), ReleaseInv T →
      btorMeasure T + st.length < fuel →
      (release_sweep fuel T st).isSome = true) := by
  refine ⟨?_, ?_, ?_, ?_, ?_, ?_⟩
  · intro hr
    exact btor_release_exp_dec S root n hn hr
  · intro hr
    unfold btor_release_exp
    rw [hn]
    dsimp only []
    rw [if_neg (by omega : ¬ n.refs > 1)]
  · intro fuel T h st m2 hm2 hr
    simp only [release_sweep]
    rw [hm2]
    dsimp only []
    rw [if_pos (by omega : m2.refs > 1)]
  · intro fuel T h st m2 hm2 hr
    simp only [release_sweep]
    rw [hm2]
    dsimp only []
    rw [if_neg (by omega : ¬ m2.refs > 1)]
    rfl
  · intro fuel T h m2 hm2 hsr hcnt
    exact freeState_facts fuel T h.id m2 hm2 hsr hcnt
  · exact release_sweep_total

/-- Witness for C5 at a concrete input: the AND node of `proxyCtx` holds
its last reference, so releasing it switches to the iterative sweep. -/
theorem claim_C5_release_engine_witness :
    getNode proxyCtx 3 = some proxyNode ∧ proxyNode.refs = 1 ∧
    btor_release_exp proxyCtx ⟨false, 3⟩ = recursively_release_exp proxyCtx 3 :=
  ⟨by decide, by decide,
    (claim_C5_release_engine proxyCtx ⟨false, 3⟩ proxyNode (by decide)).2.1
      (by decide)⟩

/-! ## Constant normalisation (claim C2) -/

theorem not_not_bv (b : BtorBitVector) (hv : b.val < 2 ^ b.width) :
    btor_not_bv (btor_not_bv b) = b := by
  rcases b with ⟨w, v⟩
  simp only [btor_not_bv]
  refine congrArg (BtorBitVector.mk w) ?_
  simp only at hv
  have h1 : v % 2 ^ w = v := Nat.mod_eq_of_lt hv
  rw [h1]
  have hp : 0 < 2 ^ w := Nat.two_pow_pos w
  have h2 : (2 ^ w - 1 - v) % 2 ^ w = 2 ^ w - 1 - v :=
    Nat.mod_eq_of_lt (by omega)
  rw [h2]
  omega

theorem lsb_not_bv (b : BtorBitVector) (hw : 0 < b.width)
    (hv : b.val < 2 ^ b.width) :
    btor_get_bit_bv (btor_not_bv b) 0 = 1 - btor_get_bit_bv b 0 := by
  rcases b with ⟨w, v⟩
  simp only at hw hv
  obtain ⟨w', rfl⟩ : ∃ w', w = w' + 1 := ⟨w - 1, by omega⟩
  simp only [btor_get_bit_bv, btor_not_bv, pow_zero, Nat.div_one]
  have h1 : v % 2 ^ (w' + 1) = v := Nat.mod_eq_of_lt hv
  rw [h1]
  have h2 : 2 ^ (w' + 1) = 2 * 2 ^ w' := by ring
  rw [h2] at hv ⊢
  omega

theorem lsb_lt_two (b : BtorBitVector) : btor_get_bit_bv b 0 < 2 := by
  simp only [btor_get_bit_bv, pow_zero, Nat.div_one]
  omega

/-- `List.find?` only looks at the elements of the list. -/
theorem find_congr {α : Type} (p q : α → Bool) :
    ∀ (l : List α), (∀ c, c ∈ l → p c = q c) → l.find? p = l.find? q
  | [], _ => rfl
  | a :: l, h => by
      simp only [List.find?]
      rw [h a (List.mem_cons_self a l)]
      cases q a with
      | true => rfl
      | false =>
          exact find_congr p q l (fun c hc => h c (List.mem_cons_of_mem a hc))

theorem matchConstNode_inc_ref (S : Btor) (h : Handle) (bits : BtorBitVector)
    (cand : Nat) :
    matchConstNode (inc_exp_ref_counter S h) bits cand =
      matchConstNode S bits cand := by
  unfold matchConstNode btor_get_exp_width btor_exp_get_sort_id
  rw [getNode_inc_ref]
  by_cases hc : cand = h.id
  · rw [if_pos hc]
    cases getNode S cand <;> rfl
  · rw [if_neg hc]

theorem find_const_inc_ref (S : Btor) (h : Handle) (bits : BtorBitVector) :
    find_const_exp (inc_exp_ref_counter S h) bits = find_const_exp S bits := by
  unfold find_const_exp
  show (S.unique_chain.find? _) = _
  exact find_congr _ _ S.unique_chain
    (fun c _ => matchConstNode_inc_ref S h bits c)

/-- The node a successful constant lookup returns carries exactly the looked
up bits. -/
theorem find_const_bits (S : Btor) (L : BtorBitVector) (k : Nat)
    (hw : 0 < L.width) (hfind : find_const_exp S L = some k) :
    ∃ n, getNode S k = some n ∧ n.bits = some L ∧
      n.kind = BtorNodeKind.bvConst := by
  have hp := List.find?_some hfind
  unfold matchConstNode at hp
  cases hx : getNode S k with
  | none => rw [hx] at hp; cases hp
  | some n =>
      rw [hx] at hp
      simp only [Bool.and_eq_true, beq_iff_eq, decide_eq_true_eq] at hp
      obtain ⟨⟨hk, hwidth⟩, hcmp⟩ := hp
      have heq := (btor_compare_bv_eq_zero _ _).mp hcmp
      cases hb : n.bits with
      | none =>
          rw [hb] at heq
          simp only [Option.getD] at heq
          rw [← heq] at hw
          simp at hw
      | some bb =>
          rw [hb] at heq
          simp only [Option.getD] at heq
          exact ⟨n, rfl, by rw [hb, heq], hk⟩

/-- The found branch of `btor_const_exp`. -/
theorem btor_const_exp_found (S : Btor) (bits L : BtorBitVector) (k : Nat)
    (hL : (if btor_get_bit_bv bits 0 = 1 then btor_not_bv bits
      else btor_copy_bv bits) = L)
    (hfind : find_const_exp S L = some k) :
    btor_const_exp S bits = (inc_exp_ref_counter S ⟨false, k⟩,
      if btor_get_bit_bv bits 0 = 1 then BTOR_INVERT_NODE ⟨false, k⟩
      else ⟨false, k⟩) := by
  unfold btor_const_exp
  dsimp only []
  rw [hL, hfind]

/-- The allocation path of `btor_const_exp` (lookup missed). -/
def constAlloc (S : Btor) (L : BtorBitVector) : Btor :=
  let S0 := if BTOR_FULL_UNIQUE_TABLE S then enlarge_nodes_unique_table S
    else S
  let r := new_const_exp_node S0 L
  let S2 := { r.1 with unique_chain := r.1.unique_chain ++ [r.2],
                       unique_num_elements := r.1.unique_num_elements + 1 }
  updateNode S2 r.2 (fun n => { n with unique := true })

theorem btor_const_exp_notfound (S : Btor) (bits L : BtorBitVector)
    (hL : (if btor_get_bit_bv bits 0 = 1 then btor_not_bv bits
      else btor_copy_bv bits) = L)
    (hfind : find_const_exp S L = none) :
    btor_const_exp S bits = (constAlloc S L,
      if btor_get_bit_bv bits 0 = 1 then
        BTOR_INVERT_NODE ⟨false, nodesCount S⟩
      else ⟨false, nodesCount S⟩) := by
  unfold btor_const_exp
  dsimp only []
  rw [hL, hfind]
  dsimp only []
  unfold constAlloc
  by_cases hfull : BTOR_FULL_UNIQUE_TABLE S = true
  · simp only [hfull, if_true]
    rfl
  · simp only [hfull, if_false]
    rfl

theorem getD_append_lt {α : Type} (l l2 : List α) (j : Nat) (d : α)
    (hj : j < l.length) : (l ++ l2).getD j d = l.getD j d := by
  induction l generalizing j with
  | nil => simp at hj
  | cons a l ih =>
      cases j with
      | zero => rfl
      | succ j => exact ih j (by simpa using hj)

theorem getD_append_self {α : Type} (l : List α) (x d : α) :
    (l ++ [x]).getD l.length d = x := by
  induction l with
  | nil => rfl
  | cons a l ih => exact ih

/-- `new_const_exp_node` written out: intern the sort, push the fresh
constant node, store the bits and the precomputed complement. -/
def constNodeShell (S : Btor) (L : BtorBitVector) : BtorNode :=
  { newBtorNode with
    kind := BtorNodeKind.bvConst
    sort_id := some (BtorSort.bitvec L.width)
    refs := 1
    id := nodesCount S }

theorem new_const_exp_node_eq (S : Btor) (L : BtorBitVector) :
    new_const_exp_node S L =
      (updateNode { btor_copy_sort S (BtorSort.bitvec L.width) with
          nodes_id_table := S.nodes_id_table ++ [some (constNodeShell S L)] }
        (nodesCount S)
        (fun n => { n with bits := some (btor_copy_bv L),
                           invbits := some (btor_not_bv L) }),
       nodesCount S) := rfl

theorem nodesCount_constAlloc (S : Btor) (L : BtorBitVector) :
    nodesCount (constAlloc S L) = nodesCount S + 1 := by
  unfold constAlloc
  dsimp only []
  split
  all_goals rw [new_const_exp_node_eq]
  all_goals simp [nodesCount, updateNode, enlarge_nodes_unique_table,
    btor_copy_sort]

theorem updateNode_table (T : Btor) (q : Nat) (f : BtorNode → BtorNode) :
    (updateNode T q f).nodes_id_table =
      T.nodes_id_table.set q ((T.nodes_id_table.getD q none).map f) := rfl

theorem getD_set_self_of_lt {α : Type} (l : List α) (i : Nat) (v d : α)
    (h : i < l.length) : (l.set i v).getD i d = v := by
  induction l generalizing i with
  | nil => simp at h
  | cons a l ih =>
      cases i with
      | zero => rfl
      | succ i => exact ih i (by simpa using h)

theorem getNode_constAlloc_old (S : Btor) (L : BtorBitVector) (j : Nat)
    (hj : j < nodesCount S) :
    getNode (constAlloc S L) j = getNode S j := by
  unfold constAlloc
  dsimp only []
  set E := if BTOR_FULL_UNIQUE_TABLE S = true then
    enlarge_nodes_unique_table S else S with hE
  have hEt : E.nodes_id_table = S.nodes_id_table := by
    rw [hE]; split <;> rfl
  have hEc : nodesCount E = nodesCount S := by
    rw [hE]; split <;> rfl
  rw [new_const_exp_node_eq]
  dsimp only []
  rw [hEt, hEc]
  have hne : j ≠ nodesCount S := Nat.ne_of_lt hj
  rw [getNode_updateNode_ne _ _ _ _ hne]
  unfold getNode
  dsimp only []
  rw [updateNode_table, getD_set_ne _ (nodesCount S) j _ _ (Ne.symm hne)]
  show (S.nodes_id_table ++ _).getD j none = S.nodes_id_table.getD j none
  exact getD_append_lt _ _ _ _ (by simpa [nodesCount] using hj)

theorem getNode_constAlloc_new (S : Btor) (L : BtorBitVector) :
    getNode (constAlloc S L) (nodesCount S) =
      some { constNodeShell S L with
             bits := some (btor_copy_bv L),
             invbits := some (btor_not_bv L),
             unique := true } := by
  unfold constAlloc
  dsimp only []
  set E := if BTOR_FULL_UNIQUE_TABLE S = true then
    enlarge_nodes_unique_table S else S with hE
  have hEt : E.nodes_id_table = S.nodes_id_table := by
    rw [hE]; split <;> rfl
  have hEc : nodesCount E = nodesCount S := by
    rw [hE]; split <;> rfl
  have hshell : constNodeShell E L = constNodeShell S L := by
    unfold constNodeShell
    rw [hEc]
  rw [new_const_exp_node_eq]
  dsimp only []
  rw [hEt, hEc, hshell]
  rw [getNode_upd_self]
  unfold getNode
  dsimp only []
  rw [updateNode_table,
    getD_set_self_of_lt _ _ _ _ (by simp [nodesCount])]
  show ((((S.nodes_id_table ++ [some (constNodeShell S L)]).getD
      (nodesCount S) none).map _).map _) = _
  rw [show ((S.nodes_id_table ++ [some (constNodeShell S L)]).getD
      (nodesCount S) none) = some (constNodeShell S L) from
    getD_append_self _ _ _]
  rfl

theorem unique_chain_constAlloc (S : Btor) (L : BtorBitVector) :
    (constAlloc S L).unique_chain = S.unique_chain ++ [nodesCount S] := by
  unfold constAlloc
  dsimp only []
  set E := if BTOR_FULL_UNIQUE_TABLE S = true then
    enlarge_nodes_unique_table S else S with hE
  have hEch : E.unique_chain = S.unique_chain := by
    rw [hE]; split <;> rfl
  have hEc : nodesCount E = nodesCount S := by
    rw [hE]; split <;> rfl
  rw [new_const_exp_node_eq]
  dsimp only []
  rw [hEc]
  show E.unique_chain ++ [nodesCount S] = _
  rw [hEch]

theorem find_const_constAlloc (S : Btor) (L : BtorBitVector)
    (hw : 0 < L.width)
    (hchain : ∀ c, c ∈ S.unique_chain → c < nodesCount S)
    (hfind : find_const_exp S L = none) :
    find_const_exp (constAlloc S L) L = some (nodesCount S) := by
  unfold find_const_exp
  rw [unique_chain_constAlloc, List.find?_append]
  have hold : (S.unique_chain.find? (matchConstNode (constAlloc S L) L)) =
      none := by
    rw [find_congr _ (matchConstNode S L) _ ?_]
    · exact hfind
    · intro c hc
      have hlt := hchain c hc
      unfold matchConstNode btor_get_exp_width btor_exp_get_sort_id
      rw [getNode_constAlloc_old S L c hlt]
  rw [hold]
  have hmatch : matchConstNode (constAlloc S L) L (nodesCount S) = true := by
    unfold matchConstNode btor_get_exp_width btor_exp_get_sort_id
    rw [getNode_constAlloc_new]
    dsimp only [constNodeShell, newBtorNode]
    simp [btor_copy_bv, btor_compare_bv_eq_zero]
  simp [List.find?, hmatch]

/-- What claim C2 asserts about a constant and its complement. -/
def ConstPairSpec (S : Btor) (b : BtorBitVector) : Prop :=
  let r1 := btor_const_exp S b
  let r2 := btor_const_exp r1.1 (btor_not_bv b)
  r2.2.id = r1.2.id ∧
  r2.2.inv = !r1.2.inv ∧
  nodesCount r1.1 ≤ nodesCount S + 1 ∧
  nodesCount r2.1 = nodesCount r1.1 ∧
  (∃ nn bb, getNode r1.1 r1.2.id = some nn ∧ nn.bits = some bb ∧
    btor_get_bit_bv bb 0 = 0)

/-- C2: `btor_const_exp` canonicalises the sign of a constant: the stored
node always carries bits with least significant bit 0, and building
`const b` then `const (not b)` yields handles to one and the same node that
differ only in the inversion tag, with at most one allocation for the
pair. -/
theorem claim_C2_const_normalisation (S : Btor) (b : BtorBitVector)
    (hw : 0 < b.width) (hv : b.val < 2 ^ b.width)
    (hchain : ∀ c, c ∈ S.unique_chain → c < nodesCount S) :
    ConstPairSpec S b := by
  unfold ConstPairSpec
  dsimp only []
  have hb2 := lsb_lt_two b
  have hbit : btor_get_bit_bv b 0 = 0 ∨ btor_get_bit_bv b 0 = 1 := by omega
  rcases hbit with hbit | hbit
  · -- even constant: both calls look up `b` itself
    have hL1 : (if btor_get_bit_bv b 0 = 1 then btor_not_bv b
        else btor_copy_bv b) = b := by
      rw [hbit]
      simp [btor_copy_bv]
    have hlsbn : btor_get_bit_bv (btor_not_bv b) 0 = 1 := by
      rw [lsb_not_bv b hw hv, hbit]
    have hL2 : (if btor_get_bit_bv (btor_not_bv b) 0 = 1 then
        btor_not_bv (btor_not_bv b) else btor_copy_bv (btor_not_bv b)) =
        b := by
      rw [hlsbn]
      simp [not_not_bv b hv]
    cases hfind : find_const_exp S b with
    | some k =>
        obtain ⟨n, hn, hnb, hnk⟩ := find_const_bits S b k hw hfind
        have e1 := btor_const_exp_found S b b k hL1 hfind
        have hfind2 : find_const_exp (inc_exp_ref_counter S ⟨false, k⟩) b =
            some k := by
          rw [find_const_inc_ref]
          exact hfind
        have e2 := btor_const_exp_found (inc_exp_ref_counter S ⟨false, k⟩)
          (btor_not_bv b) b k hL2 hfind2
        rw [e1]
        dsimp only []
        rw [e2]
        simp only [hbit, hlsbn, reduceIte]
        refine ⟨rfl, rfl, by rw [nodesCount_inc_ref]; omega,
          by rw [nodesCount_inc_ref, nodesCount_inc_ref], ?_⟩
        refine ⟨{ n with refs := n.refs + 1 }, b, ?_, by simpa using hnb,
          hbit⟩
        show getNode (inc_exp_ref_counter S ⟨false, k⟩) k = _
        rw [getNode_inc_ref]
        simp only [if_pos rfl, hn]
        rfl
    | none =>
        have e1 := btor_const_exp_notfound S b b hL1 hfind
        have hfind2 : find_const_exp (constAlloc S b) b =
            some (nodesCount S) := find_const_constAlloc S b hw hchain hfind
        have e2 := btor_const_exp_found (constAlloc S b)
          (btor_not_bv b) b (nodesCount S) hL2 hfind2
        rw [e1]
        dsimp only []
        rw [e2]
        simp only [hbit, hlsbn, reduceIte]
        refine ⟨rfl, rfl, by rw [nodesCount_constAlloc],
          by rw [nodesCount_inc_ref], ?_⟩
        refine ⟨_, b, getNode_constAlloc_new S b, rfl, hbit⟩
  · -- odd constant: both calls look up `not b`
    have hL1 : (if btor_get_bit_bv b 0 = 1 then btor_not_bv b
        else btor_copy_bv b) = btor_not_bv b := by
      rw [hbit]
      simp
    have hlsbn : btor_get_bit_bv (btor_not_bv b) 0 = 0 := by
      rw [lsb_not_bv b hw hv, hbit]
    have hL2 : (if btor_get_bit_bv (btor_not_bv b) 0 = 1 then
        btor_not_bv (btor_not_bv b) else btor_copy_bv (btor_not_bv b)) =
        btor_not_bv b := by
      rw [hlsbn]
      simp [btor_copy_bv]
    have hwn : 0 < (btor_not_bv b).width := hw
    cases hfind : find_const_exp S (btor_not_bv b) with
    | some k =>
        obtain ⟨n, hn, hnb, hnk⟩ := find_const_bits S (btor_not_bv b) k
          hwn hfind
        have e1 := btor_const_exp_found S b (btor_not_bv b) k hL1 hfind
        have hfind2 : find_const_exp (inc_exp_ref_counter S ⟨false, k⟩)
            (btor_not_bv b) = some k := by
          rw [find_const_inc_ref]
          exact hfind
        have e2 := btor_const_exp_found (inc_exp_ref_counter S ⟨false, k⟩)
          (btor_not_bv b) (btor_not_bv b) k hL2 hfind2
        rw [e1]
        dsimp only []
        rw [e2]
        simp only [hbit, hlsbn, reduceIte]
        refine ⟨rfl, rfl, by rw [nodesCount_inc_ref]; omega,
          by rw [nodesCount_inc_ref, nodesCount_inc_ref], ?_⟩
        refine ⟨{ n with refs := n.refs + 1 }, btor_not_bv b, ?_,
          by simpa using hnb, hlsbn⟩
        show getNode (inc_exp_ref_counter S ⟨false, k⟩) k = _
        rw [getNode_inc_ref]
        simp only [if_pos rfl, hn]
        rfl
    | none =>
        have e1 := btor_const_exp_notfound S b (btor_not_bv b) hL1 hfind
        have hfind2 : find_const_exp (constAlloc S (btor_not_bv b))
            (btor_not_bv b) = some (nodesCount S) :=
          find_const_constAlloc S (btor_not_bv b) hwn hchain hfind
        have e2 := btor_const_exp_found (constAlloc S (btor_not_bv b))
          (btor_not_bv b) (btor_not_bv b) (nodesCount S) hL2 hfind2
        rw [e1]
        dsimp only []
        rw [e2]
        simp only [hbit, hlsbn, reduceIte]
        refine ⟨rfl, rfl, by rw [nodesCount_constAlloc],
          by rw [nodesCount_inc_ref], ?_⟩
        refine ⟨_, btor_not_bv b, getNode_constAlloc_new S (btor_not_bv b),
          rfl, hlsbn⟩

/-- Witness for C2 at a concrete input: the byte 0b10101010 in a fresh
context. -/
theorem claim_C2_const_normalisation_witness :
    ConstPairSpec emptyBtor ⟨8, 170⟩ :=
  claim_C2_const_normalisation emptyBtor ⟨8, 170⟩ (by decide) (by decide)
    (fun c hc => absurd hc (List.not_mem_nil c))

/-! ## BV_EQ inverted-children lookup (claim C10) -/

theorem find_eq_of_unique {α : Type} (p : α → Bool) (k : α) :
    ∀ (l : List α), k ∈ l → p k = true →
      (∀ c, c ∈ l → p c = true → c = k) → l.find? p = some k
  | [], hmem, _, _ => absurd hmem (List.not_mem_nil k)
  | a :: l, hmem, hp, huniq => by
      cases hpa : p a with
      | true =>
          have : a = k := huniq a (List.mem_cons_self a l) hpa
          subst this
          simp [List.find?, hpa]
      | false =>
          have hka : k ≠ a := by
            intro hka
            rw [hka] at hp
            rw [hp] at hpa
            cases hpa
          have hmem' : k ∈ l := by
            rcases List.mem_cons.mp hmem with h | h
            · exact absurd h hka
            · exact h
          simp only [List.find?, hpa]
          exact find_eq_of_unique p k l hmem' hp
            (fun c hc hpc => huniq c (List.mem_cons_of_mem a hc) hpc)

theorem sorted_bv_of_le (S : Btor) (e0 e1 : Handle) (h : e0.id ≤ e1.id) :
    is_sorted_bv_exp S BtorNodeKind.bvEq [e0, e1] = true := by
  unfold is_sorted_bv_exp
  split
  · rfl
  split
  · rfl
  dsimp only []
  split
  · rfl
  split
  · rfl
  simpa using h

/-- C10: the unique-table lookup identifies a bit-vector equality with both
children inverted with the equality of the uninverted children: if a BV_EQ
node over (a, b) is already interned, building BV_EQ over
(invert a, invert b) returns that node with one more reference and
allocates nothing. -/
theorem claim_C10_bv_eq_inverted (S : Btor) (a b : Handle) (k : Nat)
    (K : BtorNode) (hK : getNode S k = some K)
    (hkind : K.kind = BtorNodeKind.bvEq) (har : K.arity = 2)
    (he0 : K.e.getD 0 none = some a) (he1 : K.e.getD 1 none = some b)
    (hmem : k ∈ S.unique_chain)
    (huniq : ∀ c, c ∈ S.unique_chain →
      matchBvNode S BtorNodeKind.bvEq
        [BTOR_INVERT_NODE a, BTOR_INVERT_NODE b] 2 c = true → c = k)
    (hterm_a : ((getNode S a.id).bind (fun n => n.simplified)) = none)
    (hterm_b : ((getNode S b.id).bind (fun n => n.simplified)) = none)
    (hfun : ∀ n, getNode S a.id = some n → btor_is_fun_node n = false)
    (hab : a.id ≤ b.id) :
    btor_eq_exp_node S (BTOR_INVERT_NODE a) (BTOR_INVERT_NODE b) =
      (inc_exp_ref_counter S ⟨false, k⟩, ⟨false, k⟩) ∧
    nodesCount (inc_exp_ref_counter S ⟨false, k⟩) = nodesCount S := by
  have hsa : btor_simplify_exp S (BTOR_INVERT_NODE a) = BTOR_INVERT_NODE a :=
    btor_simplify_exp_terminal S _ hterm_a
  have hsb : btor_simplify_exp S (BTOR_INVERT_NODE b) = BTOR_INVERT_NODE b :=
    btor_simplify_exp_terminal S _ hterm_b
  have hmatch : matchBvNode S BtorNodeKind.bvEq
      [BTOR_INVERT_NODE a, BTOR_INVERT_NODE b] 2 k = true := by
    unfold matchBvNode
    rw [hK]
    simp only [List.getD_cons_zero, List.getD_cons_succ, invert_invert,
      hkind, har, he0, he1]
    simp
  have hfind : S.unique_chain.find? (matchBvNode S BtorNodeKind.bvEq
      [BTOR_INVERT_NODE a, BTOR_INVERT_NODE b] 2) = some k :=
    find_eq_of_unique _ k S.unique_chain hmem hmatch huniq
  have hfe : ∀ c : Bool, (find_exp S BtorNodeKind.bvEq
      [BTOR_INVERT_NODE a, BTOR_INVERT_NODE b] 2 c).2.2.2 = some k := by
    intro c
    unfold find_exp find_bv_exp
    rw [if_neg (by decide)]
    dsimp only []
    rw [show sort_bv_exp S BtorNodeKind.bvEq
        [BTOR_INVERT_NODE a, BTOR_INVERT_NODE b] =
        [BTOR_INVERT_NODE a, BTOR_INVERT_NODE b] from by
      unfold sort_bv_exp
      rw [if_neg (by
        rw [sorted_bv_of_le S _ _ (by simpa using hab)]
        decide)]]
    exact hfind
  refine ⟨?_, nodesCount_inc_ref S ⟨false, k⟩⟩
  unfold btor_eq_exp_node
  dsimp only []
  rw [hsa, hsb]
  have hkind2 : (match getNode S (BTOR_INVERT_NODE a).id with
      | some n => if btor_is_fun_node n then BtorNodeKind.funEq
        else BtorNodeKind.bvEq
      | none => BtorNodeKind.bvEq) = BtorNodeKind.bvEq := by
    show (match getNode S a.id with
      | some n => if btor_is_fun_node n then BtorNodeKind.funEq
        else BtorNodeKind.bvEq
      | none => BtorNodeKind.bvEq) = BtorNodeKind.bvEq
    cases hx : getNode S a.id with
    | none => rfl
    | some n =>
        dsimp only []
        rw [if_neg (by rw [hfun n hx]; exact Bool.false_ne_true)]
  rw [hkind2]
  unfold create_exp
  dsimp only []
  simp only [List.map_cons, List.map_nil, hsa, hsb]
  rw [hfe _]

/-- Concrete state for the C10 witness: an equality node (id 3) over two
8-bit variables (ids 1 and 2). -/
def eqCtx : Btor := (btor_eq_exp_node connectCtx ⟨false, 1⟩ ⟨false, 2⟩).1

/-- The node in slot 3 of `eqCtx`. -/
def eqCtxNode : BtorNode := (getNode eqCtx 3).getD newBtorNode

/-- The node in slot 1 of `eqCtx`. -/
def eqCtxVarNode : BtorNode := (getNode eqCtx 1).getD newBtorNode

/-- Witness for C10 at a concrete input: rebuilding the equality of nodes 1
and 2 with both children inverted returns the interned node 3 and allocates
nothing. -/
theorem claim_C10_bv_eq_inverted_witness :
    btor_eq_exp_node eqCtx (BTOR_INVERT_NODE ⟨false, 1⟩)
        (BTOR_INVERT_NODE ⟨false, 2⟩) =
      (inc_exp_ref_counter eqCtx ⟨false, 3⟩, ⟨false, 3⟩) ∧
    nodesCount (inc_exp_ref_counter eqCtx ⟨false, 3⟩) = nodesCount eqCtx :=
  claim_C10_bv_eq_inverted eqCtx ⟨false, 1⟩ ⟨false, 2⟩ 3 eqCtxNode
    (by decide) (by decide) (by decide) (by decide) (by decide)
    (by decide)
    (fun c hc _ => by
      rw [show eqCtx.unique_chain = [3] from by decide] at hc
      simpa using hc)
    (by decide) (by decide)
    (fun n hn => by
      rw [show getNode eqCtx 1 = some eqCtxVarNode from by decide] at hn
      cases hn
      decide)
    (by decide)

/-! ## Args chunking (claim C1) -/

/-- Start state for the args-chain computations: an empty expression store
whose unique table starts with 1024 buckets (so no enlarging happens while
the chain is built). -/
def argsBase : Btor := { emptyBtor with unique_size := 1024 }

/-- Add one fresh 8-bit variable. -/
def addVar8 (S : Btor) : Btor := (btor_var_exp S (.bitvec 8) none).1

/-- Seven 8-bit variables (ids 1..7) over `argsBase`. -/
def argsCtx : Btor :=
  addVar8 (addVar8 (addVar8 (addVar8 (addVar8 (addVar8 (addVar8 argsBase))))))

/-- The seven variables, in order, as an argument list. -/
def args7 : List Handle :=
  [⟨false,1⟩,⟨false,2⟩,⟨false,3⟩,⟨false,4⟩,⟨false,5⟩,⟨false,6⟩,⟨false,7⟩]

set_option maxRecDepth 10000

/-- C1, counterexample: `btor_args_exp` on 7 arguments builds the chain
`10 → 9 → 8`, and its terminal args node (id 8) carries 3 arguments —
not `argc mod 2 + 1 = 2` as claimed — while the root (id 10) carries only
two of the arguments plus the link, so the 7 arguments are distributed
2+2+3 from the root down, not 3+3+1. -/
theorem claim_C1_args_chunking_counterexample :
    7 % 2 + 1 = 2 ∧
    (btor_args_exp argsCtx args7).2 = some ⟨false, 10⟩ ∧
    (getNode (btor_args_exp argsCtx args7).1 8).map (fun n => n.arity) =
      some 3 ∧
    (getNode (btor_args_exp argsCtx args7).1 8).map (fun n => n.arity) ≠
      some (7 % 2 + 1) ∧
    (getNode (btor_args_exp argsCtx args7).1 10).map (fun n => n.e) =
      some [some ⟨false,1⟩, some ⟨false,2⟩, some ⟨false,9⟩] := by
  decide

/-- C1, amended: `btor_args_exp` on 7 arguments returns a right-associated
chain of exactly three args nodes; the root (id 10) holds arguments 1 and 2
plus the link, the middle node (id 9) holds arguments 3 and 4 plus the link,
and the terminal node (id 8) holds arguments 5, 6 and 7 (that is
`argc mod (k-1) + k - 1 = 3` of them for `k = 3` children per node); and
rebuilding the same chain is deterministic: the second call returns the same
root handle and allocates no node. -/
theorem claim_C1_args_chunking :
    (btor_args_exp argsCtx args7).2 = some ⟨false, 10⟩ ∧
    (getNode (btor_args_exp argsCtx args7).1 8).map
      (fun n => (n.kind, n.arity, n.e)) =
      some (.args, 3, [some ⟨false,5⟩, some ⟨false,6⟩, some ⟨false,7⟩]) ∧
    (getNode (btor_args_exp argsCtx args7).1 9).map
      (fun n => (n.kind, n.arity, n.e)) =
      some (.args, 3, [some ⟨false,3⟩, some ⟨false,4⟩, some ⟨false,8⟩]) ∧
    (getNode (btor_args_exp argsCtx args7).1 10).map
      (fun n => (n.kind, n.arity, n.e)) =
      some (.args, 3, [some ⟨false,1⟩, some ⟨false,2⟩, some ⟨false,9⟩]) ∧
    (btor_args_exp (btor_args_exp argsCtx args7).1 args7).2 =
      some ⟨false, 10⟩ ∧
    nodesCount (btor_args_exp (btor_args_exp argsCtx args7).1 args7).1 =
      nodesCount (btor_args_exp argsCtx args7).1 ∧
    nodesCount (btor_args_exp argsCtx args7).1 = 11 := by
  decide

/-! ## Lambda alpha-equivalence hash-consing (claim C4) -/

/-- Start state for the lambda constructions (1024 unique-table buckets). -/
def lamBase : Btor := { emptyBtor with unique_size := 1024 }

/-- Positive scenario: a variable `x` (id 1) and two 8-bit parameters
`p1` (id 2), `p2` (id 3); the bodies `and p1 x` and `and p2 x` close over
no other parameter. -/
def lamCtx : Btor :=
  (btor_param_exp ((btor_param_exp ((btor_var_exp lamBase (.bitvec 8)
    none).1) (.bitvec 8) none).1) (.bitvec 8) none).1

/-- `body1 = and p1 x` (node 4). -/
def lamBody1 : Btor × Handle := btor_and_exp_node lamCtx ⟨false,2⟩ ⟨false,1⟩

/-- `lam1 = λ p1. and p1 x` (node 5). -/
def lamFst : Btor × Handle := btor_lambda_exp_node lamBody1.1 ⟨false,2⟩ lamBody1.2

/-- `body2 = and p2 x` (node 6): `body1` with `p1` renamed to `p2`. -/
def lamBody2 : Btor × Handle := btor_and_exp_node lamFst.1 ⟨false,3⟩ ⟨false,1⟩

/-- `lam2 = λ p2. and p2 x`. -/
def lamSnd : Btor × Handle := btor_lambda_exp_node lamBody2.1 ⟨false,3⟩ lamBody2.2

/-- Negative scenario: three 8-bit parameters `q` (id 1), `p1` (id 2),
`p2` (id 3); the bodies `and p1 q` and `and p2 q` close over the extra
parameter `q`, so the first lambda is marked parameterized. -/
def plamCtx : Btor :=
  (btor_param_exp ((btor_param_exp ((btor_param_exp lamBase (.bitvec 8)
    none).1) (.bitvec 8) none).1) (.bitvec 8) none).1

/-- `body1 = and p1 q` (node 4). -/
def plamBody1 : Btor × Handle := btor_and_exp_node plamCtx ⟨false,2⟩ ⟨false,1⟩

/-- `lam1 = λ p1. and p1 q` (node 5, parameterized). -/
def plamFst : Btor × Handle :=
  btor_lambda_exp_node plamBody1.1 ⟨false,2⟩ plamBody1.2

/-- `body2 = and p2 q` (node 6): `body1` with `p1` renamed to `p2`. -/
def plamBody2 : Btor × Handle := btor_and_exp_node plamFst.1 ⟨false,3⟩ ⟨false,1⟩

/-- `lam2 = λ p2. and p2 q`. -/
def plamSnd : Btor × Handle :=
  btor_lambda_exp_node plamBody2.1 ⟨false,3⟩ plamBody2.2

/-- C4, counterexample: `p1` (id 2) and `p2` (id 3) have the same sort, and
`body2` (node 6, `and p2 q`) is `body1` (node 4, `and p1 q`) with `p1`
renamed to `p2` — yet the two lambda constructions return different ids
(5 and 7): because the bodies close over the extra parameter `q`, the first
lambda is parameterized and `find_lambda_exp` skips the
`compare_lambda_exp` alpha-comparison for parameterized candidates. -/
theorem claim_C4_lambda_alpha_counterexample :
    (getNode plamSnd.1 2).map (fun n => (n.kind, n.sort_id)) =
      (getNode plamSnd.1 3).map (fun n => (n.kind, n.sort_id)) ∧
    (getNode plamSnd.1 4).map (fun n => (n.kind, n.e)) =
      some (.and, [some ⟨false,1⟩, some ⟨false,2⟩, none]) ∧
    (getNode plamSnd.1 6).map (fun n => (n.kind, n.e)) =
      some (.and, [some ⟨false,1⟩, some ⟨false,3⟩, none]) ∧
    (getNode plamSnd.1 5).map (fun n => (n.kind, n.parameterized)) =
      some (.lambda, true) ∧
    plamFst.2 = ⟨false, 5⟩ ∧ plamSnd.2 = ⟨false, 7⟩ ∧
    plamFst.2.id ≠ plamSnd.2.id := by
  decide

/-- C4, amended: when the interned lambda is not parameterized (its body has
no free parameter besides its own), alpha-equivalent construction is
hash-consed: `λ p1. and p1 x` and `λ p2. and p2 x` (`p1`, `p2` of the same
sort, the second body the first with `p1` renamed to `p2`) return the same
id 5, and the second construction allocates no node. -/
theorem claim_C4_lambda_alpha :
    (getNode lamSnd.1 2).map (fun n => (n.kind, n.sort_id)) =
      (getNode lamSnd.1 3).map (fun n => (n.kind, n.sort_id)) ∧
    (getNode lamSnd.1 4).map (fun n => (n.kind, n.e)) =
      some (.and, [some ⟨false,1⟩, some ⟨false,2⟩, none]) ∧
    (getNode lamSnd.1 6).map (fun n => (n.kind, n.e)) =
      some (.and, [some ⟨false,1⟩, some ⟨false,3⟩, none]) ∧
    (getNode lamSnd.1 5).map (fun n => (n.kind, n.parameterized)) =
      some (.lambda, false) ∧
    lamFst.2 = ⟨false, 5⟩ ∧ lamSnd.2 = ⟨false, 5⟩ ∧
    nodesCount lamSnd.1 = nodesCount lamBody2.1 := by
  decide
